import Mathlib

/-! # Verification development for the metalink verifier and the host cache of Wget

Shallow embedding of `src/metalink.c` (`parse_metalink`, `elect_resources`, `elect_checksums`,
`lower_hex_case`, `verify_file_hash`), of `src/host.c` (address lists, the DNS cache and its
callers, `sufmatch`), of `src/utils.c` (`match_tail`, `number_to_string`, `unique_name`,
`sepstring`) and of the segment plan that `src/multi.h` declares, followed by the theorems
about them.

Conventions of the embedding.

* A C string is the list of its bytes before the terminating NUL (`CString`); the buffer that
  holds a string `s` made by `xstrdup` has exactly `s.length + 1` bytes, and the block that
  `malloc (n)` gives has exactly `n` bytes.
* A C `int` is an `Int`; the counters of the program (list lengths, reference counts) stay far
  below `INT_MAX`, so no wrap-around is modelled.
* A run that leaves the defined behaviour of C (an access outside an array or allocation, an
  access through a freed or a NULL pointer) or that aborts in `assert` ends in `Run.fault`.
* The messages that `lookup_host` logs are kept in the state; the other log output
  (`logprintf` of metalink.c, `DEBUGP`) is not modelled.
-/

namespace Wget

/-! ## Common definitions -/

/-- The ways a run can end without returning to its caller. -/
inductive Fault where
  /-- an access outside the bounds of an array or of a heap allocation -/
  | out_of_bounds
  /-- an `assert` whose condition is false (the program aborts) -/
  | assert_failed
  /-- an access through a pointer to a freed object -/
  | dangling
  /-- an access through a NULL pointer -/
  | null_pointer
deriving DecidableEq, Repr

/-- Outcome of running a piece of C code: it returns a value, or the run ends in a fault. -/
inductive Run (α : Type) where
  | ok (a : α)
  | fault (f : Fault)
deriving DecidableEq, Repr

/-- Sequencing of runs: a fault ends the run. -/
def Run.bind {α β : Type} (r : Run α) (k : α → Run β) : Run β :=
  match r with
  | .ok a => k a
  | .fault f => .fault f

/-- The value part of a run, forgetting the second component. -/
def Run.fst {α β : Type} (r : Run (α × β)) : Run α :=
  match r with
  | .ok p => .ok p.1
  | .fault f => .fault f

/-- A C string: its bytes before the terminating NUL. -/
abbrev CString := List Nat

/-- The bytes of a string literal. -/
def cstr (s : String) : CString := s.toList.map Char.toNat

/-- The libc `strcmp` on two strings: zero when they are equal, negative or positive according
to the order of the first two bytes that differ (the end of a string reads as the NUL byte,
which is below every byte of a string). The C standard fixes only the sign of the result. -/
def strcmp : CString → CString → Int
  | [], [] => 0
  | [], _ :: _ => -1
  | _ :: _, [] => 1
  | a :: as, b :: bs => if a = b then strcmp as bs else if a < b then -1 else 1

/-! ## metalink.c -/

/-- The macro `HASH_TYPES`. -/
def HASH_TYPES : Nat := 3

/-- The macro `MAX_DIGEST_LENGTH`. -/
def MAX_DIGEST_LENGTH : Nat := 32

/-- Digest length of SHA-256 in bytes (`SHA256_DIGEST_SIZE` of gnulib's sha256.h). -/
def SHA256_DIGEST_SIZE : Nat := 32

/-- Digest length of SHA-1 in bytes (`SHA1_DIGEST_SIZE` of gnulib's sha1.h). -/
def SHA1_DIGEST_SIZE : Nat := 20

/-- Digest length of MD5 in bytes (`MD5_DIGEST_SIZE` of gnulib's md5.h). -/
def MD5_DIGEST_SIZE : Nat := 16

/-- The table `supported_hashes`, in decreasing order of strength. -/
def supported_hashes : List CString := [cstr "sha256", cstr "sha1", cstr "md5"]

/-- The table `digest_sizes`. -/
def digest_sizes : List Nat := [SHA256_DIGEST_SIZE, SHA1_DIGEST_SIZE, MD5_DIGEST_SIZE]

/-- A checksum record `mlink_checksum` (the `next` pointer is the tail of the list that holds
the record). `parse_metalink` only stores records whose type and hash are both present. -/
structure mlink_checksum where
  type : CString
  hash : CString
deriving DecidableEq, Repr

/-- What `verify_file_hash` uses of its environment: the file system and the digest functions
of gnulib, which are black boxes. -/
structure HashEnv where
  /-- The call `fopen (filename, "r")`: the stream of the file, `none` for a NULL result. -/
  fopen : CString → Option (List Nat)
  /-- The call `sha256_stream (file, hash_raw)`: `none` for a non-zero return value, otherwise the
  content of `hash_raw` after the call (byte at each index). -/
  sha256_stream : List Nat → Option (Nat → Nat)
  /-- The call `sha1_stream (file, hash_raw)`, as above. -/
  sha1_stream : List Nat → Option (Nat → Nat)
  /-- The call `md5_stream (file, hash_raw)`, as above. -/
  md5_stream : List Nat → Option (Nat → Nat)

/-- The table `hash_function`. -/
def hash_function (env : HashEnv) : List (List Nat → Option (Nat → Nat)) :=
  [env.sha256_stream, env.sha1_stream, env.md5_stream]

/-- The byte update of `lower_hex_case`: `if ('A' <= c && c <= 'Z') c += 32`. -/
def lower_byte (c : Nat) : Nat := if 65 ≤ c ∧ c ≤ 90 then c + 32 else c

/-- The loop of `lower_hex_case` from index `i` on, `n` iterations left, over the buffer that
holds the string `rest` from index `i` on. Reading the terminating NUL (index `strlen`) changes
nothing; an index behind the NUL is outside the buffer. -/
def lower_hex_case_loop : Nat → CString → Run CString
  | 0, rest => .ok rest
  | n + 1, c :: rest =>
      match lower_hex_case_loop n rest with
      | .ok rest1 => .ok (lower_byte c :: rest1)
      | .fault f => .fault f
  | 1, [] => .ok []
  | _ + 2, [] => .fault .out_of_bounds

/-- The function `lower_hex_case (hash, length)` on the buffer of the string `hash`: the new
content of the string. -/
def lower_hex_case (hash : CString) (length : Nat) : Run CString :=
  lower_hex_case_loop length hash

/-- One hexadecimal digit as printed by the conversion `%x`. -/
def hex_digit (d : Nat) : Nat := if d < 10 then 48 + d else 87 + d

/-- The two characters that `sprintf (.., "%02x", b)` writes for an `unsigned char` b. -/
def sprintf_02x (b : Nat) : CString := [hex_digit (b / 16), hex_digit (b % 16)]

/-- The content of `file_hash` after the loop
`for (j = 0; j < size; ++j) sprintf (file_hash + 2 * j, "%02x", hash_raw[j])`;
`hash_raw` holds `unsigned char`s. -/
def hex_encode (hash_raw : Nat → Nat) (size : Nat) : CString :=
  (List.range size).flatMap fun j => sprintf_02x (hash_raw j % 256)

/-- The inner loop of the fill phase for one record, `ptr` being the position of the record in
the list (it stands for the pointer `checksum->hash`):
`for (j = 0; j < HASH_TYPES; ++j) if (!strcmp (checksum->type, supported_hashes[j])) ...`,
walking `supported_hashes` and `metalink_hashes` in step. `none` is the `return 1` taken when
the slot is already filled. -/
def fill_slots (type : CString) (ptr : Nat) :
    List CString → List (Option Nat) → Option (List (Option Nat))
  | s :: ss, m :: ms =>
      if strcmp type s = 0 then
        match m with
        | some _ => none
        | none => (fill_slots type ptr ss ms).map fun r => some ptr :: r
      else (fill_slots type ptr ss ms).map fun r => m :: r
  | _, _ => some []

/-- The fill phase: `for (checksum = checksums; checksum; checksum = checksum->next) ...`;
`ptr` is the position of the head of the remaining list. -/
def fill_hashes : List mlink_checksum → Nat → List (Option Nat) → Option (List (Option Nat))
  | [], _, mh => some mh
  | c :: cs, ptr, mh =>
      match fill_slots c.type ptr supported_hashes mh with
      | none => none
      | some mh1 => fill_hashes cs (ptr + 1) mh1

/-- The loop `for (i = 0; !metalink_hashes[i]; ++i);` started at index `i` on the slots from
`i` on: it stops at the first filled slot, and it has no test of `i` against `HASH_TYPES`, so
when no slot is filled it reads behind the end of the array. -/
def first_filled : List (Option Nat) → Nat → Run Nat
  | [], _ => .fault .out_of_bounds
  | some _ :: _, i => .ok i
  | none :: ms, i => first_filled ms (i + 1)

/-- The part of `verify_file_hash` behind a successful `fopen`, for the digest function `stream`
of the elected type, its digest size `size` and the manifest digest `hash`: compute the digest,
turn it to hex form, lower the first `2 * size` bytes of the manifest digest in place and compare
with `strcmp`. The result is the return value and the manifest digest afterwards. -/
def digest_compare (stream : List Nat → Option (Nat → Nat)) (size : Nat) (file : List Nat)
    (hash : CString) : Run (Int × CString) :=
  match stream file with
  | none => .ok (1, hash)
  | some hash_raw =>
    let file_hash := hex_encode hash_raw size
    match lower_hex_case hash (2 * size) with
    | .fault f => .fault f
    | .ok lowered =>
      if strcmp lowered file_hash ≠ 0 then .ok (-1, lowered) else .ok (0, lowered)

/-- The last part of `verify_file_hash`, from `fopen` on, for the elected type `req_type` and
the manifest digest `hash` that `metalink_hashes[req_type]` points to. -/
def compare_hash (env : HashEnv) (filename : CString) (req_type : Nat) (hash : CString) :
    Run (Int × CString) :=
  match env.fopen filename with
  | none => .ok (1, hash)
  | some file =>
    match (hash_function env)[req_type]?, digest_sizes[req_type]? with
    | some stream, some size => digest_compare stream size file hash
    | _, _ => .fault .out_of_bounds

/-- The function `verify_file_hash (filename, checksums)`: the return value (-1, 0 or 1)
together with the checksum list afterwards (the digest of the elected record is lowered in
place). -/
def verify_file_hash_run (env : HashEnv) (filename : CString) (checksums : List mlink_checksum) :
    Run (Int × List mlink_checksum) :=
  if checksums = [] then .ok (1, checksums) else
  match fill_hashes checksums 0 (List.replicate HASH_TYPES none) with
  | none => .ok (1, checksums)
  | some metalink_hashes =>
    match first_filled metalink_hashes 0 with
    | .fault f => .fault f
    | .ok i =>
      if i = HASH_TYPES then .ok (1, checksums) else
      match metalink_hashes[i]? with
      | some (some ptr) =>
        match checksums[ptr]? with
        | some c =>
          match compare_hash env filename i c.hash with
          | .fault f => .fault f
          | .ok (res, hash1) => .ok (res, checksums.set ptr { c with hash := hash1 })
        | none => .fault .dangling
      | _ => .fault .out_of_bounds

/-- The return value of `verify_file_hash (filename, checksums)`. -/
def verify_file_hash (env : HashEnv) (filename : CString) (checksums : List mlink_checksum) :
    Run Int :=
  (verify_file_hash_run env filename checksums).fst

/-! ### Vocabulary of the statements about `verify_file_hash` -/

/-- Number of records of `checksums` whose type is `t`. -/
def count_type (checksums : List mlink_checksum) (t : CString) : Nat :=
  checksums.countP fun c => c.type = t

/-- No supported type occurs twice in `checksums`. -/
def no_duplicate_type (checksums : List mlink_checksum) : Prop :=
  ∀ t ∈ supported_hashes, count_type checksums t ≤ 1

/-- Some record of `checksums` has a supported type. -/
def has_supported (checksums : List mlink_checksum) : Prop :=
  ∃ c ∈ checksums, c.type ∈ supported_hashes

instance (checksums : List mlink_checksum) : Decidable (no_duplicate_type checksums) := by
  unfold no_duplicate_type; infer_instance

instance (checksums : List mlink_checksum) : Decidable (has_supported checksums) := by
  unfold has_supported; infer_instance

/-- Position, counted from `ptr` on, of the first record of the list whose type is `t`. -/
def index_of_type (t : CString) : List mlink_checksum → Nat → Option Nat
  | [], _ => none
  | c :: cs, ptr => if c.type = t then some ptr else index_of_type t cs (ptr + 1)

/-- The strongest supported type present in `checksums`: its index in `supported_hashes`
together with the position of its first record. -/
def elected (checksums : List mlink_checksum) : Option (Nat × Nat) :=
  match index_of_type (cstr "sha256") checksums 0 with
  | some p => some (0, p)
  | none =>
    match index_of_type (cstr "sha1") checksums 0 with
    | some p => some (1, p)
    | none =>
      match index_of_type (cstr "md5") checksums 0 with
      | some p => some (2, p)
      | none => none

/-- Whether the file opens and the digest function of the type with index `req_type` succeeds
on it. -/
def can_digest (env : HashEnv) (filename : CString) (req_type : Nat) : Bool :=
  match env.fopen filename with
  | none => false
  | some file =>
    match (hash_function env)[req_type]? with
    | some stream => (stream file).isSome
    | none => false

/-- The comparison that `verify_file_hash` makes when it has elected the digest function
`stream` with digest size `size` and the manifest digest `hash`: 1 when the file cannot be
opened or digested, otherwise 0 or -1 from the comparison. -/
def verify_with (env : HashEnv) (filename : CString) (stream : List Nat → Option (Nat → Nat))
    (size : Nat) (hash : CString) : Run Int :=
  match env.fopen filename with
  | none => .ok 1
  | some file => (digest_compare stream size file hash).fst

/-- An environment for examples: every file opens, and every digest function succeeds with a
digest whose bytes are all 0xab. -/
def env_ab : HashEnv :=
  { fopen := fun _ => some [],
    sha256_stream := fun _ => some fun _ => 171,
    sha1_stream := fun _ => some fun _ => 171,
    md5_stream := fun _ => some fun _ => 171 }

/-- Whether the fill phase can go through the list without meeting a filled slot again:
a slot that is filled must meet no record of its type, an empty one at most one. -/
def slot_ok (m : Option Nat) (cs : List mlink_checksum) (t : CString) : Prop :=
  match m with
  | some _ => count_type cs t = 0
  | none => count_type cs t ≤ 1

instance (m : Option Nat) (cs : List mlink_checksum) (t : CString) :
    Decidable (slot_ok m cs t) := by
  unfold slot_ok; cases m <;> infer_instance

/-- The slot of type `t` after the fill phase over `cs`, the head of `cs` having position
`ptr`. -/
def slot_val (m : Option Nat) (cs : List mlink_checksum) (ptr : Nat) (t : CString) : Option Nat :=
  match m with
  | some p => some p
  | none => index_of_type t cs ptr

/-! ### `parse_metalink`

The structures of libmetalink and of metalink.h are not among the sources; they are given here
with the fields that metalink.c uses. The block that `malloc` gives for the result is given
with its size, because `parse_metalink` asks for it with `sizeof` of a variable; the other
allocations ask for the size of the type they hold. -/

/-- Modelled from the spec: a location of a manifest file (`metalink_resource_t`); a string
that is absent is a NULL pointer. -/
structure metalink_resource_t where
  url : Option CString
  type : Option CString
  location : Option CString
  preference : Int
  maxconnections : Int
deriving DecidableEq, Repr

/-- Modelled from the spec: a checksum of a manifest file (`metalink_checksum_t`). -/
structure metalink_checksum_t where
  type : Option CString
  hash : Option CString
deriving DecidableEq, Repr

/-- Modelled from the spec: a per-piece digest (`metalink_piece_hash_t`). -/
structure metalink_piece_hash_t where
  piece : Int
  hash : Option CString
deriving DecidableEq, Repr

/-- Modelled from the spec: the chunked-checksum descriptor of a manifest file
(`metalink_chunk_checksum_t`); `piece_hashes` is a NULL-terminated array or NULL. -/
structure metalink_chunk_checksum_t where
  length : Int
  type : Option CString
  piece_hashes : Option (List metalink_piece_hash_t)
deriving DecidableEq, Repr

/-- Modelled from the spec: a file of the parsed manifest (`metalink_file_t`); `resources` and
`checksums` are NULL-terminated arrays, or NULL when the file has no such element. -/
structure metalink_file_t where
  name : Option CString
  size : Int
  maxconnections : Int
  version : Option CString
  language : Option CString
  os : Option CString
  resources : Option (List metalink_resource_t)
  checksums : Option (List metalink_checksum_t)
  chunk_checksum : Option metalink_chunk_checksum_t
deriving DecidableEq, Repr

/-- Modelled from the spec: the parsed manifest (`metalink_t`). -/
structure metalink_t where
  identity : Option CString
  tags : Option CString
  files : Option (List metalink_file_t)
deriving DecidableEq, Repr

/-- Modelled from the spec: a location of a descriptor (`mlink_resource`); the `next` pointer
is the tail of the list that holds the record. -/
structure mlink_resource where
  url : CString
  type : Option CString
  location : Option CString
  preference : Int
  maxconnections : Int
deriving DecidableEq, Repr

/-- Modelled from the spec: the chunked-checksum descriptor of a descriptor
(`mlink_chunk_checksum`). -/
structure mlink_chunk_checksum where
  length : Int
  type : Option CString
  piece_hashes : List CString
deriving DecidableEq, Repr

/-- Modelled from the spec: a descriptor (`mlink_file`). -/
structure mlink_file where
  name : CString
  size : Int
  maxconnections : Int
  version : Option CString
  language : Option CString
  os : Option CString
  resources : List mlink_resource
  checksums : List mlink_checksum
  chunk_checksum : Option mlink_chunk_checksum
  num_of_res : Int
  num_of_checksums : Int
deriving DecidableEq, Repr

/-- Modelled from the spec: the result of `parse_metalink` (`mlink`). -/
structure mlink where
  identity : Option CString
  tags : Option CString
  files : List mlink_file
  num_of_files : Int
deriving DecidableEq, Repr

/-- The loop of `parse_metalink` over the resources of a file, from the list built so far and
the counter `num_of_res`: a resource without URL is skipped, another one is copied and put in
front of the list. -/
def parse_resources :
    List metalink_resource_t → List mlink_resource × Int → List mlink_resource × Int
  | [], acc => acc
  | r :: rest, (resources, num_of_res) =>
    match r.url with
    | none => parse_resources rest (resources, num_of_res)
    | some url =>
      parse_resources rest
        ({ url := url, type := r.type, location := r.location, preference := r.preference,
           maxconnections := r.maxconnections } :: resources, num_of_res + 1)

/-- The loop of `parse_metalink` over the checksums of a file: a checksum without type or
without hash is skipped, another one is copied and put in front of the list. The counter
`num_of_checksums` is not touched. -/
def parse_checksums : List metalink_checksum_t → List mlink_checksum → List mlink_checksum
  | [], acc => acc
  | c :: rest, checksums =>
    match c.type, c.hash with
    | some type, some hash => parse_checksums rest ({ type := type, hash := hash } :: checksums)
    | _, _ => parse_checksums rest checksums

/-- The loop of `parse_metalink` over the piece hashes: its test `!chunk_checksum->type` is
made where the type is known to be present, so no iteration does anything. -/
def parse_piece_hashes (type : Option CString) : List metalink_piece_hash_t → Unit
  | [] => ()
  | _ :: rest => if type = none then () else parse_piece_hashes type rest

/-- The part of `parse_metalink` for the chunked-checksum descriptor of a file: the value of
`file->chunk_checksum` afterwards. The record `chunk_sum` that is built is never stored, so
the field keeps the NULL it was set to. -/
def parse_chunk_checksum : Option metalink_chunk_checksum_t → Run (Option mlink_chunk_checksum)
  | none => .ok none
  | some chunk_checksum =>
    match chunk_checksum.type with
    | none => .ok none
    | some _ =>
      match chunk_checksum.piece_hashes with
      | none => .fault .null_pointer
      | some piece_hashes =>
        let _ := parse_piece_hashes chunk_checksum.type piece_hashes
        .ok none

/-- The body of the loop of `parse_metalink` over the files, for one file: `none` when the file
is skipped, otherwise the descriptor that is put in front of `mlink->files`. The array
`checksums` is read without a test for NULL. -/
def parse_file (f : metalink_file_t) : Run (Option mlink_file) :=
  match f.name with
  | none => .ok none
  | some name =>
    match f.resources with
    | none => .ok none
    | some resources =>
      let (res, num_of_res) := parse_resources resources ([], 0)
      match f.checksums with
      | none => .fault .null_pointer
      | some checksums =>
        let sums := parse_checksums checksums []
        match parse_chunk_checksum f.chunk_checksum with
        | .fault e => .fault e
        | .ok chunk =>
          .ok (some { name := name, size := f.size, maxconnections := f.maxconnections,
                      version := f.version, language := f.language, os := f.os,
                      resources := res, checksums := sums, chunk_checksum := chunk,
                      num_of_res := num_of_res, num_of_checksums := 0 })

/-- The loop of `parse_metalink` over the files of the manifest. -/
def parse_files : List metalink_file_t → mlink → Run mlink
  | [], m => .ok m
  | f :: rest, m =>
    match parse_file f with
    | .fault e => .fault e
    | .ok none => parse_files rest m
    | .ok (some file) =>
      parse_files rest { m with files := file :: m.files, num_of_files := m.num_of_files + 1 }

/-- The size of a pointer in bytes, in a build with pointers of 64 bits. -/
def SIZEOF_POINTER : Nat := 8

/-- Modelled from the spec: the size in bytes of the structure `mlink` of metalink.h, which
holds the fields `identity`, `tags`, `files` (three pointers) and `num_of_files` (an `int`),
with its padding to the alignment of a pointer. -/
def SIZEOF_MLINK : Nat := 32

/-- The function `parse_metalink` with a block of `block` bytes behind the pointer `mlink`,
from the result of `metalink_parse_file`: its return value `err` and the manifest it stored
(`none` is NULL). The result `none` is NULL. The stores to `mlink->identity`, `mlink->tags`,
`mlink->files` and `mlink->num_of_files` go through the whole structure, so they stay inside
the block only when it has the size of the structure. -/
def parse_metalink_block (block : Nat) (err : Int) (metalink : Option metalink_t) :
    Run (Option mlink) :=
  if err ≠ 0 then .ok none else
  match metalink with
  | none => .ok none
  | some ml =>
    match ml.files with
    | none => .ok none
    | some files =>
      if block < SIZEOF_MLINK then .fault .out_of_bounds else
      match parse_files files
          { identity := ml.identity, tags := ml.tags, files := [], num_of_files := 0 } with
      | .fault e => .fault e
      | .ok m => .ok (some m)

/-- The function `parse_metalink`. Its declaration `mlink *mlink;` hides the type of the same
name, so `malloc (sizeof(mlink))` asks for the size of the variable, a pointer, and the block
has that size. -/
def parse_metalink (err : Int) (metalink : Option metalink_t) : Run (Option mlink) :=
  parse_metalink_block SIZEOF_POINTER err metalink

/-- The copy that `parse_metalink` makes of a resource with a URL. -/
def copy_resource (r : metalink_resource_t) : Option mlink_resource :=
  r.url.map fun url =>
    { url := url, type := r.type, location := r.location, preference := r.preference,
      maxconnections := r.maxconnections }

/-- The copy that `parse_metalink` makes of a checksum with a type and a hash. -/
def copy_checksum (c : metalink_checksum_t) : Option mlink_checksum :=
  match c.type, c.hash with
  | some type, some hash => some { type := type, hash := hash }
  | _, _ => none

/-! ### `elect_resources` and `elect_checksums`

These functions walk the linked lists with pointers, unlink records and free them, so the lists
are given here as cells in memory: a pointer is an index, NULL is `none`, a freed cell is
`none`. The loops take a bound on the number of iterations (`fuel`); the result `none` means
that the bound was reached. -/

/-- A record of a linked list together with its `next` pointer. -/
structure Node (α : Type) where
  data : α
  next : Option Nat
deriving DecidableEq, Repr

/-- The cells of a memory of list records. -/
abbrev Cells (α : Type) := List (Option (Node α))

/-- A linked list in memory: its cells and the pointer to its first record, as a field such
as `file->resources` holds it. -/
structure ListMem (α : Type) where
  cells : Cells α
  head : Option Nat
deriving DecidableEq, Repr

/-- A read through the pointer `p`. -/
def Cells.read {α : Type} (cells : Cells α) (p : Option Nat) : Run (Node α) :=
  match p with
  | none => .fault .null_pointer
  | some i =>
    match cells[i]? with
    | some (some n) => .ok n
    | _ => .fault .dangling

/-- A write of the `next` field through the pointer `p`. -/
def Cells.set_next {α : Type} (cells : Cells α) (p : Option Nat) (next : Option Nat) :
    Run (Cells α) :=
  match p with
  | none => .fault .null_pointer
  | some i =>
    match cells[i]? with
    | some (some n) => .ok (cells.set i (some { n with next := next }))
    | _ => .fault .dangling

/-- The call `free (p)` for a pointer that is not NULL. -/
def Cells.free {α : Type} (cells : Cells α) (p : Nat) : Run (Cells α) :=
  match cells[p]? with
  | some (some _) => .ok (cells.set p none)
  | _ => .fault .dangling

/-- The cells of the linked list of the records `l`, laid out one behind the other from the
index `i` on. -/
def load_list {α : Type} : List α → Nat → Cells α
  | [], _ => []
  | [a], _ => [some { data := a, next := none }]
  | a :: b :: rest, i => some { data := a, next := some (i + 1) } :: load_list (b :: rest) (i + 1)

/-- The pointer to the first cell of `load_list l 0`. -/
def head_ptr {α : Type} (l : List α) : Option Nat :=
  if l.isEmpty then none else some 0

/-- The records of the linked list that starts at `p`, read through the `next` pointers. -/
def Cells.to_list {α : Type} : Nat → Cells α → Option Nat → Option (Run (List α))
  | _, _, none => some (.ok [])
  | 0, _, some _ => none
  | fuel + 1, cells, some i =>
    match cells.read (some i) with
    | .fault f => some (.fault f)
    | .ok n =>
      match Cells.to_list fuel cells n.next with
      | none => none
      | some (.fault f) => some (.fault f)
      | some (.ok rest) => some (.ok (n.data :: rest))

/-- The test `strcmp (res->type, "ftp") || strcmp (res->type, "http")` of `elect_resources`. -/
def resource_test (type : Option CString) : Run Bool :=
  match type with
  | none => .fault .null_pointer
  | some t => .ok (decide (strcmp t (cstr "ftp") ≠ 0) || decide (strcmp t (cstr "http") ≠ 0))

/-- The loop `while (res)` of `elect_resources`, with the pointers `prev` and `res`. -/
def elect_resources_loop :
    Nat → Cells mlink_resource → Option Nat → Option Nat → Option (Run (Cells mlink_resource))
  | _, cells, _, none => some (.ok cells)
  | 0, _, _, some _ => none
  | fuel + 1, cells, prev, some res =>
    match cells.read (some res) with
    | .fault f => some (.fault f)
    | .ok res_node =>
      match resource_test res_node.data.type with
      | .fault f => some (.fault f)
      | .ok true =>
        match cells.set_next prev res_node.next with
        | .fault f => some (.fault f)
        | .ok cells1 =>
          match cells1.free res with
          | .fault f => some (.fault f)
          | .ok cells2 => elect_resources_loop fuel cells2 prev (some res)
      | .ok false =>
        match cells.read prev with
        | .fault f => some (.fault f)
        | .ok prev_node =>
          match cells.read prev_node.next with
          | .fault f => some (.fault f)
          | .ok next_node => elect_resources_loop fuel cells prev_node.next next_node.next

/-- The body of the loop of `elect_resources` over the files, for the list `file->resources`:
the cells and the value of `file->resources` afterwards. -/
def elect_resources_file (fuel : Nat) (file : ListMem mlink_resource) :
    Option (Run (ListMem mlink_resource)) :=
  match file.cells.read file.head with
  | .fault f => some (.fault f)
  | .ok head_node =>
    match elect_resources_loop fuel file.cells file.head head_node.next with
    | none => none
    | some (.fault f) => some (.fault f)
    | some (.ok cells1) =>
      match cells1.read file.head with
      | .fault f => some (.fault f)
      | .ok res_node =>
        match resource_test res_node.data.type, file.head with
        | .fault f, _ => some (.fault f)
        | .ok true, some res =>
          match cells1.free res with
          | .fault f => some (.fault f)
          | .ok cells2 => some (.ok { cells := cells2, head := res_node.next })
        | .ok _, _ => some (.ok { cells := cells1, head := file.head })

/-- The function `elect_resources`, on the resource lists of the files of the manifest. -/
def elect_resources (fuel : Nat) :
    List (ListMem mlink_resource) → Option (Run (List (ListMem mlink_resource)))
  | [] => some (.ok [])
  | file :: rest =>
    match elect_resources_file fuel file with
    | none => none
    | some (.fault f) => some (.fault f)
    | some (.ok file1) =>
      match elect_resources fuel rest with
      | none => none
      | some (.fault f) => some (.fault f)
      | some (.ok rest1) => some (.ok (file1 :: rest1))

/-- The loop `for (i = 0; i < HASH_TYPES && strcmp (type, supported_hashes[i]); ++i);` of
`elect_checksums` over the entries of `supported_hashes` from the index `i` on: the value of
`i` afterwards. -/
def supported_index (type : CString) : List CString → Nat → Nat
  | [], i => i
  | s :: rest, i => if strcmp type s ≠ 0 then supported_index type rest (i + 1) else i

/-- The loop `while (csum)` of `elect_checksums`, with the pointers `prev` and `csum`: the
cells and the value of `prev` afterwards. -/
def elect_checksums_loop :
    Nat → Cells mlink_checksum → Option Nat → Option Nat →
      Option (Run (Cells mlink_checksum × Option Nat))
  | _, cells, prev, none => some (.ok (cells, prev))
  | 0, _, _, some _ => none
  | fuel + 1, cells, prev, some csum =>
    match cells.read (some csum) with
    | .fault f => some (.fault f)
    | .ok csum_node =>
      if supported_index csum_node.data.type supported_hashes 0 < HASH_TYPES then
        match cells.set_next prev csum_node.next with
        | .fault f => some (.fault f)
        | .ok cells1 =>
          match cells1.free csum with
          | .fault f => some (.fault f)
          | .ok cells2 => elect_checksums_loop fuel cells2 prev (some csum)
      else
        match cells.read prev with
        | .fault f => some (.fault f)
        | .ok prev_node =>
          match cells.read prev_node.next with
          | .fault f => some (.fault f)
          | .ok next_node => elect_checksums_loop fuel cells prev_node.next next_node.next

/-- The body of the loop of `elect_checksums` over the files, for the list `file->checksums`:
the cells and the value of `file->checksums` afterwards (the function never assigns to it). -/
def elect_checksums_file (fuel : Nat) (file : ListMem mlink_checksum) :
    Option (Run (ListMem mlink_checksum)) :=
  match file.cells.read file.head with
  | .fault f => some (.fault f)
  | .ok head_node =>
    match elect_checksums_loop fuel file.cells file.head head_node.next with
    | none => none
    | some (.fault f) => some (.fault f)
    | some (.ok (cells1, prev)) =>
      match cells1.read file.head, file.head with
      | .ok csum_node, some csum =>
        if supported_index csum_node.data.type supported_hashes 0 < HASH_TYPES then
          match cells1.set_next prev csum_node.next with
          | .fault f => some (.fault f)
          | .ok cells2 =>
            match cells2.free csum with
            | .fault f => some (.fault f)
            | .ok cells3 => some (.ok { cells := cells3, head := file.head })
        else some (.ok { cells := cells1, head := file.head })
      | .fault f, _ => some (.fault f)
      | .ok _, none => some (.fault .null_pointer)

/-- The function `elect_checksums`, on the checksum lists of the files of the manifest. -/
def elect_checksums (fuel : Nat) :
    List (ListMem mlink_checksum) → Option (Run (List (ListMem mlink_checksum)))
  | [] => some (.ok [])
  | file :: rest =>
    match elect_checksums_file fuel file with
    | none => none
    | some (.fault f) => some (.fault f)
    | some (.ok file1) =>
      match elect_checksums fuel rest with
      | none => none
      | some (.fault f) => some (.fault f)
      | some (.ok rest1) => some (.ok (file1 :: rest1))

/-- The linked list of the records `l` in memory, as `parse_metalink` leaves a list. -/
def in_memory {α : Type} (l : List α) : ListMem α :=
  { cells := load_list l 0, head := head_ptr l }

/-- A location for examples, with the given transport type. -/
def resource_of_type (type : String) : mlink_resource :=
  { url := cstr "u", type := some (cstr type), location := none, preference := 0,
    maxconnections := 0 }

/-- A manifest file for examples, with the name "a" and the given arrays. -/
def manifest_file (resources : Option (List metalink_resource_t))
    (checksums : Option (List metalink_checksum_t)) : metalink_file_t :=
  { name := some (cstr "a"), size := 1, maxconnections := 1, version := none, language := none,
    os := none, resources := resources, checksums := checksums, chunk_checksum := none }

/-- A manifest for examples, with the given files. -/
def manifest_of (files : List metalink_file_t) : metalink_t :=
  { identity := none, tags := none, files := some files }

/-! ## host.c (the build without `ENABLE_IPV6`) -/

/-- Modelled from the spec: the type `ip_address` of host.h, a tagged variant of IPv4 bytes
(here the 32-bit value `s_addr`) or IPv6 bytes with a scope id. -/
inductive ip_address where
  | ipv4 (s_addr : Nat)
  | ipv6 (addr : Nat) (scope : Nat)
deriving DecidableEq, Repr

/-- The structure `address_list`; `addresses` is the array of `count` addresses. -/
structure address_list where
  count : Int
  addresses : List ip_address
  faulty : Int
  connected : Int
  refcount : Int
deriving DecidableEq, Repr

/-- The function `address_list_get_bounds`: the pair `(*start, *end)`. -/
def address_list_get_bounds (al : address_list) : Int × Int :=
  (al.faulty, al.count)

/-- The function `address_list_set_faulty`. -/
def address_list_set_faulty (al : address_list) (index : Int) : Run address_list :=
  if index = al.faulty then
    let al1 := { al with faulty := al.faulty + 1 }
    if al1.faulty ≥ al1.count then .ok { al1 with faulty := 0 } else .ok al1
  else .fault .assert_failed

/-- The function `address_list_set_connected`. -/
def address_list_set_connected (al : address_list) : address_list :=
  { al with connected := 1 }

/-- The function `address_list_connected_p`. -/
def address_list_connected_p (al : address_list) : Int :=
  al.connected

/-- The function `address_list_from_ipv4_addresses`; `vec` is the vector of addresses before
its terminating NULL, each address the 32-bit value of its four bytes. The fields that are not
set are zero, as `xnew0` leaves them. -/
def address_list_from_ipv4_addresses (vec : List Nat) : Run address_list :=
  let count : Int := vec.length
  if count > 0 then
    .ok { count := count, addresses := vec.map ip_address.ipv4, faulty := 0, connected := 0,
          refcount := 1 }
  else .fault .assert_failed

/-- Modelled from the spec: the macro `TOLOWER`, which replaces A-Z by a-z. -/
def TOLOWER (c : Nat) : Nat := if 65 ≤ c ∧ c ≤ 90 then c + 32 else c

/-- The function `xstrdup_lower` of utils.c. -/
def xstrdup_lower (s : CString) : CString := s.map TOLOWER

/-- Modelled from the spec: the hash table of hash.c made by `make_nocase_string_hash_table`,
a mapping from host names, compared without regard to letter case, to pointers to address
lists. -/
abbrev hash_table := List (CString × Nat)

/-- Modelled from the spec: key equality of the table (host names that differ only in letter
case are one key). -/
def same_key (a b : CString) : Bool := a.map TOLOWER == b.map TOLOWER

/-- Modelled from the spec: `hash_table_get`, the value stored under `key` or NULL. -/
def hash_table_get (ht : hash_table) (key : CString) : Option Nat :=
  (ht.find? fun e => same_key e.1 key).map Prod.snd

/-- Modelled from the spec: `hash_table_put`, which stores `value` under `key` and replaces an
entry of that key. -/
def hash_table_put (ht : hash_table) (key : CString) (value : Nat) : hash_table :=
  (key, value) :: ht.filter fun e => !same_key e.1 key

/-- Modelled from the spec: `hash_table_remove`. -/
def hash_table_remove (ht : hash_table) (key : CString) : hash_table :=
  ht.filter fun e => !same_key e.1 key

/-- What one call of `gethostbyname` under `run_with_timeout` does. -/
inductive ResolverResult where
  /-- the call of `run_with_timeout` reports that the time limit was hit -/
  | timeout
  /-- the call of `gethostbyname` returns NULL and sets `h_errno` -/
  | failure (h_errno : Int)
  /-- the call of `gethostbyname` returns a host entry with this `h_addr_list` -/
  | hostent (h_addr_list : List Nat)
deriving DecidableEq, Repr

/-- A line of the log of `lookup_host`. -/
inductive LogMsg where
  /-- the message `Resolving %s... ` -/
  | resolving (host : CString)
  /-- the message `failed: %s.` with the text of `host_errstr` -/
  | failed (errstr : CString)
  /-- the message `failed: timed out.` -/
  | failed_timed_out
  /-- the printed addresses, and whether `, ...` follows them -/
  | addresses (shown : List ip_address) (more : Bool)
deriving DecidableEq, Repr

/-- What host.c uses of its environment: the options, the constants of the system headers, and
the resolver of the C library, which may answer differently at each call. -/
structure HostEnv where
  /-- the option `opt.dns_cache` -/
  dns_cache : Bool
  /-- the value of `inet_addr (host)`, 32 bits wide; all bits are set when `host` is not a
  numeric address -/
  inet_addr : CString → Nat
  /-- the outcome of the call number `n` (counted from 0) of the resolver for a host name -/
  resolve : Nat → CString → ResolverResult
  ETIMEDOUT : Int
  HOST_NOT_FOUND : Int
  NO_RECOVERY : Int
  NO_DATA : Int
  NO_ADDRESS : Int
  TRY_AGAIN : Int

/-- The state of host.c: the heap of address lists (a pointer is an index, a freed list is
`none`), the static `host_name_addresses_map` (`none` is NULL), `errno` and `h_errno`, the
number of resolver calls made so far, and the log. -/
structure HostState where
  heap : List (Option address_list)
  host_name_addresses_map : Option hash_table
  errno : Int
  h_errno : Int
  resolver_calls : Nat
  log : List LogMsg
deriving DecidableEq, Repr

/-- The list a pointer points to, `none` when it was freed or never allocated. -/
def HostState.deref (s : HostState) (al : Nat) : Option address_list :=
  (s.heap[al]?).join

/-- Allocation of a new list (`xnew0`): the new pointer and the state. -/
def HostState.alloc (s : HostState) (al : address_list) : Nat × HostState :=
  (s.heap.length, { s with heap := s.heap ++ [some al] })

/-- Update of the list behind a live pointer. -/
def HostState.store (s : HostState) (al : Nat) (v : address_list) : HostState :=
  { s with heap := s.heap.set al (some v) }

/-- The function `gethostbyname_with_timeout`: the `h_addr_list` of the host entry, or `none`
for NULL. -/
def gethostbyname_with_timeout (env : HostEnv) (host_name : CString) (s : HostState) :
    Option (List Nat) × HostState :=
  let s1 := { s with resolver_calls := s.resolver_calls + 1 }
  match env.resolve s.resolver_calls host_name with
  | .timeout => (none, { s1 with h_errno := env.HOST_NOT_FOUND, errno := env.ETIMEDOUT })
  | .failure e => (none, { s1 with h_errno := e, errno := 0 })
  | .hostent l => (some l, s1)

/-- The function `host_errstr`. -/
def host_errstr (env : HostEnv) (error : Int) : CString :=
  if error = env.HOST_NOT_FOUND ∨ error = env.NO_RECOVERY ∨ error = env.NO_DATA
      ∨ error = env.NO_ADDRESS then
    cstr "Unknown host"
  else if error = env.TRY_AGAIN then
    cstr "Temporary failure in name resolution"
  else
    cstr "Unknown error"

/-- The function `cache_host_lookup (host, al)`. -/
def cache_host_lookup (host : CString) (al : Nat) (s : HostState) : Run HostState :=
  let map := match s.host_name_addresses_map with
    | none => ([] : hash_table)
    | some ht => ht
  match s.deref al with
  | none => .fault .dangling
  | some v =>
    let s1 := s.store al { v with refcount := v.refcount + 1 }
    .ok { s1 with host_name_addresses_map := some (hash_table_put map (xstrdup_lower host) al) }

/-- The printing of the addresses in `lookup_host`: at most three of them. -/
def log_addresses (al : address_list) : LogMsg :=
  let printmax : Int := if al.count ≤ 3 then al.count else 3
  .addresses (al.addresses.take printmax.toNat) (decide (printmax ≠ al.count))

/-- The function `lookup_host (host, silent)`: the returned pointer (`none` is NULL) and the
state afterwards. -/
def lookup_host (env : HostEnv) (host : CString) (silent : Int) (s : HostState) :
    Run (Option Nat × HostState) :=
  let addr_ipv4 := env.inet_addr host % 4294967296
  if addr_ipv4 ≠ 4294967295 then
    match address_list_from_ipv4_addresses [addr_ipv4] with
    | .fault f => .fault f
    | .ok v => let (al, s1) := s.alloc v; .ok (some al, s1)
  else
  match s.host_name_addresses_map.bind fun ht => hash_table_get ht host with
  | some al =>
    match s.deref al with
    | none => .fault .dangling
    | some v => .ok (some al, s.store al { v with refcount := v.refcount + 1 })
  | none =>
    let s1 := if silent = 0 then { s with log := s.log ++ [.resolving host] } else s
    match gethostbyname_with_timeout env host s1 with
    | (none, s2) =>
      let s3 :=
        if silent = 0 then
          if s2.errno ≠ env.ETIMEDOUT then
            { s2 with log := s2.log ++ [.failed (host_errstr env s2.h_errno)] }
          else { s2 with log := s2.log ++ [.failed_timed_out] }
        else s2
      .ok (none, s3)
    | (some h_addr_list, s2) =>
      match address_list_from_ipv4_addresses h_addr_list with
      | .fault f => .fault f
      | .ok v =>
        let (al, s3) := s2.alloc v
        let s4 := if silent = 0 then { s3 with log := s3.log ++ [log_addresses v] } else s3
        if env.dns_cache then
          match cache_host_lookup host al s4 with
          | .fault f => .fault f
          | .ok s5 => .ok (some al, s5)
        else .ok (some al, s4)

/-- The function `address_list_delete`: the list and its array of addresses are freed. -/
def address_list_delete (al : Nat) (s : HostState) : HostState :=
  { s with heap := s.heap.set al none }

/-- The function `address_list_release`. -/
def address_list_release (al : Nat) (s : HostState) : Run HostState :=
  match s.deref al with
  | none => .fault .dangling
  | some v =>
    let v1 := { v with refcount := v.refcount - 1 }
    let s1 := s.store al v1
    if v1.refcount ≤ 0 then .ok (address_list_delete al s1) else .ok s1

/-- The function `forget_host_lookup`. It hands `host_name_addresses_map` to `hash_table_get`
without the test for NULL that `lookup_host` and `host_cleanup` make, and `hash_table_get`
reads the table through its pointer. -/
def forget_host_lookup (host : CString) (s : HostState) : Run HostState :=
  match s.host_name_addresses_map with
  | none => .fault .null_pointer
  | some ht =>
    match hash_table_get ht host with
    | none => .ok s
    | some al =>
      match address_list_release al s with
      | .fault f => .fault f
      | .ok s1 => .ok { s1 with host_name_addresses_map := some (hash_table_remove ht host) }

/-- The function `host_cleanup_mapper` for the entry with the value `value` (the memory of the
key is not part of the state). -/
def host_cleanup_mapper (value : Nat) (s : HostState) : Run HostState :=
  match s.deref value with
  | none => .fault .dangling
  | some v => if v.refcount = 1 then .ok (address_list_delete value s) else .fault .assert_failed

/-- Modelled from the spec: `hash_table_map` with `host_cleanup_mapper`, which is called on
every entry of the table in turn (the mapper returns 0, so the walk goes on to the end). -/
def hash_table_map_cleanup : hash_table → HostState → Run HostState
  | [], s => .ok s
  | e :: rest, s =>
    match host_cleanup_mapper e.2 s with
    | .fault f => .fault f
    | .ok s1 => hash_table_map_cleanup rest s1

/-- The function `host_cleanup`. -/
def host_cleanup (s : HostState) : Run HostState :=
  match s.host_name_addresses_map with
  | none => .ok s
  | some ht =>
    match hash_table_map_cleanup ht s with
    | .fault f => .fault f
    | .ok s1 => .ok { s1 with host_name_addresses_map := none }

/-- The state after a sequence of `address_list_release` calls on one list. -/
def release_times : Nat → Nat → HostState → Run HostState
  | 0, _, s => .ok s
  | n + 1, al, s =>
    match address_list_release al s with
    | .ok s1 => release_times n al s1
    | .fault f => .fault f

/-- The value of a string of decimal digits, `none` when the string is empty, has another
character, or has a leading zero in front of further digits. -/
def decimal_value (digits : CString) : Option Nat :=
  if digits = [] ∨ (digits.head? = some 48 ∧ digits.length ≠ 1) then none
  else digits.foldl
    (fun acc c => acc.bind fun n => if 48 ≤ c ∧ c ≤ 57 then some (10 * n + (c - 48)) else none)
    (some 0)

/-- The parts of a string between its dots. -/
def split_dots : CString → List CString
  | [] => [[]]
  | c :: rest =>
    if c = 46 then [] :: split_dots rest
    else
      match split_dots rest with
      | [] => [[c]]
      | part :: parts => (c :: part) :: parts

/-- The function `inet_addr` of the C library on the dotted-decimal form `a.b.c.d` with four
numbers up to 255: the 32-bit value with the bytes a, b, c, d. The error value `INADDR_NONE`
has all bits set, so it is also the value of the address 255.255.255.255. The other forms that
the C library accepts (fewer parts, octal, hexadecimal) read as errors here. -/
def inet_addr_dotted (host : CString) : Nat :=
  match (split_dots host).map decimal_value with
  | [some a, some b, some c, some d] =>
    if a ≤ 255 ∧ b ≤ 255 ∧ c ≤ 255 ∧ d ≤ 255 then a * 16777216 + b * 65536 + c * 256 + d
    else 4294967295
  | _ => 4294967295

/-- An environment for examples: caching is on, `inet_addr` is that of the C library on dotted
decimal addresses, and every resolver call succeeds with the address 255.255.255.255. -/
def env_dotted : HostEnv :=
  { dns_cache := true, inet_addr := inet_addr_dotted,
    resolve := fun _ _ => .hostent [4294967295],
    ETIMEDOUT := 110, HOST_NOT_FOUND := 1, NO_RECOVERY := 3, NO_DATA := 4, NO_ADDRESS := 4,
    TRY_AGAIN := 2 }

/-- A state for examples: as `cached_state`, after the caller has released its reference. -/
def idle_state : HostState :=
  { heap := [some { count := 3, addresses := [.ipv4 1, .ipv4 2, .ipv4 3], faulty := 1,
                    connected := 1, refcount := 1 }],
    host_name_addresses_map := some [(cstr "example.org", 0)],
    errno := 0, h_errno := 0, resolver_calls := 1, log := [] }

/-- An environment for examples: as `env_dns`, with caching off. -/
def env_nocache : HostEnv :=
  { dns_cache := false, inet_addr := fun _ => 4294967295,
    resolve := fun _ _ => .hostent [1, 2],
    ETIMEDOUT := 110, HOST_NOT_FOUND := 1, NO_RECOVERY := 3, NO_DATA := 4, NO_ADDRESS := 4,
    TRY_AGAIN := 2 }

/-- The state after a sequence of `address_list_set_faulty` calls, each made with the current
value of `faulty` as index. -/
def set_faulty_times : Nat → address_list → Run address_list
  | 0, al => .ok al
  | n + 1, al =>
    match address_list_set_faulty al al.faulty with
    | .ok al1 => set_faulty_times n al1
    | .fault f => .fault f

/-- The state after a lookup that misses the cache and whose resolver call succeeds. -/
def miss_state (env : HostEnv) (host : CString) (silent : Int) (s : HostState)
    (vec : List Nat) : HostState :=
  { heap := s.heap ++ [some { count := vec.length, addresses := vec.map ip_address.ipv4,
                              faulty := 0, connected := 0,
                              refcount := if env.dns_cache then 2 else 1 }],
    host_name_addresses_map :=
      if env.dns_cache then
        some (hash_table_put (s.host_name_addresses_map.getD []) (xstrdup_lower host)
          s.heap.length)
      else s.host_name_addresses_map,
    errno := s.errno,
    h_errno := s.h_errno,
    resolver_calls := s.resolver_calls + 1,
    log := if silent = 0 then
        s.log ++ [.resolving host,
          log_addresses { count := vec.length, addresses := vec.map ip_address.ipv4,
                          faulty := 0, connected := 0, refcount := 1 }]
      else s.log }

/-- An environment for examples: caching is on, no host name is numeric, and every resolver
call succeeds with the two addresses 1 and 2. -/
def env_dns : HostEnv :=
  { dns_cache := true, inet_addr := fun _ => 4294967295,
    resolve := fun _ _ => .hostent [1, 2],
    ETIMEDOUT := 110, HOST_NOT_FOUND := 1, NO_RECOVERY := 3, NO_DATA := 4, NO_ADDRESS := 4,
    TRY_AGAIN := 2 }

/-- The state of host.c at program start: no list, `host_name_addresses_map` is NULL. -/
def initial_state : HostState :=
  { heap := [], host_name_addresses_map := none, errno := 0, h_errno := 0,
    resolver_calls := 0, log := [] }

/-- A state for examples: the cache maps "example.org" to a list of three addresses whose first
address is marked faulty and which one caller holds. -/
def cached_state : HostState :=
  { heap := [some { count := 3, addresses := [.ipv4 1, .ipv4 2, .ipv4 3], faulty := 1,
                    connected := 1, refcount := 2 }],
    host_name_addresses_map := some [(cstr "example.org", 0)],
    errno := 0, h_errno := 0, resolver_calls := 1, log := [] }

/-! ## host.c: positions, search and the operations on one list -/

/-- The function `address_list_address_at`: the address at position `pos` (the code returns
the pointer `al->addresses + pos`). -/
def address_list_address_at (al : address_list) (pos : Int) : Run ip_address :=
  if pos ≥ al.faulty ∧ pos < al.count then
    match al.addresses[pos.toNat]? with
    | some ip => .ok ip
    | none => .fault .out_of_bounds
  else .fault .assert_failed

/-- The loop `for (i = 0; i < al->count; i++)` of `address_list_find` from the index `i` on, `n`
iterations left, with the test `same` of the entry against the address that is searched. -/
def address_list_find_loop (same : ip_address → Bool) (addresses : List ip_address) :
    Nat → Nat → Run Int
  | 0, _ => .ok 0
  | n + 1, i =>
    match addresses[i]? with
    | none => .fault .out_of_bounds
    | some cur => if same cur then .ok 1 else address_list_find_loop same addresses n (i + 1)

/-- The test of `address_list_find` for an IPv4 address: the entry has the type tag
`IPV4_ADDRESS` and the same `s_addr`. -/
def same_ipv4 (s_addr : Nat) (cur : ip_address) : Bool :=
  match cur with
  | .ipv4 a => a == s_addr
  | .ipv6 _ _ => false

/-- The test of `address_list_find` for an IPv6 address: the entry has the type tag
`IPV6_ADDRESS`, the same scope id when `HAVE_SOCKADDR_IN6_SCOPE_ID` is defined, and the same
address bytes. -/
def same_ipv6 (have_scope_id : Bool) (addr scope : Nat) (cur : ip_address) : Bool :=
  match cur with
  | .ipv4 _ => false
  | .ipv6 a sc => (!have_scope_id || sc == scope) && a == addr

/-- The function `address_list_find`, for a build with or without `ENABLE_IPV6` and
`HAVE_SOCKADDR_IN6_SCOPE_ID`. Without `ENABLE_IPV6` the switch has no case for an IPv6 address
and ends in `abort ()`. -/
def address_list_find (enable_ipv6 have_scope_id : Bool) (al : address_list)
    (ip : ip_address) : Run Int :=
  match ip with
  | .ipv4 s_addr => address_list_find_loop (same_ipv4 s_addr) al.addresses al.count.toNat 0
  | .ipv6 addr scope =>
    if enable_ipv6 then
      address_list_find_loop (same_ipv6 have_scope_id addr scope) al.addresses al.count.toNat 0
    else .fault .assert_failed

/-- An operation on the list behind one pointer, or a lookup of any host. -/
inductive ListOp where
  /-- the call `address_list_set_faulty (al, index)` -/
  | set_faulty (index : Int)
  /-- the call `address_list_set_connected (al)` -/
  | set_connected
  /-- the call `address_list_release (al)` -/
  | release
  /-- the call `lookup_host (host, silent)` -/
  | lookup (host : CString) (silent : Int)
deriving DecidableEq, Repr

/-- The state after one operation on the list behind the pointer `al`. -/
def run_op (env : HostEnv) (al : Nat) (op : ListOp) (s : HostState) : Run HostState :=
  match op with
  | .set_faulty index =>
    match s.deref al with
    | none => .fault .dangling
    | some v =>
      match address_list_set_faulty v index with
      | .fault f => .fault f
      | .ok v1 => .ok (s.store al v1)
  | .set_connected =>
    match s.deref al with
    | none => .fault .dangling
    | some v => .ok (s.store al (address_list_set_connected v))
  | .release => address_list_release al s
  | .lookup host silent =>
    match lookup_host env host silent s with
    | .fault f => .fault f
    | .ok r => .ok r.2

/-- The state after a sequence of operations. -/
def run_ops (env : HostEnv) (al : Nat) : List ListOp → HostState → Run HostState
  | [], s => .ok s
  | op :: rest, s =>
    match run_op env al op s with
    | .fault f => .fault f
    | .ok s1 => run_ops env al rest s1

/-! ## utils.c -/

/-- The loops of `match_tail`,
`for (i = strlen (string), j = strlen (tail); i >= 0 && j >= 0; i--, j--)` with a `break` when
the bytes at `i` and `j` differ, after the folding `fold` of each byte. The arguments are
`i + 1` and `j + 1`; the result is the value of `j` after the loop. The byte at the index
`strlen` is the terminating NUL. -/
def match_tail_loop (fold : Nat → Nat) (string tail : CString) : Nat → Nat → Int
  | 0, j1 => (j1 : Int) - 1
  | _ + 1, 0 => -1
  | i + 1, j + 1 =>
    if fold (string.getD i 0) ≠ fold (tail.getD j 0) then (j : Int)
    else match_tail_loop fold string tail i j

/-- The function `match_tail`. -/
def match_tail (string tail : CString) (fold_case_p : Int) : Int :=
  let j :=
    if fold_case_p = 0 then match_tail_loop id string tail (string.length + 1) (tail.length + 1)
    else match_tail_loop TOLOWER string tail (string.length + 1) (tail.length + 1)
  if j = -1 then 1 else 0

/-- A manifest file for examples: as `manifest_file`, with a chunked-checksum descriptor of the
type sha1 with the chunk length 1024 and one piece. -/
def manifest_file_chunked : metalink_file_t :=
  { name := some (cstr "a"), size := 1, maxconnections := 1, version := none, language := none,
    os := none,
    resources := some [{ url := some (cstr "u"), type := none, location := none,
                         preference := 0, maxconnections := 0 }],
    checksums := some [],
    chunk_checksum := some { length := 1024, type := some (cstr "sha1"),
                             piece_hashes := some [{ piece := 0, hash := some (cstr "ab") }] } }

/-- A manifest file for examples without a name. -/
def manifest_file_nameless : metalink_file_t :=
  { name := none, size := 1, maxconnections := 1, version := none, language := none,
    os := none,
    resources := some [{ url := some (cstr "u"), type := none, location := none,
                         preference := 0, maxconnections := 0 }],
    checksums := some [], chunk_checksum := none }

/-- An environment for examples: as `env_dns`, with a resolver whose call number 0 hits the
time limit and whose later calls fail with `TRY_AGAIN`. -/
def env_failing : HostEnv :=
  { dns_cache := true, inet_addr := fun _ => 4294967295,
    resolve := fun n _ => if n = 0 then .timeout else .failure 2,
    ETIMEDOUT := 110, HOST_NOT_FOUND := 1, NO_RECOVERY := 3, NO_DATA := 4, NO_ADDRESS := 4,
    TRY_AGAIN := 2 }

/-! ## multi.h: the segment plan -/

/-- The macro `MIN_CHUNK_SIZE` of multi.h. -/
def MIN_CHUNK_SIZE : Nat := 2048

/-- One planned segment: the bytes `first_byte .. last_byte`, both included. -/
structure range where
  first_byte : Nat
  last_byte : Nat
  deriving DecidableEq, Repr

/-- The number of bytes of a segment. -/
def range.bytes (r : range) : Nat := r.last_byte + 1 - r.first_byte

/-- Modelled from the spec: the number of segments of a SegmentPlan, which multi.h does not
    define: `min (requested concurrency, max-connections, floor (size / minChunkSize))`. -/
def segment_count (requested max_connections size chunk : Nat) : Nat :=
  min requested (min max_connections (size / chunk))

/-- Modelled from the spec: the ranges of a plan of `n` segments of `share` bytes each from
    byte `first` on, the last of which ends at the last byte of the file. -/
def plan_from (share size : Nat) : Nat → Nat → List range
  | 0, _ => []
  | 1, first => [{ first_byte := first, last_byte := size - 1 }]
  | n + 2, first =>
    { first_byte := first, last_byte := first + share - 1 } ::
      plan_from share size (n + 1) (first + share)

/-- Modelled from the spec: `fill_ranges_data`, which multi.h declares and whose body is not
    part of the sources at hand: the partition of the total size into `segment_count`
    contiguous ranges of equal share (Scenario C: four segments of 2.5 MB each); the last
    range takes the rest of the division. -/
def fill_ranges_data (requested max_connections size chunk : Nat) : List range :=
  let n := segment_count requested max_connections size chunk
  plan_from (size / n) size n 0

/-- The ranges follow one another without gap or overlap from byte `first` up to the byte
    before `size`, and none of them is empty. -/
def contiguous : List range → Nat → Nat → Prop
  | [], first, size => first = size
  | r :: rest, first, size =>
    r.first_byte = first ∧ r.first_byte ≤ r.last_byte ∧ contiguous rest (r.last_byte + 1) size

instance contiguous_decidable : ∀ (l : List range) (first size : Nat),
    Decidable (contiguous l first size)
  | [], first, size => inferInstanceAs (Decidable (first = size))
  | r :: rest, first, size =>
    have := contiguous_decidable rest (r.last_byte + 1) size
    inferInstanceAs (Decidable (r.first_byte = first ∧ r.first_byte ≤ r.last_byte ∧
      contiguous rest (r.last_byte + 1) size))

/-! ## utils.c: `number_to_string` (the build with a `wgint` of 64 bits) -/

/-- The largest `wgint` of the build modelled here: `SIZEOF_WGINT == 8`. -/
def WGINT_MAX : Int := 9223372036854775807

/-- The macro `ONE_DIGIT (figure)`: the byte `n / figure + '0'` stored through `*p++`; `n` is
    not negative where the macro is used. -/
def ONE_DIGIT (figure n : Nat) : Nat := (n / figure + 48) % 256

/-- The macros `DIGITS_1` to `DIGITS_19`: `DIGITS k figure n` is the expansion of
    `DIGITS_k (figure)`: `ONE_DIGIT_ADVANCE (figure); DIGITS_(k-1) (figure / 10)`, where
    `ONE_DIGIT_ADVANCE` writes one digit and leaves `n % figure` in `n`. -/
def DIGITS : Nat → Nat → Nat → CString
  | 0, _, _ => []
  | 1, figure, n => [ONE_DIGIT figure n]
  | k + 2, figure, n => ONE_DIGIT figure n :: DIGITS (k + 1) (figure / 10) (n % figure)

/-- The digits of a number in base 10 as a string, the most significant first, without
    leading zeros, and "0" for zero. -/
def decimal_digits (n : Nat) : CString :=
  if n = 0 then [48] else (Nat.digits 10 n).reverse.map (· + 48)

/-- The base-10 representation of an integer: what `sprintf` with `%lld` produces. -/
def decimal_string (n : Int) : CString :=
  if n < 0 then 45 :: decimal_digits n.natAbs else decimal_digits n.natAbs

/-- The macro `SPRINTF_WGINT (buf, n)`: `sprintf (buf, "%ld", (long) n)` of the C library. -/
def SPRINTF_WGINT (n : Int) : CString := decimal_string n

/-- The cascade of `number_to_string` that picks the number of digits of `n >= 0`. -/
def number_to_string_digits (n : Nat) : CString :=
  if n < 10 then DIGITS 1 1 n
  else if n < 100 then DIGITS 2 10 n
  else if n < 1000 then DIGITS 3 100 n
  else if n < 10000 then DIGITS 4 1000 n
  else if n < 100000 then DIGITS 5 10000 n
  else if n < 1000000 then DIGITS 6 100000 n
  else if n < 10000000 then DIGITS 7 1000000 n
  else if n < 100000000 then DIGITS 8 10000000 n
  else if n < 1000000000 then DIGITS 9 100000000 n
  else if n < 10000000000 then DIGITS 10 1000000000 n
  else if n < 100000000000 then DIGITS 11 10000000000 n
  else if n < 1000000000000 then DIGITS 12 100000000000 n
  else if n < 10000000000000 then DIGITS 13 1000000000000 n
  else if n < 100000000000000 then DIGITS 14 10000000000000 n
  else if n < 1000000000000000 then DIGITS 15 100000000000000 n
  else if n < 10000000000000000 then DIGITS 16 1000000000000000 n
  else if n < 100000000000000000 then DIGITS 17 10000000000000000 n
  else if n < 1000000000000000000 then DIGITS 18 100000000000000000 n
  else DIGITS 19 1000000000000000000 n

/-- The function `number_to_string (buffer, number)`: the string written to `buffer` and the
    offset from `buffer` of the returned pointer `p`, which points to the terminating zero. -/
def number_to_string (number : Int) : CString × Nat :=
  if number < 0 then
    if number < -WGINT_MAX then
      let buffer := SPRINTF_WGINT number
      (buffer, buffer.length)
    else
      let digits := number_to_string_digits (-number).toNat
      (45 :: digits, 1 + digits.length)
  else
    let digits := number_to_string_digits number.toNat
    (digits, digits.length)

/-! ## utils.c: `unique_name` over a file system given by the list of the existing names -/

/-- The function `file_exists_p (filename)`: `access` or `stat` succeeds exactly on the names
    of the file system `fs`. -/
def file_exists_p (fs : List CString) (filename : CString) : Int :=
  if filename ∈ fs then 1 else 0

/-- The function `xstrdup`: a freshly allocated copy, the same string. -/
def xstrdup (s : CString) : CString := s

/-- The name tried by `unique_name_1` with the counter at `count`: `template` holds `prefix`,
    a '.', and the number written by `number_to_string (template_tail, count)`. -/
def unique_name_template (pfx : CString) (count : Nat) : CString :=
  pfx ++ [46] ++ (number_to_string (count : Int)).1

/-- The `do ... while (file_exists_p (template))` loop of `unique_name_1`, with `count` the
    value of the counter before `count++`; `none` when `fuel` iterations did not end it. -/
def unique_name_1_loop (fs : List CString) (pfx : CString) : Nat → Nat → Option CString
  | 0, _ => none
  | fuel + 1, count =>
    let template := unique_name_template pfx count
    if file_exists_p fs template ≠ 0 then unique_name_1_loop fs pfx fuel (count + 1)
    else some (xstrdup template)

/-- The function `unique_name_1 (prefix)`: `int count = 1`, then the loop. -/
def unique_name_1 (fuel : Nat) (fs : List CString) (pfx : CString) : Option CString :=
  unique_name_1_loop fs pfx fuel 1

/-- The function `unique_name (file, allow_passthrough)`: the returned string; `file` itself
    and its fresh copy are the same string. -/
def unique_name (fuel : Nat) (fs : List CString) (file : CString) (allow_passthrough : Int) :
    Option CString :=
  if file_exists_p fs file = 0 then
    (if allow_passthrough ≠ 0 then some file else some (xstrdup file))
  else unique_name_1 fuel fs file

/-- A file system in which "f", "f.1" and "f.2" exist. -/
def fs_example : List CString := [cstr "f.2", cstr "f", cstr "g", cstr "f.1"]

/-- The list of `cached_state`: three addresses, the first one marked faulty, the connected
    flag set, held by the cache and by one caller. -/
def cached_list : address_list :=
  { count := 3, addresses := [.ipv4 1, .ipv4 2, .ipv4 3], faulty := 1, connected := 1,
    refcount := 2 }

/-! ## host.c: `sufmatch` -/

/-- The inner loop of `sufmatch`,
    `for (j = strlen (list[i]), k = lw; j >= 0 && k >= 0; j--, k--)` with the `break` at the
    first pair of bytes that differ after `TOLOWER`: the arguments are `j + 1` and `k + 1`,
    the result is the value of `j` afterwards. The byte at the index `strlen` is the NUL. -/
def sufmatch_loop (elem what : CString) : Nat → Nat → Int
  | 0, _ => -1
  | j + 1, 0 => (j : Int)
  | j + 1, k + 1 =>
    if TOLOWER (elem.getD j 0) ≠ TOLOWER (what.getD k 0) then (j : Int)
    else sufmatch_loop elem what j k

/-- The function `sufmatch (list, what)`; `list` is the vector before its terminating NULL. -/
def sufmatch : List CString → CString → Int
  | [], _ => 0
  | elem :: rest, what =>
    if sufmatch_loop elem what (elem.length + 1) (what.length + 1) = -1 then 1
    else sufmatch rest what

/-- The specification of `sufmatch`: 1 when some element of the list is a suffix of `what`,
    letters compared without regard to case, and 0 otherwise. -/
def sufmatch_spec (list : List CString) (what : CString) : Int :=
  if list.any fun e => (e.map TOLOWER).isSuffixOf (what.map TOLOWER) then 1 else 0

/-! ## utils.c: `sepstring` -/

/-- Modelled from the spec: the macro `ISSPACE`, true of the blank, `\t`, `\n`, `\v`, `\f`
    and `\r`, as `isspace` in the C locale. -/
def ISSPACE (c : Nat) : Bool := c == 32 || (9 ≤ c && c ≤ 13)

/-- The loop `while (ISSPACE (*s)) ++s;` of `sepstring`: the string from the new `s` on. -/
def skip_blanks : CString → CString
  | [] => []
  | c :: rest => if ISSPACE c then skip_blanks rest else c :: rest

/-- The loop `while (*s)` of `sepstring`: `pending` is the text from `p` up to `s`, the
    second string the text from `s` on, `res` the vector before its terminating NULL;
    `none` when `fuel` iterations did not end the loop. The element behind the last comma
    is added after the loop. -/
def sepstring_loop : Nat → CString → CString → List CString → Option (List CString)
  | 0, _, _, _ => none
  | _ + 1, pending, [], res => some (res ++ [pending])
  | fuel + 1, pending, c :: rest, res =>
    if c = 44 then sepstring_loop fuel [] (skip_blanks rest) (res ++ [pending])
    else sepstring_loop fuel (pending ++ [c]) rest res

/-- The function `sepstring (s)`: `some none` is the result NULL, `none` means that `fuel`
    iterations were not enough. -/
def sepstring (fuel : Nat) (s : Option CString) : Option (Option (List CString)) :=
  match s with
  | none => some none
  | some [] => some none
  | some (c :: rest) => (sepstring_loop fuel [] (c :: rest) []).map some

/-- The string `s` without the white space that follows a comma at once; `skipping` says
    that the last byte kept was a comma. -/
def strip_after_commas (skipping : Bool) : CString → CString
  | [] => []
  | c :: rest =>
    if skipping && ISSPACE c then strip_after_commas true rest
    else if c = 44 then c :: strip_after_commas true rest
    else c :: strip_after_commas false rest

/-- The elements of a vector joined with commas. -/
def join_commas : List CString → CString
  | [] => []
  | [e] => e
  | e :: f :: rest => e ++ 44 :: join_commas (f :: rest)



/-! ## metalink.c: what `parse_metalink` builds from a manifest -/

/-- A manifest file that `parse_metalink` can read: when it has a name and a resources
    array it also has a checksums array, and a chunked-checksum descriptor with a type has
    its array of pieces (the arrays that the code reads without a test for NULL). -/
def readable (f : metalink_file_t) : Prop :=
  f.name.isSome → f.resources.isSome →
    f.checksums.isSome ∧
    ∀ cc, f.chunk_checksum = some cc → cc.type.isSome → cc.piece_hashes.isSome

/-- The descriptor that stands for a manifest file in the result of `parse_metalink`, `none`
    for a file that is skipped: the resources with a URL and the checksums with a type and
    a hash, each list in reverse order. -/
def descriptor_of (f : metalink_file_t) : Option mlink_file :=
  match f.name, f.resources, f.checksums with
  | some name, some rs, some cs =>
    some { name := name, size := f.size, maxconnections := f.maxconnections,
           version := f.version, language := f.language, os := f.os,
           resources := (rs.filterMap copy_resource).reverse,
           checksums := (cs.filterMap copy_checksum).reverse,
           chunk_checksum := none,
           num_of_res := ((rs.filterMap copy_resource).length : Int),
           num_of_checksums := 0 }
  | _, _, _ => none

/-- A resource of a manifest for examples, of the type http, with the given URL. -/
def manifest_resource (url : String) : metalink_resource_t :=
  { url := some (cstr url), type := some (cstr "http"), location := none, preference := 0,
    maxconnections := 0 }

/-- A manifest file for examples: the resources "u1", one without URL, "u2", and the
    checksums of the types md5 and sha1, in this order. -/
def manifest_file_ordered : metalink_file_t :=
  manifest_file
    (some [manifest_resource "u1", { manifest_resource "" with url := none },
           manifest_resource "u2"])
    (some [{ type := some (cstr "md5"), hash := some (cstr "ab") },
           { type := some (cstr "sha1"), hash := some (cstr "cd") }])

/-- The descriptor that `parse_metalink` builds for `manifest_file_ordered`. -/
def descriptor_ordered : mlink_file :=
  { name := cstr "a", size := 1, maxconnections := 1, version := none, language := none,
    os := none,
    resources := [{ url := cstr "u2", type := some (cstr "http"), location := none,
                    preference := 0, maxconnections := 0 },
                  { url := cstr "u1", type := some (cstr "http"), location := none,
                    preference := 0, maxconnections := 0 }],
    checksums := [{ type := cstr "sha1", hash := cstr "cd" },
                  { type := cstr "md5", hash := cstr "ab" }],
    chunk_checksum := none, num_of_res := 2, num_of_checksums := 0 }

/-- The resource lists of the files of a descriptor set in memory, as `elect_resources`
    finds them. -/
def resource_lists (m : mlink) : List (ListMem mlink_resource) :=
  m.files.map fun f => in_memory f.resources

/-- The checksum lists of the files of a descriptor set in memory, as `elect_checksums`
    finds them. -/
def checksum_lists (m : mlink) : List (ListMem mlink_checksum) :=
  m.files.map fun f => in_memory f.checksums

/-- The result of `parse_metalink`, in a block of the size of the structure, for a manifest
    of the one file `manifest_file_ordered`. -/
def mlink_ordered : mlink :=
  { identity := none, tags := none, files := [descriptor_ordered], num_of_files := 1 }

/-- The result of `parse_metalink`, in a block of the size of the structure, for a manifest
    of one file with the name "a" whose
    resources array holds the given resources without a type and whose checksums array is
    empty. -/
def mlink_untyped (urls : List String) : mlink :=
  { identity := none, tags := none,
    files := [{ name := cstr "a", size := 1, maxconnections := 1, version := none,
                language := none, os := none,
                resources := urls.reverse.map fun u =>
                  { url := cstr u, type := none, location := none, preference := 0,
                    maxconnections := 0 },
                checksums := [], chunk_checksum := none, num_of_res := urls.length,
                num_of_checksums := 0 }],
    num_of_files := 1 }



/-! ## host.c: the callers of the cache and the references they hold -/

/-- A call that a user of the cache makes. -/
inductive CacheOp where
  /-- the call `lookup_host (host, silent)`; the caller keeps the list it gets -/
  | lookup (host : CString) (silent : Int)
  /-- the call `address_list_release (al)` for a reference that a caller holds -/
  | release (al : Nat)
  /-- the call `address_list_set_faulty (al, index)` -/
  | set_faulty (al : Nat) (index : Int)
  /-- the call `address_list_set_connected (al)` -/
  | set_connected (al : Nat)
  /-- the call `forget_host_lookup (host)` -/
  | forget (host : CString)
deriving DecidableEq, Repr

/-- The state of host.c together with the references that the callers hold: `held` has one
    entry for every list returned by `lookup_host` and not yet released. -/
structure Client where
  state : HostState
  held : List Nat
deriving DecidableEq, Repr

/-- One call: `none` when it is a release of a reference that no caller holds (such a call
    is not part of a run in which every reference is released at most once). -/
def client_step (env : HostEnv) (op : CacheOp) (c : Client) : Option (Run Client) :=
  match op with
  | .lookup host silent =>
    match lookup_host env host silent c.state with
    | .fault f => some (.fault f)
    | .ok (none, s1) => some (.ok { state := s1, held := c.held })
    | .ok (some al, s1) => some (.ok { state := s1, held := al :: c.held })
  | .release al =>
    if al ∈ c.held then
      match address_list_release al c.state with
      | .fault f => some (.fault f)
      | .ok s1 => some (.ok { state := s1, held := c.held.erase al })
    else none
  | .set_faulty al index =>
    match run_op env al (.set_faulty index) c.state with
    | .fault f => some (.fault f)
    | .ok s1 => some (.ok { state := s1, held := c.held })
  | .set_connected al =>
    match run_op env al .set_connected c.state with
    | .fault f => some (.fault f)
    | .ok s1 => some (.ok { state := s1, held := c.held })
  | .forget host =>
    match forget_host_lookup host c.state with
    | .fault f => some (.fault f)
    | .ok s1 => some (.ok { state := s1, held := c.held })

/-- A sequence of calls. -/
def client_run (env : HostEnv) : List CacheOp → Client → Option (Run Client)
  | [], c => some (.ok c)
  | op :: rest, c =>
    match client_step env op c with
    | none => none
    | some (.fault f) => some (.fault f)
    | some (.ok c1) => client_run env rest c1

/-- The program start: the empty cache, and no caller holds a list. -/
def client_start : Client := { state := initial_state, held := [] }

/-- The pointers that the cache map holds. -/
def cached_pointers (s : HostState) : List Nat :=
  (s.host_name_addresses_map.getD []).map Prod.snd

/-- The number of references to the list behind `p`: those of the cache map and those that
    the callers hold. -/
def references (c : Client) (p : Nat) : Nat :=
  (cached_pointers c.state).count p + c.held.count p

/-- The invariant of the cache: no two entries of the map have the same key or the same
    list, and every list in memory has as many references as its `refcount` says, at least
    one; a pointer without a list in memory has no reference. -/
def cache_invariant (c : Client) : Prop :=
  (c.state.host_name_addresses_map.getD []).Pairwise (fun a b => same_key a.1 b.1 = false) ∧
  (cached_pointers c.state).Nodup ∧
  ∀ p, (∀ v, c.state.deref p = some v →
      v.refcount = (references c p : Int) ∧ 1 ≤ references c p) ∧
    (c.state.deref p = none → references c p = 0)

/-- A run for examples: "a.org" is looked up twice (the second time in capitals), one of the
    two references is released, the list is marked connected, "b.org" is looked up and
    then forgotten. -/
def client_calls : List CacheOp :=
  [.lookup (cstr "a.org") 1, .lookup (cstr "A.ORG") 1, .release 0, .set_connected 0,
   .lookup (cstr "b.org") 1, .forget (cstr "b.org")]

/-- The state after `client_calls` with the resolver of `env_dns`: the list of "a.org" is
    held by the cache and by one caller, the list of "b.org" by one caller only. -/
def client_after_calls : Client :=
  { state :=
      { heap := [some { count := 2, addresses := [.ipv4 1, .ipv4 2], faulty := 0,
                        connected := 1, refcount := 2 },
                 some { count := 2, addresses := [.ipv4 1, .ipv4 2], faulty := 0,
                        connected := 0, refcount := 1 }],
        host_name_addresses_map := some [(cstr "a.org", 0)],
        errno := 0, h_errno := 0, resolver_calls := 2, log := [] },
    held := [1, 0] }

/-! ## metalink.c: an environment in which the three digests differ -/

/-- An environment for examples: every file opens, and the bytes of the digest are all 0xaa
    for SHA-256, all 0xbb for SHA-1 and all 0xcc for MD5. -/
def env_types : HashEnv :=
  { fopen := fun _ => some [],
    sha256_stream := fun _ => some fun _ => 170,
    sha1_stream := fun _ => some fun _ => 187,
    md5_stream := fun _ => some fun _ => 204 }

/-- The hex form of the SHA-256 digest of `env_types`, in capitals (64 characters). -/
def sha256_hex_upper : CString :=
  cstr "AAAAAAAAAAAAAAAAAAAAAAAAAAAAAAAAAAAAAAAAAAAAAAAAAAAAAAAAAAAAAAAA"

/-- A string of 64 hex digits that is not the SHA-256 digest of `env_types`. -/
def sha256_hex_other : CString :=
  cstr "0000000000000000000000000000000000000000000000000000000000000000"

/-- The hex form of the SHA-1 digest of `env_types` (40 characters). -/
def sha1_hex : CString := cstr "bbbbbbbbbbbbbbbbbbbbbbbbbbbbbbbbbbbbbbbb"

/-- A string of 40 hex digits that is not the SHA-1 digest of `env_types`. -/
def sha1_hex_other : CString := cstr "1111111111111111111111111111111111111111"

/-- The hex form of the MD5 digest of `env_types` (32 characters). -/
def md5_hex : CString := cstr "cccccccccccccccccccccccccccccccc"

/-- A string of 32 hex digits that is not the MD5 digest of `env_types`. -/
def md5_hex_other : CString := cstr "22222222222222222222222222222222"

/-- A checksum list in the order md5, sha256, sha1 in which only the SHA-256 digest is
    wrong. -/
def checksums_sha256_wrong : List mlink_checksum :=
  [⟨cstr "md5", md5_hex⟩, ⟨cstr "sha256", sha256_hex_other⟩, ⟨cstr "sha1", sha1_hex⟩]

/-- A checksum list in the order md5, sha256, sha1 in which only the SHA-256 digest is
    right. -/
def checksums_sha256_right : List mlink_checksum :=
  [⟨cstr "md5", md5_hex_other⟩, ⟨cstr "sha256", sha256_hex_upper⟩,
   ⟨cstr "sha1", sha1_hex_other⟩]

/-- A checksum list without a sha256 record, in the order md5, sha1, in which only the
    SHA-1 digest is wrong. -/
def checksums_sha1_wrong : List mlink_checksum :=
  [⟨cstr "md5", md5_hex⟩, ⟨cstr "sha1", sha1_hex_other⟩]

/-- A checksum list with an md5 record and a record of the unsupported type crc32. -/
def checksums_md5_only : List mlink_checksum :=
  [⟨cstr "crc32", cstr "0"⟩, ⟨cstr "md5", md5_hex⟩]

/-! ## metalink.c: manifests for the examples of the block of `parse_metalink` -/

/-- A manifest of one file with a name and one resource with a URL, whose checksums array
    is NULL. -/
def manifest_null_checksums : metalink_t :=
  manifest_of [manifest_file
    (some [{ url := some (cstr "u"), type := none, location := none, preference := 0,
             maxconnections := 0 }]) none]

/-- A manifest of one file whose only resource has no URL. -/
def manifest_without_url : metalink_t :=
  manifest_of [manifest_file
    (some [{ url := none, type := some (cstr "http"), location := none, preference := 0,
             maxconnections := 0 }]) (some [])]

/-! ## Theorems about metalink.c -/

theorem strcmp_eq_zero_iff (a b : CString) : strcmp a b = 0 ↔ a = b := by
  induction a generalizing b with
  | nil => cases b <;> simp [strcmp]
  | cons x xs ih =>
    cases b with
    | nil => simp [strcmp]
    | cons y ys =>
      by_cases h : x = y
      · simp [strcmp, h, ih]
      · by_cases h2 : x < y <;> simp [strcmp, h, h2]

theorem supported_hashes_eq :
    supported_hashes = [cstr "sha256", cstr "sha1", cstr "md5"] := rfl

theorem sha256_ne_sha1 : cstr "sha256" ≠ cstr "sha1" := by decide

theorem sha256_ne_md5 : cstr "sha256" ≠ cstr "md5" := by decide

theorem sha1_ne_md5 : cstr "sha1" ≠ cstr "md5" := by decide

theorem fill_slots_supported (t : CString) (ptr : Nat) (m0 m1 m2 : Option Nat) :
    fill_slots t ptr supported_hashes [m0, m1, m2] =
      if t = cstr "sha256" then (if m0.isSome then none else some [some ptr, m1, m2])
      else if t = cstr "sha1" then (if m1.isSome then none else some [m0, some ptr, m2])
      else if t = cstr "md5" then (if m2.isSome then none else some [m0, m1, some ptr])
      else some [m0, m1, m2] := by
  simp only [supported_hashes_eq, fill_slots, strcmp_eq_zero_iff]
  by_cases h0 : t = cstr "sha256"
  · subst h0
    cases m0 <;> simp [sha256_ne_sha1, sha256_ne_md5]
  · by_cases h1 : t = cstr "sha1"
    · subst h1
      cases m1 <;> simp [h0, sha1_ne_md5]
    · by_cases h2 : t = cstr "md5"
      · subst h2
        cases m2 <;> simp [h0, h1]
      · simp [h0, h1, h2]

theorem count_type_cons (c : mlink_checksum) (cs : List mlink_checksum) (t : CString) :
    count_type (c :: cs) t = count_type cs t + (if c.type = t then 1 else 0) := by
  simp [count_type, List.countP_cons]

/-- The fill phase as a whole: it goes through exactly when no slot is met twice, and then each
empty slot holds the position of the first record of its type. -/
theorem fill_hashes_spec (cs : List mlink_checksum) :
    ∀ (ptr : Nat) (m0 m1 m2 : Option Nat),
      fill_hashes cs ptr [m0, m1, m2] =
        if slot_ok m0 cs (cstr "sha256") ∧ slot_ok m1 cs (cstr "sha1") ∧ slot_ok m2 cs (cstr "md5")
        then some [slot_val m0 cs ptr (cstr "sha256"), slot_val m1 cs ptr (cstr "sha1"),
                   slot_val m2 cs ptr (cstr "md5")]
        else none := by
  induction cs with
  | nil =>
    intro ptr m0 m1 m2
    cases m0 <;> cases m1 <;> cases m2 <;>
      simp [fill_hashes, slot_ok, slot_val, count_type, index_of_type]
  | cons c cs ih =>
    intro ptr m0 m1 m2
    simp only [fill_hashes, fill_slots_supported]
    by_cases h0 : c.type = cstr "sha256"
    · have h1 : c.type ≠ cstr "sha1" := by rw [h0]; exact sha256_ne_sha1
      have h2 : c.type ≠ cstr "md5" := by rw [h0]; exact sha256_ne_md5
      cases m0 <;> cases m1 <;> cases m2 <;>
        simp [h0, h1, h2, ih, slot_ok, slot_val, count_type_cons, index_of_type, sha256_ne_sha1,
          sha256_ne_md5, sha1_ne_md5, Ne.symm sha256_ne_sha1, Ne.symm sha256_ne_md5,
          Ne.symm sha1_ne_md5]
    · by_cases h1 : c.type = cstr "sha1"
      · have h2 : c.type ≠ cstr "md5" := by rw [h1]; exact sha1_ne_md5
        cases m0 <;> cases m1 <;> cases m2 <;>
          simp [h0, h1, h2, ih, slot_ok, slot_val, count_type_cons, index_of_type, sha256_ne_sha1,
            sha256_ne_md5, sha1_ne_md5, Ne.symm sha256_ne_sha1, Ne.symm sha256_ne_md5,
            Ne.symm sha1_ne_md5]
      · by_cases h2 : c.type = cstr "md5"
        · cases m0 <;> cases m1 <;> cases m2 <;>
            simp [h0, h1, h2, ih, slot_ok, slot_val, count_type_cons, index_of_type,
              sha256_ne_sha1, sha256_ne_md5, sha1_ne_md5, Ne.symm sha256_ne_sha1,
              Ne.symm sha256_ne_md5, Ne.symm sha1_ne_md5]
        · cases m0 <;> cases m1 <;> cases m2 <;>
            simp [h0, h1, h2, ih, slot_ok, slot_val, count_type_cons, index_of_type]

theorem no_duplicate_type_iff (cs : List mlink_checksum) :
    no_duplicate_type cs ↔
      count_type cs (cstr "sha256") ≤ 1 ∧ count_type cs (cstr "sha1") ≤ 1 ∧
        count_type cs (cstr "md5") ≤ 1 := by
  simp [no_duplicate_type, supported_hashes_eq]

theorem index_of_type_eq_none (t : CString) (cs : List mlink_checksum) :
    ∀ ptr, index_of_type t cs ptr = none ↔ count_type cs t = 0 := by
  induction cs with
  | nil => intro ptr; simp [index_of_type, count_type]
  | cons c cs ih =>
    intro ptr
    by_cases h : c.type = t <;> simp [index_of_type, count_type_cons, h, ih]

theorem index_of_type_some (t : CString) (cs : List mlink_checksum) :
    ∀ ptr p, index_of_type t cs ptr = some p →
      ptr ≤ p ∧ ∃ c, cs[p - ptr]? = some c ∧ c.type = t := by
  induction cs with
  | nil => intro ptr p h; simp [index_of_type] at h
  | cons c cs ih =>
    intro ptr p h
    by_cases hc : c.type = t
    · simp [index_of_type, hc] at h
      subst h
      simp [hc]
    · simp [index_of_type, hc] at h
      obtain ⟨hle, c1, hget, ht⟩ := ih (ptr + 1) p h
      refine ⟨by omega, c1, ?_, ht⟩
      have : p - ptr = (p - (ptr + 1)) + 1 := by omega
      rw [this, List.getElem?_cons_succ]
      exact hget

/-- With at most one record of type `t`, every record of that type is the one found. -/
theorem index_of_type_unique (t : CString) (cs : List mlink_checksum) :
    ∀ ptr, count_type cs t ≤ 1 → ∀ c ∈ cs, c.type = t →
      ∃ p, index_of_type t cs ptr = some p ∧ ptr ≤ p ∧ cs[p - ptr]? = some c := by
  induction cs with
  | nil => intro ptr _ c hc; simp at hc
  | cons d cs ih =>
    intro ptr hcount c hc ht
    rw [count_type_cons] at hcount
    by_cases hd : d.type = t
    · simp only [hd, if_true] at hcount
      have h0 : count_type cs t = 0 := by omega
      rcases List.mem_cons.mp hc with h | h
      · subst h
        exact ⟨ptr, by simp [index_of_type, hd], le_refl _, by simp⟩
      · exfalso
        have hpos : 0 < count_type cs t := by
          unfold count_type
          exact List.countP_pos_iff.mpr ⟨c, h, by simpa using ht⟩
        omega
    · simp only [hd, if_false, Nat.add_zero] at hcount
      rcases List.mem_cons.mp hc with h | h
      · subst h; exact absurd ht hd
      · obtain ⟨p, hp, hle, hget⟩ := ih (ptr + 1) hcount c h ht
        refine ⟨p, by simp [index_of_type, hd, hp], by omega, ?_⟩
        have : p - ptr = (p - (ptr + 1)) + 1 := by omega
        rw [this, List.getElem?_cons_succ]
        exact hget

theorem fill_hashes_init (cs : List mlink_checksum) :
    fill_hashes cs 0 (List.replicate HASH_TYPES none) =
      if no_duplicate_type cs then
        some [index_of_type (cstr "sha256") cs 0, index_of_type (cstr "sha1") cs 0,
              index_of_type (cstr "md5") cs 0]
      else none := by
  have h : List.replicate HASH_TYPES (none : Option Nat) = [none, none, none] := rfl
  rw [h, fill_hashes_spec]
  simp only [slot_ok, slot_val, no_duplicate_type_iff]

/-- A checksum list with a duplicated supported type: `return 1` in the fill phase. -/
theorem verify_run_duplicate (env : HashEnv) (filename : CString) (cs : List mlink_checksum)
    (h : ¬ no_duplicate_type cs) :
    verify_file_hash_run env filename cs = .ok (1, cs) := by
  unfold verify_file_hash_run
  by_cases hne : cs = []
  · simp [hne]
  · simp [hne, fill_hashes_init, h]

/-- A non-empty checksum list without a duplicated supported type: the run is the comparison
for the elected record, and it leaves the array when there is no supported type. -/
theorem verify_run_no_duplicate (env : HashEnv) (filename : CString) (cs : List mlink_checksum)
    (hne : cs ≠ []) (h : no_duplicate_type cs) :
    verify_file_hash_run env filename cs =
      match elected cs with
      | none => .fault .out_of_bounds
      | some (j, p) =>
        match cs[p]? with
        | some c =>
          match compare_hash env filename j c.hash with
          | .fault f => .fault f
          | .ok (res, hash1) => .ok (res, cs.set p { c with hash := hash1 })
        | none => .fault .dangling := by
  unfold verify_file_hash_run
  simp only [hne, if_false, fill_hashes_init, h, if_true]
  cases h0 : index_of_type (cstr "sha256") cs 0 with
  | some p0 => simp [first_filled, elected, h0, HASH_TYPES]
  | none =>
    cases h1 : index_of_type (cstr "sha1") cs 0 with
    | some p1 => simp [first_filled, elected, h0, h1, HASH_TYPES]
    | none =>
      cases h2 : index_of_type (cstr "md5") cs 0 with
      | some p2 => simp [first_filled, elected, h0, h1, h2, HASH_TYPES]
      | none => simp [first_filled, elected, h0, h1, h2]



theorem hex_encode_length (hash_raw : Nat → Nat) (size : Nat) :
    (hex_encode hash_raw size).length = 2 * size := by
  unfold hex_encode
  induction size with
  | zero => simp
  | succ n ih =>
    rw [List.range_succ, List.flatMap_append, List.length_append, ih]
    simp [sprintf_02x]
    omega

/-- The loop of `lower_hex_case` stays inside the buffer exactly when its length is at most
`strlen + 1`, and then it lowers the first `n` bytes of the string. -/
theorem lower_hex_case_loop_spec (n : Nat) (hash : CString) :
    lower_hex_case_loop n hash =
      if n ≤ hash.length + 1 then .ok ((hash.take n).map lower_byte ++ hash.drop n)
      else .fault .out_of_bounds := by
  induction n generalizing hash with
  | zero => simp [lower_hex_case_loop]
  | succ n ih =>
    cases hash with
    | nil =>
      cases n with
      | zero => simp [lower_hex_case_loop]
      | succ m => simp [lower_hex_case_loop]
    | cons c rest =>
      simp only [lower_hex_case_loop, ih]
      by_cases h : n ≤ rest.length + 1
      · simp [h]
      · simp [h]

theorem lowered_eq_iff (hash hex : CString) (n : Nat) (hlen : hex.length = n) :
    (hash.take n).map lower_byte ++ hash.drop n = hex ↔ hash.map lower_byte = hex := by
  by_cases h : hash.length ≤ n
  · rw [List.take_of_length_le h, List.drop_of_length_le h, List.append_nil]
  · constructor
    · intro heq
      have := congrArg List.length heq
      simp at this
      omega
    · intro heq
      have := congrArg List.length heq
      simp at this
      omega

/-- The comparison behind a successful digest computation, for a manifest digest whose buffer
holds the `2 * size` bytes that `lower_hex_case` goes through. -/
theorem digest_compare_spec (stream : List Nat → Option (Nat → Nat)) (size : Nat)
    (file : List Nat) (hash : CString) (hash_raw : Nat → Nat)
    (hs : stream file = some hash_raw) (hlen : 2 * size ≤ hash.length + 1) :
    digest_compare stream size file hash =
      .ok (if hash.map lower_byte = hex_encode hash_raw size then 0 else -1,
           (hash.take (2 * size)).map lower_byte ++ hash.drop (2 * size)) := by
  unfold digest_compare lower_hex_case
  simp only [hs, lower_hex_case_loop_spec, hlen, if_true, ne_eq, strcmp_eq_zero_iff,
    lowered_eq_iff _ _ _ (hex_encode_length hash_raw size)]
  by_cases h : hash.map lower_byte = hex_encode hash_raw size <;> simp [h]

/-- The comparison leaves the buffer of a manifest digest that is too short. -/
theorem digest_compare_short (stream : List Nat → Option (Nat → Nat)) (size : Nat)
    (file : List Nat) (hash : CString) (hash_raw : Nat → Nat)
    (hs : stream file = some hash_raw) (hlen : hash.length + 1 < 2 * size) :
    digest_compare stream size file hash = .fault .out_of_bounds := by
  unfold digest_compare lower_hex_case
  have : ¬ 2 * size ≤ hash.length + 1 := by omega
  simp [hs, lower_hex_case_loop_spec, this]

theorem elected_spec (cs : List mlink_checksum) (j p : Nat) (h : elected cs = some (j, p)) :
    ∃ t c, supported_hashes[j]? = some t ∧ cs[p]? = some c ∧ c.type = t := by
  unfold elected at h
  cases h0 : index_of_type (cstr "sha256") cs 0 with
  | some p0 =>
    simp [h0] at h
    obtain ⟨rfl, rfl⟩ := h
    obtain ⟨-, c, hc, ht⟩ := index_of_type_some _ _ _ _ h0
    exact ⟨_, c, rfl, by simpa using hc, ht⟩
  | none =>
    cases h1 : index_of_type (cstr "sha1") cs 0 with
    | some p1 =>
      simp [h0, h1] at h
      obtain ⟨rfl, rfl⟩ := h
      obtain ⟨-, c, hc, ht⟩ := index_of_type_some _ _ _ _ h1
      exact ⟨_, c, rfl, by simpa using hc, ht⟩
    | none =>
      cases h2 : index_of_type (cstr "md5") cs 0 with
      | some p2 =>
        simp [h0, h1, h2] at h
        obtain ⟨rfl, rfl⟩ := h
        obtain ⟨-, c, hc, ht⟩ := index_of_type_some _ _ _ _ h2
        exact ⟨_, c, rfl, by simpa using hc, ht⟩
      | none => simp [h0, h1, h2] at h

theorem elected_eq_none (cs : List mlink_checksum) :
    elected cs = none ↔ ¬ has_supported cs := by
  unfold elected has_supported
  simp only [supported_hashes_eq, List.mem_cons, List.mem_singleton, List.not_mem_nil, or_false]
  constructor
  · intro h
    cases h0 : index_of_type (cstr "sha256") cs 0 with
    | some p0 => simp [h0] at h
    | none =>
      cases h1 : index_of_type (cstr "sha1") cs 0 with
      | some p1 => simp [h0, h1] at h
      | none =>
        cases h2 : index_of_type (cstr "md5") cs 0 with
        | some p2 => simp [h0, h1, h2] at h
        | none =>
          rw [index_of_type_eq_none] at h0 h1 h2
          rintro ⟨c, hc, ht⟩
          unfold count_type at h0 h1 h2
          rw [List.countP_eq_zero] at h0 h1 h2
          have a0 := h0 c hc
          have a1 := h1 c hc
          have a2 := h2 c hc
          simp at a0 a1 a2
          rcases ht with ht | ht | ht
          · exact a0 ht
          · exact a1 ht
          · exact a2 ht
  · intro h
    have key : ∀ t, (t = cstr "sha256" ∨ t = cstr "sha1" ∨ t = cstr "md5") →
        index_of_type t cs 0 = none := by
      intro t ht
      rw [index_of_type_eq_none]
      unfold count_type
      rw [List.countP_eq_zero]
      intro c hc
      simp only [decide_eq_true_eq]
      intro hct
      exact h ⟨c, hc, by rw [hct]; exact ht⟩
    simp [key]


theorem verify_of_elected (env : HashEnv) (filename : CString) (cs : List mlink_checksum)
    (j p : Nat) (c : mlink_checksum) (hnd : no_duplicate_type cs)
    (he : elected cs = some (j, p)) (hc : cs[p]? = some c) :
    verify_file_hash env filename cs = (compare_hash env filename j c.hash).fst := by
  have hne : cs ≠ [] := by
    rintro rfl
    simp at hc
  unfold verify_file_hash
  rw [verify_run_no_duplicate env filename cs hne hnd]
  simp only [he, hc]
  cases compare_hash env filename j c.hash with
  | ok r => rfl
  | fault f => rfl

theorem compare_hash_sha256 (env : HashEnv) (filename : CString) (hash : CString) :
    (compare_hash env filename 0 hash).fst =
      verify_with env filename env.sha256_stream SHA256_DIGEST_SIZE hash := by
  unfold compare_hash verify_with
  cases env.fopen filename <;> simp [hash_function, digest_sizes, Run.fst]

theorem compare_hash_sha1 (env : HashEnv) (filename : CString) (hash : CString) :
    (compare_hash env filename 1 hash).fst =
      verify_with env filename env.sha1_stream SHA1_DIGEST_SIZE hash := by
  unfold compare_hash verify_with
  cases env.fopen filename <;> simp [hash_function, digest_sizes, Run.fst]

theorem compare_hash_md5 (env : HashEnv) (filename : CString) (hash : CString) :
    (compare_hash env filename 2 hash).fst =
      verify_with env filename env.md5_stream MD5_DIGEST_SIZE hash := by
  unfold compare_hash verify_with
  cases env.fopen filename <;> simp [hash_function, digest_sizes, Run.fst]

theorem verify_of_sha256 (env : HashEnv) (filename : CString) (cs : List mlink_checksum)
    (hnd : no_duplicate_type cs) (c : mlink_checksum) (hc : c ∈ cs)
    (ht : c.type = cstr "sha256") :
    verify_file_hash env filename cs =
      verify_with env filename env.sha256_stream SHA256_DIGEST_SIZE c.hash := by
  have hcount := ((no_duplicate_type_iff cs).mp hnd).1
  obtain ⟨p, hp, -, hget⟩ := index_of_type_unique _ cs 0 hcount c hc ht
  have he : elected cs = some (0, p) := by simp [elected, hp]
  rw [verify_of_elected env filename cs 0 p c hnd he (by simpa using hget), compare_hash_sha256]

theorem verify_of_sha1 (env : HashEnv) (filename : CString) (cs : List mlink_checksum)
    (hnd : no_duplicate_type cs) (h0 : count_type cs (cstr "sha256") = 0)
    (c : mlink_checksum) (hc : c ∈ cs) (ht : c.type = cstr "sha1") :
    verify_file_hash env filename cs =
      verify_with env filename env.sha1_stream SHA1_DIGEST_SIZE c.hash := by
  have hcount := ((no_duplicate_type_iff cs).mp hnd).2.1
  obtain ⟨p, hp, -, hget⟩ := index_of_type_unique _ cs 0 hcount c hc ht
  have he : elected cs = some (1, p) := by
    simp [elected, hp, (index_of_type_eq_none _ cs 0).mpr h0]
  rw [verify_of_elected env filename cs 1 p c hnd he (by simpa using hget), compare_hash_sha1]

theorem verify_of_md5 (env : HashEnv) (filename : CString) (cs : List mlink_checksum)
    (hnd : no_duplicate_type cs) (h0 : count_type cs (cstr "sha256") = 0)
    (h1 : count_type cs (cstr "sha1") = 0)
    (c : mlink_checksum) (hc : c ∈ cs) (ht : c.type = cstr "md5") :
    verify_file_hash env filename cs =
      verify_with env filename env.md5_stream MD5_DIGEST_SIZE c.hash := by
  have hcount := ((no_duplicate_type_iff cs).mp hnd).2.2
  obtain ⟨p, hp, -, hget⟩ := index_of_type_unique _ cs 0 hcount c hc ht
  have he : elected cs = some (2, p) := by
    simp [elected, hp, (index_of_type_eq_none _ cs 0).mpr h0,
      (index_of_type_eq_none _ cs 0).mpr h1]
  rw [verify_of_elected env filename cs 2 p c hnd he (by simpa using hget), compare_hash_md5]

theorem count_type_perm (cs cs1 : List mlink_checksum) (h : cs1.Perm cs) (t : CString) :
    count_type cs1 t = count_type cs t := by
  unfold count_type
  exact h.countP_eq _

theorem exists_of_count_type_pos (cs : List mlink_checksum) (t : CString)
    (h : count_type cs t ≠ 0) : ∃ c ∈ cs, c.type = t := by
  unfold count_type at h
  have hpos : 0 < cs.countP fun c => c.type = t := Nat.pos_of_ne_zero h
  obtain ⟨c, hc, ht⟩ := List.countP_pos_iff.mp hpos
  exact ⟨c, hc, by simpa using ht⟩

/-- A non-empty list without a record of a supported type: the scan for the first filled slot
runs behind the end of `metalink_hashes`. -/
theorem verify_unsupported_only (env : HashEnv) (filename : CString)
    (cs : List mlink_checksum) (hne : cs ≠ []) (h : ¬ has_supported cs) :
    verify_file_hash env filename cs = .fault .out_of_bounds := by
  have hnd : no_duplicate_type cs := by
    intro t ht
    have : count_type cs t = 0 := by
      unfold count_type
      rw [List.countP_eq_zero]
      intro c hc
      simp only [decide_eq_true_eq]
      intro hct
      exact h ⟨c, hc, by rw [hct]; exact ht⟩
    omega
  unfold verify_file_hash
  rw [verify_run_no_duplicate env filename cs hne hnd, (elected_eq_none cs).mpr h]
  rfl

theorem verify_perm (env : HashEnv) (filename : CString) (cs cs1 : List mlink_checksum)
    (hnd : no_duplicate_type cs) (hp : cs1.Perm cs) :
    verify_file_hash env filename cs1 = verify_file_hash env filename cs := by
  have hnd1 : no_duplicate_type cs1 := by
    intro t ht
    rw [count_type_perm cs cs1 hp]
    exact hnd t ht
  by_cases h0 : count_type cs (cstr "sha256") = 0
  · by_cases h1 : count_type cs (cstr "sha1") = 0
    · by_cases h2 : count_type cs (cstr "md5") = 0
      · by_cases hne : cs = []
        · subst hne
          rw [List.perm_nil.mp hp]
        · have hne1 : cs1 ≠ [] := by
            rintro rfl
            exact hne (List.nil_perm.mp hp)
          have hns : ¬ has_supported cs := by
            rintro ⟨c, hc, ht⟩
            simp only [supported_hashes_eq, List.mem_cons, List.mem_singleton,
              List.not_mem_nil, or_false] at ht
            have hpos : ∀ t, c.type = t → count_type cs t ≠ 0 := by
              intro t hct
              unfold count_type
              exact Nat.pos_iff_ne_zero.mp
                (List.countP_pos_iff.mpr ⟨c, hc, by simpa using hct⟩)
            rcases ht with ht | ht | ht
            · exact hpos _ ht h0
            · exact hpos _ ht h1
            · exact hpos _ ht h2
          have hns1 : ¬ has_supported cs1 := by
            rintro ⟨c, hc, ht⟩
            exact hns ⟨c, hp.mem_iff.mp hc, ht⟩
          rw [verify_unsupported_only env filename cs hne hns,
            verify_unsupported_only env filename cs1 hne1 hns1]
      · obtain ⟨c, hc, ht⟩ := exists_of_count_type_pos cs _ h2
        rw [verify_of_md5 env filename cs hnd h0 h1 c hc ht,
          verify_of_md5 env filename cs1 hnd1 (by rw [count_type_perm cs cs1 hp]; exact h0)
            (by rw [count_type_perm cs cs1 hp]; exact h1) c (hp.mem_iff.mpr hc) ht]
    · obtain ⟨c, hc, ht⟩ := exists_of_count_type_pos cs _ h1
      rw [verify_of_sha1 env filename cs hnd h0 c hc ht,
        verify_of_sha1 env filename cs1 hnd1 (by rw [count_type_perm cs cs1 hp]; exact h0)
          c (hp.mem_iff.mpr hc) ht]
  · obtain ⟨c, hc, ht⟩ := exists_of_count_type_pos cs _ h0
    rw [verify_of_sha256 env filename cs hnd c hc ht,
      verify_of_sha256 env filename cs1 hnd1 c (hp.mem_iff.mpr hc) ht]


theorem elected_index (cs : List mlink_checksum) (j p : Nat) (h : elected cs = some (j, p)) :
    j = 0 ∨ j = 1 ∨ j = 2 := by
  unfold elected at h
  cases h0 : index_of_type (cstr "sha256") cs 0 with
  | some p0 => simp [h0] at h; omega
  | none =>
    cases h1 : index_of_type (cstr "sha1") cs 0 with
    | some p1 => simp [h0, h1] at h; omega
    | none =>
      cases h2 : index_of_type (cstr "md5") cs 0 with
      | some p2 => simp [h0, h1, h2] at h; omega
      | none => simp [h0, h1, h2] at h

/-- The comparison for a file that opens and is digested, and a manifest digest whose buffer
holds the bytes that are lowered: 0 exactly when the lowered manifest digest is the hex form of
the computed digest, -1 otherwise. -/
theorem verify_with_match_iff (env : HashEnv) (filename : CString)
    (stream : List Nat → Option (Nat → Nat)) (size : Nat) (hash : CString)
    (file : List Nat) (hash_raw : Nat → Nat) (hopen : env.fopen filename = some file)
    (hs : stream file = some hash_raw) (hlen : 2 * size ≤ hash.length + 1) :
    verify_with env filename stream size hash =
      .ok (if hash.map lower_byte = hex_encode hash_raw size then 0 else -1) := by
  unfold verify_with
  rw [hopen]
  simp only [digest_compare_spec stream size file hash hash_raw hs hlen, Run.fst]

/-- The comparison never returns 1 once the file is opened and digested. -/
theorem verify_with_ne_one (env : HashEnv) (filename : CString)
    (stream : List Nat → Option (Nat → Nat)) (size : Nat) (hash : CString)
    (file : List Nat) (hash_raw : Nat → Nat) (hopen : env.fopen filename = some file)
    (hs : stream file = some hash_raw) :
    verify_with env filename stream size hash ≠ .ok 1 := by
  by_cases hlen : 2 * size ≤ hash.length + 1
  · rw [verify_with_match_iff env filename stream size hash file hash_raw hopen hs hlen]
    by_cases h : hash.map lower_byte = hex_encode hash_raw size <;> simp [h]
  · unfold verify_with
    simp only [hopen, digest_compare_short stream size file hash hash_raw hs (by omega)]
    simp [Run.fst]

theorem can_digest_true (env : HashEnv) (filename : CString) (j : Nat)
    (stream : List Nat → Option (Nat → Nat)) (hj : (hash_function env)[j]? = some stream)
    (h : can_digest env filename j = true) :
    ∃ file hash_raw, env.fopen filename = some file ∧ stream file = some hash_raw := by
  unfold can_digest at h
  cases hopen : env.fopen filename with
  | none => simp [hopen] at h
  | some file =>
    simp only [hopen, hj] at h
    obtain ⟨hash_raw, hr⟩ := Option.isSome_iff_exists.mp h
    exact ⟨file, hash_raw, rfl, hr⟩

/-- The value of `verify_file_hash` for an elected record, in the form of `verify_with` for the
digest function and the digest size of the elected type. -/
theorem verify_of_elected_with (env : HashEnv) (filename : CString) (cs : List mlink_checksum)
    (j p : Nat) (c : mlink_checksum) (hnd : no_duplicate_type cs)
    (he : elected cs = some (j, p)) (hc : cs[p]? = some c) :
    ∃ stream size, (hash_function env)[j]? = some stream ∧ digest_sizes[j]? = some size ∧
      verify_file_hash env filename cs = verify_with env filename stream size c.hash := by
  rw [verify_of_elected env filename cs j p c hnd he hc]
  rcases elected_index cs j p he with rfl | rfl | rfl
  · exact ⟨_, _, rfl, rfl, compare_hash_sha256 env filename c.hash⟩
  · exact ⟨_, _, rfl, rfl, compare_hash_sha1 env filename c.hash⟩
  · exact ⟨_, _, rfl, rfl, compare_hash_md5 env filename c.hash⟩

/-! ### The claims about `verify_file_hash` -/

/-- C1 (the claim fails on the code): the manifest digest "abab" of type md5 is a proper prefix
of the hex form of the computed digest, the list has no duplicate type and the file is opened
and digested, yet the run does not return -1 (Mismatch): `lower_hex_case` is given the length
`2 * digest size` and leaves the five-byte buffer of the manifest digest. -/
theorem verify_file_hash_short_digest_fault :
    no_duplicate_type [⟨cstr "md5", cstr "abab"⟩] ∧
    has_supported [⟨cstr "md5", cstr "abab"⟩] ∧
    can_digest env_ab (cstr "f") 2 = true ∧
    (hex_encode (fun _ => 171) MD5_DIGEST_SIZE).take 4 = cstr "abab" ∧
    (hex_encode (fun _ => 171) MD5_DIGEST_SIZE).length = 32 ∧
    verify_file_hash env_ab (cstr "f") [⟨cstr "md5", cstr "abab"⟩] = .fault .out_of_bounds := by
  decide

/-- C2: for a checksum list without a duplicated supported type, `verify_file_hash` compares
with the digest function and the manifest digest of sha256 when a sha256 record is present,
otherwise with those of sha1 when a sha1 record is present, otherwise with those of md5, and
its value is the same for every reordering of the list. -/
theorem verify_file_hash_elects_strongest (env : HashEnv) (filename : CString)
    (cs : List mlink_checksum) (hnd : no_duplicate_type cs) :
    (∀ c ∈ cs, c.type = cstr "sha256" →
      verify_file_hash env filename cs =
        verify_with env filename env.sha256_stream SHA256_DIGEST_SIZE c.hash) ∧
    (count_type cs (cstr "sha256") = 0 → ∀ c ∈ cs, c.type = cstr "sha1" →
      verify_file_hash env filename cs =
        verify_with env filename env.sha1_stream SHA1_DIGEST_SIZE c.hash) ∧
    (count_type cs (cstr "sha256") = 0 → count_type cs (cstr "sha1") = 0 →
      ∀ c ∈ cs, c.type = cstr "md5" →
      verify_file_hash env filename cs =
        verify_with env filename env.md5_stream MD5_DIGEST_SIZE c.hash) ∧
    (∀ cs1 : List mlink_checksum, cs1.Perm cs →
      verify_file_hash env filename cs1 = verify_file_hash env filename cs) :=
  ⟨fun c hc ht => verify_of_sha256 env filename cs hnd c hc ht,
   fun h0 c hc ht => verify_of_sha1 env filename cs hnd h0 c hc ht,
   fun h0 h1 c hc ht => verify_of_md5 env filename cs hnd h0 h1 c hc ht,
   fun cs1 hp => verify_perm env filename cs cs1 hnd hp⟩

/-- Witness of C2, in an environment whose three digest functions give different digests and
with manifest digests of full length, so that every run reaches the comparison. In the list
md5, sha256, sha1 whose md5 and sha1 digests are right and whose sha256 digest is wrong the
comparison is the one with SHA-256 and gives -1, although MD5 and SHA-1 would give 0; with
only the sha256 digest right it gives 0, although MD5 and SHA-1 would give -1. Without a
sha256 record the comparison is the one with SHA-1, and with md5 as the only supported type
the one with MD5. The order of the records does not matter. -/
theorem verify_file_hash_elects_strongest_witness :
    no_duplicate_type checksums_sha256_wrong ∧
    verify_file_hash env_types (cstr "f") checksums_sha256_wrong =
      verify_with env_types (cstr "f") env_types.sha256_stream SHA256_DIGEST_SIZE
        sha256_hex_other ∧
    verify_file_hash env_types (cstr "f") checksums_sha256_wrong = .ok (-1) ∧
    verify_with env_types (cstr "f") env_types.md5_stream MD5_DIGEST_SIZE md5_hex = .ok 0 ∧
    verify_with env_types (cstr "f") env_types.sha1_stream SHA1_DIGEST_SIZE sha1_hex = .ok 0 ∧
    verify_file_hash env_types (cstr "f") checksums_sha256_right =
      verify_with env_types (cstr "f") env_types.sha256_stream SHA256_DIGEST_SIZE
        sha256_hex_upper ∧
    verify_file_hash env_types (cstr "f") checksums_sha256_right = .ok 0 ∧
    verify_with env_types (cstr "f") env_types.md5_stream MD5_DIGEST_SIZE md5_hex_other =
      .ok (-1) ∧
    verify_with env_types (cstr "f") env_types.sha1_stream SHA1_DIGEST_SIZE sha1_hex_other =
      .ok (-1) ∧
    verify_file_hash env_types (cstr "f") checksums_sha1_wrong =
      verify_with env_types (cstr "f") env_types.sha1_stream SHA1_DIGEST_SIZE
        sha1_hex_other ∧
    verify_file_hash env_types (cstr "f") checksums_sha1_wrong = .ok (-1) ∧
    verify_file_hash env_types (cstr "f") checksums_md5_only =
      verify_with env_types (cstr "f") env_types.md5_stream MD5_DIGEST_SIZE md5_hex ∧
    verify_file_hash env_types (cstr "f") checksums_md5_only = .ok 0 ∧
    verify_file_hash env_types (cstr "f") checksums_sha256_wrong.reverse = .ok (-1) ∧
    verify_file_hash env_types (cstr "f") checksums_sha256_wrong.reverse =
      verify_file_hash env_types (cstr "f") checksums_sha256_wrong :=
  ⟨by decide,
   (verify_file_hash_elects_strongest env_types (cstr "f") checksums_sha256_wrong
      (by decide)).1 ⟨cstr "sha256", sha256_hex_other⟩ (by decide) rfl,
   by decide, by decide, by decide,
   (verify_file_hash_elects_strongest env_types (cstr "f") checksums_sha256_right
      (by decide)).1 ⟨cstr "sha256", sha256_hex_upper⟩ (by decide) rfl,
   by decide, by decide, by decide,
   (verify_file_hash_elects_strongest env_types (cstr "f") checksums_sha1_wrong
      (by decide)).2.1 (by decide) ⟨cstr "sha1", sha1_hex_other⟩ (by decide) rfl,
   by decide,
   (verify_file_hash_elects_strongest env_types (cstr "f") checksums_md5_only
      (by decide)).2.2.1 (by decide) (by decide) ⟨cstr "md5", md5_hex⟩ (by decide) rfl,
   by decide, by decide,
   (verify_file_hash_elects_strongest env_types (cstr "f") checksums_sha256_wrong
      (by decide)).2.2.2 checksums_sha256_wrong.reverse (List.reverse_perm _)⟩

/-- C3: a checksum list with two records of one supported type makes `verify_file_hash` return
1 (Indeterminate), whatever the digests and the file are, and the list is left as it was. -/
theorem verify_file_hash_duplicate_type (env : HashEnv) (filename : CString)
    (cs : List mlink_checksum) (t : CString) (ht : t ∈ supported_hashes)
    (h2 : 2 ≤ count_type cs t) :
    verify_file_hash env filename cs = .ok 1 ∧
      verify_file_hash_run env filename cs = .ok (1, cs) := by
  have hnd : ¬ no_duplicate_type cs := by
    intro h
    have := h t ht
    omega
  have hrun := verify_run_duplicate env filename cs hnd
  refine ⟨?_, hrun⟩
  unfold verify_file_hash
  rw [hrun]
  rfl

/-- Witness of C3: two sha1 records with the same digest, next to a sha256 record. -/
theorem verify_file_hash_duplicate_type_witness :
    cstr "sha1" ∈ supported_hashes ∧
    2 ≤ count_type [⟨cstr "sha256", cstr "ab"⟩, ⟨cstr "sha1", cstr "cd"⟩,
      ⟨cstr "sha1", cstr "cd"⟩] (cstr "sha1") ∧
    verify_file_hash env_ab (cstr "f") [⟨cstr "sha256", cstr "ab"⟩, ⟨cstr "sha1", cstr "cd"⟩,
      ⟨cstr "sha1", cstr "cd"⟩] = .ok 1 :=
  ⟨by decide, by decide,
   (verify_file_hash_duplicate_type env_ab (cstr "f") [⟨cstr "sha256", cstr "ab"⟩,
      ⟨cstr "sha1", cstr "cd"⟩, ⟨cstr "sha1", cstr "cd"⟩] (cstr "sha1")
      (by decide) (by decide)).1⟩

/-- C4 (the claim fails on the code): the empty list gives 1, but for the list of one record of
the unsupported type crc32 the scan `for (i = 0; !metalink_hashes[i]; ++i);` reads
`metalink_hashes[3]`, behind the `HASH_TYPES` entries of the array, for every file. -/
theorem verify_file_hash_unsupported_scan_overrun (env : HashEnv) (filename : CString) :
    verify_file_hash env filename [] = .ok 1 ∧
    verify_file_hash env filename [⟨cstr "crc32", cstr "abcd"⟩] = .fault .out_of_bounds :=
  ⟨rfl, verify_unsupported_only env filename _ (by simp) (by decide)⟩

/-- C5 (the claim as stated fails): the list has a supported record, its elected type sha256
has exactly one record, and the file is opened and digested, yet the result is 1, because the
weaker type md5 has two records. -/
theorem verify_file_hash_weaker_duplicate :
    has_supported [⟨cstr "sha256", cstr "ab"⟩, ⟨cstr "md5", cstr "cd"⟩,
      ⟨cstr "md5", cstr "ef"⟩] ∧
    elected [⟨cstr "sha256", cstr "ab"⟩, ⟨cstr "md5", cstr "cd"⟩,
      ⟨cstr "md5", cstr "ef"⟩] = some (0, 0) ∧
    count_type [⟨cstr "sha256", cstr "ab"⟩, ⟨cstr "md5", cstr "cd"⟩,
      ⟨cstr "md5", cstr "ef"⟩] (cstr "sha256") = 1 ∧
    can_digest env_ab (cstr "f") 0 = true ∧
    verify_file_hash env_ab (cstr "f") [⟨cstr "sha256", cstr "ab"⟩, ⟨cstr "md5", cstr "cd"⟩,
      ⟨cstr "md5", cstr "ef"⟩] = .ok 1 := by
  decide

/-- C5 as amended: `verify_file_hash` returns 1 only when no record has a supported type, or
some supported type (the elected one or a weaker one) has more than one record, or the file
cannot be opened or digested with the elected type; and when no supported type is duplicated,
the file is opened and digested, and the buffer of the elected manifest digest holds the
`2 * digest size` bytes that are lowered, it returns 0 or -1. -/
theorem verify_file_hash_indeterminate_cases (env : HashEnv) (filename : CString)
    (cs : List mlink_checksum) :
    (verify_file_hash env filename cs = .ok 1 →
      ¬ has_supported cs ∨ ¬ no_duplicate_type cs ∨
        ∃ j p, elected cs = some (j, p) ∧ can_digest env filename j = false) ∧
    (∀ j p c size, no_duplicate_type cs → elected cs = some (j, p) → cs[p]? = some c →
      can_digest env filename j = true → digest_sizes[j]? = some size →
      2 * size ≤ c.hash.length + 1 →
      verify_file_hash env filename cs = .ok 0 ∨ verify_file_hash env filename cs = .ok (-1)) := by
  constructor
  · intro h1
    by_cases hnd : no_duplicate_type cs
    · cases he : elected cs with
      | none => exact Or.inl ((elected_eq_none cs).mp he)
      | some jp =>
        obtain ⟨j, p⟩ := jp
        obtain ⟨t, c, -, hc, -⟩ := elected_spec cs j p he
        obtain ⟨stream, size, hj, -, hv⟩ := verify_of_elected_with env filename cs j p c hnd he hc
        refine Or.inr (Or.inr ⟨j, p, rfl, ?_⟩)
        by_contra hcd
        have hcd1 : can_digest env filename j = true := by simpa using hcd
        obtain ⟨file, hash_raw, hopen, hs⟩ := can_digest_true env filename j stream hj hcd1
        rw [hv] at h1
        exact verify_with_ne_one env filename stream size c.hash file hash_raw hopen hs h1
    · exact Or.inr (Or.inl hnd)
  · intro j p c size hnd he hc hcd hsize hlen
    obtain ⟨stream, size1, hj, hsize1, hv⟩ :=
      verify_of_elected_with env filename cs j p c hnd he hc
    have hsz : size1 = size := by
      rw [hsize1] at hsize
      exact Option.some.inj hsize
    subst hsz
    obtain ⟨file, hash_raw, hopen, hs⟩ := can_digest_true env filename j stream hj hcd
    rw [hv, verify_with_match_iff env filename stream size1 c.hash file hash_raw hopen hs hlen]
    by_cases h : c.hash.map lower_byte = hex_encode hash_raw size1 <;> simp [h]

/-- Witness of C5 as amended: a list whose elected type md5 has one record with a digest of 32
characters, next to two records of an unsupported type, gives 0 or -1. -/
theorem verify_file_hash_indeterminate_cases_witness :
    verify_file_hash env_ab (cstr "f")
        [⟨cstr "crc32", cstr "1"⟩, ⟨cstr "md5", cstr "ABABABABABABABABABABABABABABABAB"⟩,
          ⟨cstr "crc32", cstr "2"⟩] = .ok 0 ∨
      verify_file_hash env_ab (cstr "f")
        [⟨cstr "crc32", cstr "1"⟩, ⟨cstr "md5", cstr "ABABABABABABABABABABABABABABABAB"⟩,
          ⟨cstr "crc32", cstr "2"⟩] = .ok (-1) :=
  (verify_file_hash_indeterminate_cases env_ab (cstr "f")
    [⟨cstr "crc32", cstr "1"⟩, ⟨cstr "md5", cstr "ABABABABABABABABABABABABABABABAB"⟩,
      ⟨cstr "crc32", cstr "2"⟩]).2 2 1 ⟨cstr "md5", cstr "ABABABABABABABABABABABABABABABAB"⟩ 16
    (by decide) (by decide) (by decide) (by decide) (by decide) (by decide)


/-! ## Theorems about host.c -/

theorem address_list_set_faulty_eq (al : address_list) (h0 : 0 ≤ al.faulty)
    (h1 : al.faulty < al.count) :
    address_list_set_faulty al al.faulty =
      .ok { al with faulty := (al.faulty + 1) % al.count } := by
  unfold address_list_set_faulty
  by_cases h : al.faulty + 1 ≥ al.count
  · have heq : al.faulty + 1 = al.count := by omega
    simp [h, heq]
  · have hlt : al.faulty + 1 < al.count := by omega
    simp [h, Int.emod_eq_of_lt (by omega : 0 ≤ al.faulty + 1) hlt]

theorem set_faulty_times_eq (k : Nat) :
    ∀ al : address_list, 0 ≤ al.faulty → al.faulty < al.count →
      set_faulty_times k al = .ok { al with faulty := (al.faulty + k) % al.count } := by
  induction k with
  | zero =>
    intro al h0 h1
    simp [set_faulty_times, Int.emod_eq_of_lt h0 h1]
  | succ k ih =>
    intro al h0 h1
    have hc : 0 < al.count := by omega
    simp only [set_faulty_times, address_list_set_faulty_eq al h0 h1]
    rw [ih _ (Int.emod_nonneg _ (by omega)) (Int.emod_lt_of_pos _ hc)]
    simp only [Int.emod_add_emod]
    congr 2
    push_cast
    ring_nf

theorem TOLOWER_idem (c : Nat) : TOLOWER (TOLOWER c) = TOLOWER c := by
  unfold TOLOWER
  split_ifs <;> omega

theorem same_key_lower (host : CString) : same_key (xstrdup_lower host) host = true := by
  unfold same_key xstrdup_lower
  simp [List.map_map, Function.comp_def, TOLOWER_idem]

theorem hash_table_get_put (ht : hash_table) (key host : CString) (al : Nat)
    (h : same_key key host = true) :
    hash_table_get (hash_table_put ht key al) host = some al := by
  simp [hash_table_get, hash_table_put, List.find?, h]

theorem address_list_from_ipv4_addresses_eq (vec : List Nat) (h : vec ≠ []) :
    address_list_from_ipv4_addresses vec =
      .ok { count := vec.length, addresses := vec.map ip_address.ipv4, faulty := 0,
            connected := 0, refcount := 1 } := by
  unfold address_list_from_ipv4_addresses
  have : 0 < vec.length := List.length_pos.mpr h
  simp [this]

theorem deref_store (s : HostState) (p q : Nat) (v : address_list) (hp : p < s.heap.length) :
    (s.store p v).deref q = if q = p then some v else s.deref q := by
  unfold HostState.store HostState.deref
  by_cases h : q = p
  · subst h
    simp [hp]
  · simp [h, List.getElem?_set_ne (Ne.symm h)]

theorem deref_lt (s : HostState) (p : Nat) (v : address_list) (h : s.deref p = some v) :
    p < s.heap.length := by
  unfold HostState.deref at h
  by_contra hge
  have : s.heap[p]? = none := List.getElem?_eq_none (by omega)
  simp [this] at h

/-- A lookup of a host that is in the cache. -/
theorem lookup_host_hit (env : HostEnv) (host : CString) (silent : Int) (s : HostState)
    (ht : hash_table) (p : Nat) (al : address_list)
    (hnum : env.inet_addr host % 4294967296 = 4294967295)
    (hmap : s.host_name_addresses_map = some ht) (hget : hash_table_get ht host = some p)
    (hal : s.deref p = some al) :
    lookup_host env host silent s =
      .ok (some p, s.store p { al with refcount := al.refcount + 1 }) := by
  unfold lookup_host
  simp [hnum, hmap, hget, hal]

theorem lookup_host_miss (env : HostEnv) (host : CString) (silent : Int) (s : HostState)
    (vec : List Nat)
    (hnum : env.inet_addr host % 4294967296 = 4294967295)
    (hmiss : (s.host_name_addresses_map.bind fun ht => hash_table_get ht host) = none)
    (hres : env.resolve s.resolver_calls host = .hostent vec) (hvec : vec ≠ []) :
    lookup_host env host silent s = .ok (some s.heap.length, miss_state env host silent s vec) := by
  unfold lookup_host
  simp only [hnum, ne_eq, not_true_eq_false, if_false, hmiss]
  by_cases hs : silent = 0
  · by_cases hc : env.dns_cache = true
    · cases hm : s.host_name_addresses_map <;>
        simp [hs, hc, hm, gethostbyname_with_timeout, hres, address_list_from_ipv4_addresses_eq vec hvec,
          HostState.alloc, cache_host_lookup, HostState.deref, HostState.store, miss_state]
    · simp [hs, hc, gethostbyname_with_timeout, hres, address_list_from_ipv4_addresses_eq vec hvec,
        HostState.alloc, miss_state]
  · by_cases hc : env.dns_cache = true
    · cases hm : s.host_name_addresses_map <;>
        simp [hs, hc, hm, gethostbyname_with_timeout, hres, address_list_from_ipv4_addresses_eq vec hvec,
          HostState.alloc, cache_host_lookup, HostState.deref, HostState.store, miss_state]
    · simp [hs, hc, gethostbyname_with_timeout, hres, address_list_from_ipv4_addresses_eq vec hvec,
        HostState.alloc, miss_state]


/-! ### The claims about address lists and the cache -/

/-- C6: for an address list with `count >= 1` and `0 <= faulty < count`,
`address_list_set_faulty (al, al.faulty)` sets `faulty` to `faulty + 1` when that is below
`count` and to 0 otherwise, which is when `faulty + 1 = count`; it changes nothing else, and
the new `faulty` is at least 0 and does not exceed `count`. -/
theorem address_list_set_faulty_wraps (al : address_list) (hc : 1 ≤ al.count)
    (h0 : 0 ≤ al.faulty) (h1 : al.faulty < al.count) :
    address_list_set_faulty al al.faulty =
        .ok { al with faulty := if al.faulty + 1 < al.count then al.faulty + 1 else 0 } ∧
      (¬ al.faulty + 1 < al.count → al.faulty + 1 = al.count) ∧
      0 ≤ (if al.faulty + 1 < al.count then al.faulty + 1 else 0) ∧
      (if al.faulty + 1 < al.count then al.faulty + 1 else 0) ≤ al.count := by
  unfold address_list_set_faulty
  by_cases h : al.faulty + 1 < al.count
  · have hge : ¬ al.faulty + 1 ≥ al.count := by omega
    refine ⟨by simp [h, hge], fun hn => absurd h hn, ?_, ?_⟩
    · rw [if_pos h]; omega
    · rw [if_pos h]; omega
  · have hge : al.faulty + 1 ≥ al.count := by omega
    refine ⟨by simp [h, hge], fun _ => by omega, ?_, ?_⟩
    · rw [if_neg h]
    · rw [if_neg h]; omega

/-- Witness of C6: the last address of a list of three is marked faulty. -/
theorem address_list_set_faulty_wraps_witness :
    address_list_set_faulty
        { count := 3, addresses := [.ipv4 1, .ipv4 2, .ipv4 3], faulty := 2, connected := 0,
          refcount := 1 } 2 =
      .ok { count := 3, addresses := [.ipv4 1, .ipv4 2, .ipv4 3], faulty := 0, connected := 0,
            refcount := 1 } :=
  (address_list_set_faulty_wraps
    { count := 3, addresses := [.ipv4 1, .ipv4 2, .ipv4 3], faulty := 2, connected := 0,
      refcount := 1 } (by decide) (by decide) (by decide)).1

/-- C7: from a list with `faulty = 0` and `count = n >= 1`, as `address_list_from_ipv4_addresses`
builds it, every number `k` of `address_list_set_faulty` calls made with the current `faulty`
succeeds and leaves `0 <= faulty < count`, so `address_list_get_bounds` gives a range with
`start < end = count`; after exactly `n` calls `faulty` is 0 again. -/
theorem set_faulty_keeps_list_usable (al : address_list) (n : Nat) (hn : 1 ≤ n)
    (hc : al.count = n) (hf : al.faulty = 0) (k : Nat) :
    ∃ al1, set_faulty_times k al = .ok al1 ∧
      0 ≤ al1.faulty ∧ al1.faulty < al1.count ∧
      (address_list_get_bounds al1).1 < (address_list_get_bounds al1).2 ∧
      (address_list_get_bounds al1).2 = al.count ∧
      (k = n → al1.faulty = 0) := by
  have hpos : 0 < al.count := by omega
  have h0 : 0 ≤ al.faulty := by omega
  have h1 : al.faulty < al.count := by omega
  refine ⟨_, set_faulty_times_eq k al h0 h1, ?_, ?_, ?_, rfl, ?_⟩
  · exact Int.emod_nonneg _ (by omega)
  · exact Int.emod_lt_of_pos _ hpos
  · exact Int.emod_lt_of_pos _ hpos
  · intro hk
    show (al.faulty + (k : Int)) % al.count = 0
    rw [hf, hc, hk]
    simp

/-- Witness of C7: the list built from three addresses, after three calls. -/
theorem set_faulty_keeps_list_usable_witness :
    address_list_from_ipv4_addresses [10, 20, 30] =
      .ok { count := 3, addresses := [.ipv4 10, .ipv4 20, .ipv4 30], faulty := 0,
            connected := 0, refcount := 1 } ∧
    ∃ al1, set_faulty_times 3
        { count := 3, addresses := [.ipv4 10, .ipv4 20, .ipv4 30], faulty := 0,
          connected := 0, refcount := 1 } = .ok al1 ∧
      0 ≤ al1.faulty ∧ al1.faulty < al1.count ∧
      (address_list_get_bounds al1).1 < (address_list_get_bounds al1).2 ∧
      (address_list_get_bounds al1).2 = 3 ∧
      (3 = 3 → al1.faulty = 0) :=
  ⟨by decide,
   set_faulty_keeps_list_usable
    { count := 3, addresses := [.ipv4 10, .ipv4 20, .ipv4 30], faulty := 0,
      connected := 0, refcount := 1 } 3 (by decide) (by decide) (by decide) 3⟩

/-- C8: with `opt.dns_cache` on and an empty cache, two successive `lookup_host (h, silent)`
calls for a non-numeric host whose resolver call succeeds return the same list, with the same
count and the same addresses in the same order after each call, and the resolver is called
exactly once. -/
theorem lookup_host_twice (env : HostEnv) (host : CString) (silent : Int) (s : HostState)
    (vec : List Nat) (hcache : env.dns_cache = true)
    (hempty : s.host_name_addresses_map = none ∨ s.host_name_addresses_map = some [])
    (hnum : env.inet_addr host % 4294967296 = 4294967295)
    (hres : env.resolve s.resolver_calls host = .hostent vec) (hvec : vec ≠ []) :
    ∃ p s1 s2 al1 al2,
      lookup_host env host silent s = .ok (some p, s1) ∧
      lookup_host env host silent s1 = .ok (some p, s2) ∧
      s1.deref p = some al1 ∧ s2.deref p = some al2 ∧
      al1.count = vec.length ∧ al2.count = vec.length ∧
      al1.addresses = vec.map ip_address.ipv4 ∧ al2.addresses = vec.map ip_address.ipv4 ∧
      s1.resolver_calls = s.resolver_calls + 1 ∧
      s2.resolver_calls = s.resolver_calls + 1 := by
  have hmiss : (s.host_name_addresses_map.bind fun ht => hash_table_get ht host) = none := by
    rcases hempty with h | h <;> simp [h, hash_table_get]
  have h1 := lookup_host_miss env host silent s vec hnum hmiss hres hvec
  have hmap : (miss_state env host silent s vec).host_name_addresses_map =
      some (hash_table_put (s.host_name_addresses_map.getD []) (xstrdup_lower host)
        s.heap.length) := by
    simp [miss_state, hcache]
  have hd : (miss_state env host silent s vec).deref s.heap.length =
      some { count := vec.length, addresses := vec.map ip_address.ipv4, faulty := 0,
             connected := 0, refcount := 2 } := by
    simp [miss_state, HostState.deref, hcache]
  have h2 := lookup_host_hit env host silent (miss_state env host silent s vec) _ s.heap.length _
    hnum hmap (hash_table_get_put _ _ _ _ (same_key_lower host)) hd
  refine ⟨s.heap.length, _, _, _,
    { count := vec.length, addresses := vec.map ip_address.ipv4, faulty := 0, connected := 0,
      refcount := 2 + 1 }, h1, h2, hd, ?_, rfl, rfl, rfl, rfl, ?_, ?_⟩
  · rw [deref_store _ _ _ _ (deref_lt _ _ _ hd)]
    simp
  · simp [miss_state]
  · simp [miss_state, HostState.store]

/-- Witness of C8: two lookups of "example.org" from the state at program start. -/
theorem lookup_host_twice_witness :
    ∃ p s1 s2 al1 al2,
      lookup_host env_dns (cstr "example.org") 1 initial_state = .ok (some p, s1) ∧
      lookup_host env_dns (cstr "example.org") 1 s1 = .ok (some p, s2) ∧
      s1.deref p = some al1 ∧ s2.deref p = some al2 ∧
      al1.count = ([1, 2] : List Nat).length ∧ al2.count = ([1, 2] : List Nat).length ∧
      al1.addresses = [1, 2].map ip_address.ipv4 ∧ al2.addresses = [1, 2].map ip_address.ipv4 ∧
      s1.resolver_calls = initial_state.resolver_calls + 1 ∧
      s2.resolver_calls = initial_state.resolver_calls + 1 :=
  lookup_host_twice env_dns (cstr "example.org") 1 initial_state [1, 2] rfl (Or.inl rfl)
    (by decide) rfl (by decide)

/-- C9: a lookup of a (non-numeric) host that is in the cache returns the cached list with its
refcount raised by exactly 1 and with count, addresses, faulty and connected as they were; the
resolver is not called, and the cache map, every other list, `errno`, `h_errno` and the log
are unchanged. The list may have a faulty prefix. -/
theorem lookup_host_hit_returns_cached (env : HostEnv) (host : CString) (silent : Int)
    (s : HostState) (ht : hash_table) (p : Nat) (al : address_list)
    (hnum : env.inet_addr host % 4294967296 = 4294967295)
    (hmap : s.host_name_addresses_map = some ht) (hget : hash_table_get ht host = some p)
    (hal : s.deref p = some al) :
    ∃ s1, lookup_host env host silent s = .ok (some p, s1) ∧
      s1.deref p = some { count := al.count, addresses := al.addresses, faulty := al.faulty,
                          connected := al.connected, refcount := al.refcount + 1 } ∧
      (∀ q, q ≠ p → s1.deref q = s.deref q) ∧
      s1.resolver_calls = s.resolver_calls ∧
      s1.host_name_addresses_map = s.host_name_addresses_map ∧
      s1.errno = s.errno ∧ s1.h_errno = s.h_errno ∧ s1.log = s.log := by
  refine ⟨_, lookup_host_hit env host silent s ht p al hnum hmap hget hal, ?_, ?_,
    rfl, rfl, rfl, rfl, rfl⟩
  · rw [deref_store _ _ _ _ (deref_lt _ _ _ hal)]
    simp
  · intro q hq
    rw [deref_store _ _ _ _ (deref_lt _ _ _ hal)]
    simp [hq]

/-- Witness of C9: a lookup in another letter case of a cached host whose list has one faulty
address. -/
theorem lookup_host_hit_returns_cached_witness :
    ∃ s1, lookup_host env_dns (cstr "Example.ORG") 0 cached_state = .ok (some 0, s1) ∧
      s1.deref 0 = some { count := 3, addresses := [.ipv4 1, .ipv4 2, .ipv4 3], faulty := 1,
                          connected := 1, refcount := 2 + 1 } ∧
      (∀ q, q ≠ 0 → s1.deref q = cached_state.deref q) ∧
      s1.resolver_calls = cached_state.resolver_calls ∧
      s1.host_name_addresses_map = cached_state.host_name_addresses_map ∧
      s1.errno = cached_state.errno ∧ s1.h_errno = cached_state.h_errno ∧
      s1.log = cached_state.log :=
  lookup_host_hit_returns_cached env_dns (cstr "Example.ORG") 0 cached_state
    [(cstr "example.org", 0)] 0
    { count := 3, addresses := [.ipv4 1, .ipv4 2, .ipv4 3], faulty := 1, connected := 1,
      refcount := 2 }
    (by decide) rfl (by decide) (by decide)

/-- C10: on a cache miss with a successful resolver call, `lookup_host` returns a new list
built from the resolved addresses with `faulty = 0` and `connected = 0`; with `opt.dns_cache`
on its refcount is 2 and the cache maps the lower-cased host name to it, with `opt.dns_cache`
off its refcount is 1 and the cache is unchanged. The lists that existed before are
unchanged. -/
theorem lookup_host_miss_fresh (env : HostEnv) (host : CString) (silent : Int) (s : HostState)
    (vec : List Nat)
    (hnum : env.inet_addr host % 4294967296 = 4294967295)
    (hmiss : (s.host_name_addresses_map.bind fun ht => hash_table_get ht host) = none)
    (hres : env.resolve s.resolver_calls host = .hostent vec) (hvec : vec ≠ []) :
    ∃ p s1 al, lookup_host env host silent s = .ok (some p, s1) ∧
      s.heap[p]? = none ∧ s1.deref p = some al ∧
      al.count = vec.length ∧ al.addresses = vec.map ip_address.ipv4 ∧
      al.faulty = 0 ∧ al.connected = 0 ∧
      (env.dns_cache = true → al.refcount = 2 ∧
        ∃ ht, s1.host_name_addresses_map = some ht ∧ (xstrdup_lower host, p) ∈ ht ∧
          hash_table_get ht (xstrdup_lower host) = some p) ∧
      (env.dns_cache = false → al.refcount = 1 ∧
        s1.host_name_addresses_map = s.host_name_addresses_map) ∧
      (∀ q, q ≠ p → s1.deref q = s.deref q) ∧
      s1.resolver_calls = s.resolver_calls + 1 := by
  refine ⟨s.heap.length, miss_state env host silent s vec,
    { count := vec.length, addresses := vec.map ip_address.ipv4, faulty := 0, connected := 0,
      refcount := if env.dns_cache then 2 else 1 },
    lookup_host_miss env host silent s vec hnum hmiss hres hvec, ?_, ?_, rfl, rfl, rfl, rfl,
    ?_, ?_, ?_, ?_⟩
  · simp
  · simp [miss_state, HostState.deref]
  · intro hc
    refine ⟨by simp [hc],
      hash_table_put (s.host_name_addresses_map.getD []) (xstrdup_lower host) s.heap.length,
      by simp [miss_state, hc], by simp [hash_table_put], ?_⟩
    apply hash_table_get_put
    simp [same_key]
  · intro hc
    exact ⟨by simp [hc], by simp [miss_state, hc]⟩
  · intro q hq
    simp only [miss_state, HostState.deref]
    rcases Nat.lt_or_gt_of_ne hq with hlt | hgt
    · rw [List.getElem?_append_left hlt]
    · rw [List.getElem?_eq_none (by simp; omega), List.getElem?_eq_none (by omega)]
  · simp [miss_state]

/-- Witness of C10: the first lookup of "Example.org" with caching on. -/
theorem lookup_host_miss_fresh_witness :
    ∃ p s1 al, lookup_host env_dns (cstr "Example.org") 0 initial_state = .ok (some p, s1) ∧
      initial_state.heap[p]? = none ∧ s1.deref p = some al ∧
      al.count = ([1, 2] : List Nat).length ∧ al.addresses = [1, 2].map ip_address.ipv4 ∧
      al.faulty = 0 ∧ al.connected = 0 ∧
      (env_dns.dns_cache = true → al.refcount = 2 ∧
        ∃ ht, s1.host_name_addresses_map = some ht ∧
          (xstrdup_lower (cstr "Example.org"), p) ∈ ht ∧
          hash_table_get ht (xstrdup_lower (cstr "Example.org")) = some p) ∧
      (env_dns.dns_cache = false → al.refcount = 1 ∧
        s1.host_name_addresses_map = initial_state.host_name_addresses_map) ∧
      (∀ q, q ≠ p → s1.deref q = initial_state.deref q) ∧
      s1.resolver_calls = initial_state.resolver_calls + 1 :=
  lookup_host_miss_fresh env_dns (cstr "Example.org") 0 initial_state [1, 2]
    (by decide) (by decide) rfl (by decide)


/-! ### Numeric hosts, release, forget and cleanup -/

/-- A lookup of a host for which `inet_addr` does not give its error value. -/
theorem lookup_host_numeric (env : HostEnv) (host : CString) (silent : Int) (s : HostState)
    (h : env.inet_addr host % 4294967296 ≠ 4294967295) :
    lookup_host env host silent s =
      .ok (some s.heap.length,
        { s with heap := s.heap ++
            [some { count := 1, addresses := [.ipv4 (env.inet_addr host % 4294967296)],
                    faulty := 0, connected := 0, refcount := 1 }] }) := by
  unfold lookup_host
  simp [h, address_list_from_ipv4_addresses, HostState.alloc]

theorem deref_delete (s : HostState) (p q : Nat) :
    (address_list_delete p s).deref q = if q = p then none else s.deref q := by
  unfold address_list_delete HostState.deref
  by_cases h : q = p
  · subst h
    by_cases hp : q < s.heap.length
    · simp [hp]
    · simp [List.getElem?_eq_none (by simpa using hp : (s.heap.set q none).length ≤ q)]
  · simp [h, List.getElem?_set_ne (Ne.symm h)]

theorem list_set_self {α : Type} (l : List α) :
    ∀ (i : Nat) (a : α), l[i]? = some a → l.set i a = l := by
  induction l with
  | nil => intro i a h; simp at h
  | cons x xs ih =>
    intro i a h
    cases i with
    | zero =>
      simp at h
      simp [h]
    | succ j =>
      simp at h
      simp [ih j a h]

theorem store_self (s : HostState) (p : Nat) (al : address_list) (hal : s.deref p = some al) :
    s.store p al = s := by
  unfold HostState.store
  unfold HostState.deref at hal
  have hget : s.heap[p]? = some (some al) := by
    cases h : s.heap[p]? with
    | none => simp [h] at hal
    | some v =>
      simp [h] at hal
      rw [hal]
  rw [list_set_self s.heap p (some al) hget]

theorem store_store (s : HostState) (p : Nat) (v w : address_list) :
    (s.store p v).store p w = s.store p w := by
  simp [HostState.store, List.set_set]

theorem address_list_release_shared (s : HostState) (p : Nat) (al : address_list)
    (hal : s.deref p = some al) (h : 2 ≤ al.refcount) :
    address_list_release p s = .ok (s.store p { al with refcount := al.refcount - 1 }) := by
  unfold address_list_release
  have : ¬ al.refcount - 1 ≤ 0 := by omega
  simp [hal, this]

theorem address_list_release_last (s : HostState) (p : Nat) (al : address_list)
    (hal : s.deref p = some al) (h : al.refcount ≤ 1) :
    address_list_release p s =
      .ok (address_list_delete p (s.store p { al with refcount := al.refcount - 1 })) := by
  unfold address_list_release
  have : al.refcount - 1 ≤ 0 := by omega
  simp [hal, this]

/-- Fewer releases than references: the list stays allocated, and only its refcount is
lowered. -/
theorem release_times_keeps (p : Nat) (k : Nat) :
    ∀ (s : HostState) (al : address_list), s.deref p = some al → (k : Int) < al.refcount →
      release_times k p s = .ok (s.store p { al with refcount := al.refcount - k }) := by
  induction k with
  | zero =>
    intro s al hal _
    simp [release_times, store_self s p al hal]
  | succ k ih =>
    intro s al hal hk
    have h2 : 2 ≤ al.refcount := by push_cast at hk; omega
    simp only [release_times, address_list_release_shared s p al hal h2]
    have hd : (s.store p { al with refcount := al.refcount - 1 }).deref p =
        some { al with refcount := al.refcount - 1 } := by
      rw [deref_store _ _ _ _ (deref_lt _ _ _ hal)]
      simp
    rw [ih _ _ hd (by push_cast at hk ⊢; show (k : Int) < al.refcount - 1; omega), store_store]
    congr 3
    push_cast
    show al.refcount - 1 - (k : Int) = al.refcount - ((k : Int) + 1)
    omega

theorem release_times_succ (p : Nat) (k : Nat) :
    ∀ s : HostState, release_times (k + 1) p s =
      (release_times k p s).bind (address_list_release p) := by
  induction k with
  | zero =>
    intro s
    simp only [release_times, Run.bind]
    cases address_list_release p s <;> rfl
  | succ k ih =>
    intro s
    rw [release_times]
    cases h : address_list_release p s with
    | ok s1 =>
      simp only [ih s1]
      conv_rhs => rw [release_times, h]
    | fault f =>
      simp only [Run.bind]
      conv_rhs => rw [release_times, h]

/-- As many releases as references: the last one frees the list. -/
theorem release_times_frees (p : Nat) (n : Nat) (s : HostState) (al : address_list)
    (hal : s.deref p = some al) (hn : al.refcount = n + 1) :
    release_times (n + 1) p s =
      .ok (address_list_delete p (s.store p { al with refcount := 0 })) := by
  rw [release_times_succ, release_times_keeps p n s al hal (by omega)]
  simp only [Run.bind]
  have hd : (s.store p { al with refcount := al.refcount - n }).deref p =
      some { al with refcount := al.refcount - n } := by
    rw [deref_store _ _ _ _ (deref_lt _ _ _ hal)]
    simp
  rw [address_list_release_last _ p _ hd (by show al.refcount - (n : Int) ≤ 1; omega), store_store]
  have h0 : al.refcount - (n : Int) - 1 = 0 := by omega
  simp only [h0]

theorem hash_table_get_remove (ht : hash_table) (host : CString) :
    hash_table_get (hash_table_remove ht host) host = none := by
  unfold hash_table_get hash_table_remove
  simp only [Option.map_eq_none', List.find?_eq_none]
  intro e he
  have := (List.mem_filter.mp he).2
  simpa using this

/-- Forgetting a host that is in the cache: the reference of the cache is released and the
entry is removed. -/
theorem forget_host_lookup_cached (host : CString) (s : HostState) (ht : hash_table) (p : Nat)
    (hmap : s.host_name_addresses_map = some ht) (hget : hash_table_get ht host = some p) :
    forget_host_lookup host s =
      match address_list_release p s with
      | .fault f => .fault f
      | .ok s1 => .ok { s1 with host_name_addresses_map := some (hash_table_remove ht host) } := by
  unfold forget_host_lookup
  simp [hmap, hget]

/-- Forgetting a host that is not in the table of an existing cache changes nothing. -/
theorem forget_host_lookup_absent (host : CString) (s : HostState) (ht : hash_table)
    (hmap : s.host_name_addresses_map = some ht) (hget : hash_table_get ht host = none) :
    forget_host_lookup host s = .ok s := by
  unfold forget_host_lookup
  simp [hmap, hget]


theorem host_cleanup_mapper_one (p : Nat) (s : HostState) (al : address_list)
    (hal : s.deref p = some al) (h1 : al.refcount = 1) :
    host_cleanup_mapper p s = .ok (address_list_delete p s) := by
  unfold host_cleanup_mapper
  simp [hal, h1]

theorem host_cleanup_mapper_held (p : Nat) (s : HostState) (al : address_list)
    (hal : s.deref p = some al) (h1 : al.refcount ≠ 1) :
    host_cleanup_mapper p s = .fault .assert_failed := by
  unfold host_cleanup_mapper
  simp [hal, h1]

/-- The walk of `host_cleanup` over a table whose lists are distinct, live and held by the
cache only: every list is freed and nothing else changes. -/
theorem hash_table_map_cleanup_frees (ht : hash_table) :
    ∀ s : HostState, (ht.map Prod.snd).Nodup →
      (∀ e ∈ ht, ∃ al, s.deref e.2 = some al ∧ al.refcount = 1) →
      ∃ s1, hash_table_map_cleanup ht s = .ok s1 ∧
        (∀ q, s1.deref q = if q ∈ ht.map Prod.snd then none else s.deref q) ∧
        s1.host_name_addresses_map = s.host_name_addresses_map ∧
        s1.resolver_calls = s.resolver_calls ∧ s1.errno = s.errno ∧
        s1.h_errno = s.h_errno ∧ s1.log = s.log := by
  induction ht with
  | nil =>
    intro s _ _
    exact ⟨s, rfl, by simp, rfl, rfl, rfl, rfl, rfl⟩
  | cons e rest ih =>
    intro s hnd hall
    obtain ⟨al, hal, h1⟩ := hall e (List.mem_cons_self _ _)
    have hnd1 : (rest.map Prod.snd).Nodup := (List.nodup_cons.mp (by simpa using hnd)).2
    have hnotin : e.2 ∉ rest.map Prod.snd := (List.nodup_cons.mp (by simpa using hnd)).1
    have hall1 : ∀ e1 ∈ rest, ∃ al1, (address_list_delete e.2 s).deref e1.2 = some al1 ∧
        al1.refcount = 1 := by
      intro e1 he1
      obtain ⟨al1, hal1, h11⟩ := hall e1 (List.mem_cons_of_mem _ he1)
      refine ⟨al1, ?_, h11⟩
      rw [deref_delete]
      have hne : e1.2 ≠ e.2 := by
        intro heq
        exact hnotin (heq ▸ List.mem_map_of_mem Prod.snd he1)
      simp [hne, hal1]
    obtain ⟨s1, hrun, hd, hm, hr, he, hh, hl⟩ := ih (address_list_delete e.2 s) hnd1 hall1
    refine ⟨s1, ?_, ?_, hm, hr, he, hh, hl⟩
    · simp only [hash_table_map_cleanup, host_cleanup_mapper_one e.2 s al hal h1, hrun]
    · intro q
      rw [hd q, deref_delete]
      by_cases hq : q = e.2
      · simp [hq]
      · by_cases hq1 : q ∈ rest.map Prod.snd
        · simp [hq1]
        · have : q ∉ (e :: rest).map Prod.snd := by
            simp only [List.map_cons, List.mem_cons, not_or]
            exact ⟨hq, hq1⟩
          simp only [hq, hq1, this, if_false]

/-- The walk of `host_cleanup` over a table whose lists are distinct and live, one of them with
a refcount other than 1: the assertion of `host_cleanup_mapper` fails. -/
theorem hash_table_map_cleanup_fails (ht : hash_table) :
    ∀ s : HostState, (ht.map Prod.snd).Nodup →
      (∀ e ∈ ht, ∃ al, s.deref e.2 = some al) →
      (∃ e ∈ ht, ∃ al, s.deref e.2 = some al ∧ al.refcount ≠ 1) →
      hash_table_map_cleanup ht s = .fault .assert_failed := by
  induction ht with
  | nil =>
    intro s _ _ hex
    obtain ⟨e, he, _⟩ := hex
    simp at he
  | cons e rest ih =>
    intro s hnd hlive hex
    obtain ⟨al, hal⟩ := hlive e (List.mem_cons_self _ _)
    by_cases h1 : al.refcount = 1
    · have hnd1 : (rest.map Prod.snd).Nodup := (List.nodup_cons.mp (by simpa using hnd)).2
      have hnotin : e.2 ∉ rest.map Prod.snd := (List.nodup_cons.mp (by simpa using hnd)).1
      have hkeep : ∀ e1 ∈ rest, (address_list_delete e.2 s).deref e1.2 = s.deref e1.2 := by
        intro e1 he1
        rw [deref_delete]
        have hne : e1.2 ≠ e.2 := by
          intro heq
          exact hnotin (heq ▸ List.mem_map_of_mem Prod.snd he1)
        simp [hne]
      have hlive1 : ∀ e1 ∈ rest, ∃ al1, (address_list_delete e.2 s).deref e1.2 = some al1 := by
        intro e1 he1
        rw [hkeep e1 he1]
        exact hlive e1 (List.mem_cons_of_mem _ he1)
      have hex1 : ∃ e1 ∈ rest, ∃ al1, (address_list_delete e.2 s).deref e1.2 = some al1 ∧
          al1.refcount ≠ 1 := by
        obtain ⟨e1, he1, al1, hal1, hne1⟩ := hex
        rcases List.mem_cons.mp he1 with heq | hin
        · subst heq
          rw [hal] at hal1
          cases hal1
          exact absurd h1 hne1
        · exact ⟨e1, hin, al1, by rw [hkeep e1 hin]; exact hal1, hne1⟩
      simp only [hash_table_map_cleanup, host_cleanup_mapper_one e.2 s al hal h1]
      exact ih _ hnd1 hlive1 hex1
    · simp only [hash_table_map_cleanup, host_cleanup_mapper_held e.2 s al hal h1]

/-- C11 (the claim as stated fails): "255.255.255.255" is a literal numeric IPv4 address, but
its `inet_addr` value is the error value, so `lookup_host` takes it for a name: from the state
at program start it calls the resolver, puts the host into the cache and returns a list with
refcount 2. -/
theorem lookup_host_broadcast_address_resolved :
    (split_dots (cstr "255.255.255.255")).map decimal_value =
      [some 255, some 255, some 255, some 255] ∧
    lookup_host env_dotted (cstr "255.255.255.255") 1 initial_state =
      .ok (some 0,
        { heap := [some { count := 1, addresses := [.ipv4 4294967295], faulty := 0,
                          connected := 0, refcount := 2 }],
          host_name_addresses_map := some [(cstr "255.255.255.255", 0)],
          errno := 0, h_errno := 0, resolver_calls := 1, log := [] }) := by
  decide

/-- C11 as amended: for every host whose `inet_addr` value is not the error value with all
bits set (every literal numeric IPv4 address but 255.255.255.255), `lookup_host` returns a new
list of one element that holds exactly that address, with refcount 1, faulty 0 and connected 0,
whatever the cache holds; the cache map, the other lists, the number of resolver calls and the
log are unchanged. -/
theorem lookup_host_numeric_direct (env : HostEnv) (host : CString) (silent : Int)
    (s : HostState) (h : env.inet_addr host % 4294967296 ≠ 4294967295) :
    ∃ p s1, lookup_host env host silent s = .ok (some p, s1) ∧
      s.heap[p]? = none ∧
      s1.deref p = some { count := 1, addresses := [.ipv4 (env.inet_addr host % 4294967296)],
                          faulty := 0, connected := 0, refcount := 1 } ∧
      (∀ q, q ≠ p → s1.deref q = s.deref q) ∧
      s1.host_name_addresses_map = s.host_name_addresses_map ∧
      s1.resolver_calls = s.resolver_calls ∧ s1.log = s.log ∧
      s1.errno = s.errno ∧ s1.h_errno = s.h_errno := by
  refine ⟨s.heap.length, _, lookup_host_numeric env host silent s h, by simp, ?_, ?_,
    rfl, rfl, rfl, rfl, rfl⟩
  · simp [HostState.deref]
  · intro q hq
    simp only [HostState.deref]
    rcases Nat.lt_or_gt_of_ne hq with hlt | hgt
    · rw [List.getElem?_append_left hlt]
    · rw [List.getElem?_eq_none (by simp; omega), List.getElem?_eq_none (by omega)]

/-- Witness of C11 as amended: the host "93.184.216.34", looked up in a state whose cache is
not empty. -/
theorem lookup_host_numeric_direct_witness :
    ∃ p s1, lookup_host env_dotted (cstr "93.184.216.34") 0 cached_state = .ok (some p, s1) ∧
      cached_state.heap[p]? = none ∧
      s1.deref p = some { count := 1,
                          addresses := [.ipv4 (env_dotted.inet_addr (cstr "93.184.216.34")
                            % 4294967296)],
                          faulty := 0, connected := 0, refcount := 1 } ∧
      (∀ q, q ≠ p → s1.deref q = cached_state.deref q) ∧
      s1.host_name_addresses_map = cached_state.host_name_addresses_map ∧
      s1.resolver_calls = cached_state.resolver_calls ∧ s1.log = cached_state.log ∧
      s1.errno = cached_state.errno ∧ s1.h_errno = cached_state.h_errno :=
  lookup_host_numeric_direct env_dotted (cstr "93.184.216.34") 0 cached_state (by decide)

/-- C12: for a list with refcount N >= 1, after k < N calls of `address_list_release` the list
is still allocated, with its refcount lowered by k and nothing else changed, and the N-th call
frees it; the other lists are not touched. -/
theorem address_list_release_counts (s : HostState) (p : Nat) (al : address_list) (n : Nat)
    (hal : s.deref p = some al) (hn : al.refcount = n) (h1 : 1 ≤ n) :
    (∀ k, k < n → ∃ s1, release_times k p s = .ok s1 ∧
      s1.deref p = some { count := al.count, addresses := al.addresses, faulty := al.faulty,
                          connected := al.connected, refcount := al.refcount - k } ∧
      (∀ q, q ≠ p → s1.deref q = s.deref q) ∧
      s1.host_name_addresses_map = s.host_name_addresses_map) ∧
    (∃ s1, release_times n p s = .ok s1 ∧ s1.deref p = none ∧
      (∀ q, q ≠ p → s1.deref q = s.deref q) ∧
      s1.host_name_addresses_map = s.host_name_addresses_map) := by
  have hlt := deref_lt s p al hal
  constructor
  · intro k hk
    refine ⟨_, release_times_keeps p k s al hal (by omega), ?_, ?_, rfl⟩
    · rw [deref_store _ _ _ _ hlt]
      simp
    · intro q hq
      rw [deref_store _ _ _ _ hlt]
      simp [hq]
  · obtain ⟨m, rfl⟩ : ∃ m, n = m + 1 := ⟨n - 1, by omega⟩
    refine ⟨_, release_times_frees p m s al hal (by omega), ?_, ?_, rfl⟩
    · rw [deref_delete]
      simp
    · intro q hq
      rw [deref_delete, deref_store _ _ _ _ hlt]
      simp [hq]

/-- Witness of C12: the list of `cached_state` has refcount 2; one release keeps it, the
second frees it. -/
theorem address_list_release_counts_witness :
    (∃ s1, release_times 1 0 cached_state = .ok s1 ∧
      s1.deref 0 = some { count := 3, addresses := [.ipv4 1, .ipv4 2, .ipv4 3], faulty := 1,
                          connected := 1, refcount := 2 - (1 : Nat) }) ∧
    (∃ s1, release_times 2 0 cached_state = .ok s1 ∧ s1.deref 0 = none) :=
  have h := address_list_release_counts cached_state 0
    { count := 3, addresses := [.ipv4 1, .ipv4 2, .ipv4 3], faulty := 1, connected := 1,
      refcount := 2 } 2 (by decide) (by decide) (by decide)
  ⟨(h.1 1 (by decide)).imp fun _ hs => ⟨hs.1, hs.2.1⟩, h.2.imp fun _ hs => ⟨hs.1, hs.2.1⟩⟩

/-- C13 (the claim fails on the code): before anything is cached `host_name_addresses_map` is
NULL, and `forget_host_lookup` of a host that is not in the cache hands that NULL pointer to
`hash_table_get` instead of leaving everything unchanged. With caching off the map stays NULL
after a lookup, so the same happens after a successful `lookup_host`. -/
theorem forget_host_lookup_null_map :
    initial_state.host_name_addresses_map = none ∧
    forget_host_lookup (cstr "example.org") initial_state = .fault .null_pointer ∧
    (lookup_host env_nocache (cstr "example.org") 1 initial_state).bind
      (fun r => forget_host_lookup (cstr "example.org") r.2) = .fault .null_pointer := by
  decide

/-- The part of C13 that holds: after `forget_host_lookup` of a cached host, the next
`lookup_host` of that host misses the cache, calls the resolver and returns a new list. -/
theorem forget_then_lookup_resolves (env : HostEnv) (host : CString) (silent : Int)
    (s : HostState) (ht : hash_table) (p : Nat) (al : address_list) (vec : List Nat)
    (hnum : env.inet_addr host % 4294967296 = 4294967295)
    (hmap : s.host_name_addresses_map = some ht) (hget : hash_table_get ht host = some p)
    (hal : s.deref p = some al)
    (hres : env.resolve s.resolver_calls host = .hostent vec) (hvec : vec ≠ []) :
    ∃ s1 s2, forget_host_lookup host s = .ok s1 ∧
      s1.host_name_addresses_map = some (hash_table_remove ht host) ∧
      lookup_host env host silent s1 = .ok (some s1.heap.length, s2) ∧
      s2.resolver_calls = s.resolver_calls + 1 := by
  have hforget := forget_host_lookup_cached host s ht p hmap hget
  have key : ∀ s0 : HostState, s0.resolver_calls = s.resolver_calls →
      ∃ s2, lookup_host env host silent
          { s0 with host_name_addresses_map := some (hash_table_remove ht host) } =
        .ok (some s0.heap.length, s2) ∧ s2.resolver_calls = s.resolver_calls + 1 := by
    intro s0 h0
    refine ⟨_, lookup_host_miss env host silent _ vec hnum ?_ ?_ hvec, ?_⟩
    · simp [hash_table_get_remove]
    · simpa [h0] using hres
    · simp [miss_state, h0]
  by_cases h2 : 2 ≤ al.refcount
  · rw [address_list_release_shared s p al hal h2] at hforget
    obtain ⟨s2, hl, hr⟩ := key (s.store p { al with refcount := al.refcount - 1 }) rfl
    exact ⟨_, s2, hforget, rfl, hl, hr⟩
  · rw [address_list_release_last s p al hal (by omega)] at hforget
    obtain ⟨s2, hl, hr⟩ :=
      key (address_list_delete p (s.store p { al with refcount := al.refcount - 1 })) rfl
    exact ⟨_, s2, hforget, rfl, hl, hr⟩

/-- C14: when `forget_host_lookup` removes a cached host whose list has the reference of the
cache and n >= 1 references of callers, the list stays allocated with its refcount lowered by
exactly 1 and its count, addresses, faulty and connected as they were; the host is no longer
in the cache; and the list is freed by the n-th `address_list_release` that follows, not by an
earlier one. -/
theorem forget_host_lookup_keeps_held_list (host : CString) (s : HostState) (ht : hash_table)
    (p : Nat) (al : address_list) (n : Nat)
    (hmap : s.host_name_addresses_map = some ht) (hget : hash_table_get ht host = some p)
    (hal : s.deref p = some al) (hn : al.refcount = n + 1) (h1 : 1 ≤ n) :
    ∃ s1, forget_host_lookup host s = .ok s1 ∧
      s1.deref p = some { count := al.count, addresses := al.addresses, faulty := al.faulty,
                          connected := al.connected, refcount := al.refcount - 1 } ∧
      (∃ ht1, s1.host_name_addresses_map = some ht1 ∧ hash_table_get ht1 host = none) ∧
      (∀ k, k < n → ∃ s2, release_times k p s1 = .ok s2 ∧ (s2.deref p).isSome = true) ∧
      (∃ s2, release_times n p s1 = .ok s2 ∧ s2.deref p = none) := by
  have hlt := deref_lt s p al hal
  have hrel := address_list_release_shared s p al hal (by omega)
  have hd : ({ s.store p { al with refcount := al.refcount - 1 } with
      host_name_addresses_map := some (hash_table_remove ht host) } : HostState).deref p =
      some { al with refcount := al.refcount - 1 } := by
    have := deref_store s p p { al with refcount := al.refcount - 1 } hlt
    simpa [HostState.deref, HostState.store] using this
  refine ⟨{ s.store p { al with refcount := al.refcount - 1 } with
      host_name_addresses_map := some (hash_table_remove ht host) }, ?_, hd,
    ⟨_, rfl, hash_table_get_remove ht host⟩, ?_, ?_⟩
  · rw [forget_host_lookup_cached host s ht p hmap hget, hrel]
  · intro k hk
    refine ⟨_, release_times_keeps p k _ _ hd (by show (k : Int) < al.refcount - 1; omega), ?_⟩
    rw [deref_store _ _ _ _ (deref_lt _ _ _ hd)]
    simp
  · obtain ⟨m, rfl⟩ : ∃ m, n = m + 1 := ⟨n - 1, by omega⟩
    refine ⟨_, release_times_frees p m _ _ hd (by show al.refcount - 1 = (m : Int) + 1; omega), ?_⟩
    rw [deref_delete]
    simp

/-- Witness of C14: the cached list of `cached_state` is held by the cache and one caller. -/
theorem forget_host_lookup_keeps_held_list_witness :
    ∃ s1, forget_host_lookup (cstr "EXAMPLE.org") cached_state = .ok s1 ∧
      s1.deref 0 = some { count := 3, addresses := [.ipv4 1, .ipv4 2, .ipv4 3], faulty := 1,
                          connected := 1, refcount := 2 - 1 } ∧
      (∃ ht1, s1.host_name_addresses_map = some ht1 ∧
        hash_table_get ht1 (cstr "EXAMPLE.org") = none) ∧
      (∀ k, k < 1 → ∃ s2, release_times k 0 s1 = .ok s2 ∧ (s2.deref 0).isSome = true) ∧
      (∃ s2, release_times 1 0 s1 = .ok s2 ∧ s2.deref 0 = none) :=
  forget_host_lookup_keeps_held_list (cstr "EXAMPLE.org") cached_state
    [(cstr "example.org", 0)] 0
    { count := 3, addresses := [.ipv4 1, .ipv4 2, .ipv4 3], faulty := 1, connected := 1,
      refcount := 2 } 1 rfl (by decide) (by decide) (by decide) (by decide)

/-- C15: for a cache whose entries have distinct live lists, `host_cleanup` frees every cached
list, leaves the other lists alone and resets `host_name_addresses_map` to NULL when every
cached list has refcount 1, and it fails in the assertion of `host_cleanup_mapper` when some
cached list has another refcount. -/
theorem host_cleanup_frees_or_asserts (s : HostState) (ht : hash_table)
    (hmap : s.host_name_addresses_map = some ht) (hnd : (ht.map Prod.snd).Nodup)
    (hlive : ∀ e ∈ ht, ∃ al, s.deref e.2 = some al) :
    ((∀ e ∈ ht, ∀ al, s.deref e.2 = some al → al.refcount = 1) →
      ∃ s1, host_cleanup s = .ok s1 ∧ s1.host_name_addresses_map = none ∧
        (∀ e ∈ ht, s1.deref e.2 = none) ∧
        (∀ q, q ∉ ht.map Prod.snd → s1.deref q = s.deref q)) ∧
    ((∃ e ∈ ht, ∃ al, s.deref e.2 = some al ∧ al.refcount ≠ 1) →
      host_cleanup s = .fault .assert_failed) := by
  constructor
  · intro hone
    have hall : ∀ e ∈ ht, ∃ al, s.deref e.2 = some al ∧ al.refcount = 1 := by
      intro e he
      obtain ⟨al, hal⟩ := hlive e he
      exact ⟨al, hal, hone e he al hal⟩
    obtain ⟨s1, hrun, hd, -⟩ := hash_table_map_cleanup_frees ht s hnd hall
    refine ⟨{ s1 with host_name_addresses_map := none }, ?_, rfl, ?_, ?_⟩
    · unfold host_cleanup
      simp [hmap, hrun]
    · intro e he
      have := hd e.2
      simp only [List.mem_map_of_mem Prod.snd he, if_true] at this
      simpa [HostState.deref] using this
    · intro q hq
      have := hd q
      simp only [hq, if_false] at this
      simpa [HostState.deref] using this
  · intro hex
    unfold host_cleanup
    simp [hmap, hash_table_map_cleanup_fails ht s hnd hlive hex]

/-- Witness of C15: the cache of `idle_state`, whose list only the cache holds, and the cache
of `cached_state`, whose list a caller still holds. -/
theorem host_cleanup_frees_or_asserts_witness :
    (∃ s1, host_cleanup idle_state = .ok s1 ∧
      s1.host_name_addresses_map = none ∧ s1.deref 0 = none) ∧
    host_cleanup cached_state = .fault .assert_failed :=
  ⟨((host_cleanup_frees_or_asserts idle_state [(cstr "example.org", 0)] rfl (by decide)
        (fun e he => by rw [List.mem_singleton.mp he]; exact ⟨_, rfl⟩)).1
        (fun e he al hal => by
          rw [List.mem_singleton.mp he] at hal
          cases hal
          rfl)).imp
      fun _ hs => ⟨hs.1, hs.2.1, hs.2.2.1 (cstr "example.org", 0) (by decide)⟩,
   (host_cleanup_frees_or_asserts cached_state [(cstr "example.org", 0)] rfl (by decide)
      (fun e he => by rw [List.mem_singleton.mp he]; exact ⟨_, rfl⟩)).2
      ⟨(cstr "example.org", 0), by decide, _, rfl, by decide⟩⟩

/-! ## Theorems about `parse_metalink`, `elect_resources` and `elect_checksums` -/

theorem parse_resources_spec (rs : List metalink_resource_t) :
    ∀ (acc : List mlink_resource) (n : Int),
      parse_resources rs (acc, n) =
        ((rs.filterMap copy_resource).reverse ++ acc,
          n + ((rs.filterMap copy_resource).length : Int)) := by
  induction rs with
  | nil => intro acc n; simp [parse_resources]
  | cons r rest ih =>
    intro acc n
    cases hu : r.url with
    | none =>
      have hc : copy_resource r = none := by simp [copy_resource, hu]
      simp [parse_resources, hu, ih, List.filterMap_cons, hc]
    | some url =>
      simp only [parse_resources, hu, ih, List.filterMap_cons, copy_resource, Option.map_some',
        List.reverse_cons, List.append_assoc, List.singleton_append, List.length_cons]
      congr 1
      push_cast
      ring

theorem parse_checksums_spec (cs : List metalink_checksum_t) :
    ∀ acc : List mlink_checksum,
      parse_checksums cs acc = (cs.filterMap copy_checksum).reverse ++ acc := by
  induction cs with
  | nil => intro acc; simp [parse_checksums]
  | cons c rest ih =>
    intro acc
    cases ht : c.type with
    | none =>
      have hc : copy_checksum c = none := by simp [copy_checksum, ht]
      simp [parse_checksums, ht, ih, List.filterMap_cons, hc]
    | some type =>
      cases hh : c.hash with
      | none =>
        have hc : copy_checksum c = none := by simp [copy_checksum, ht, hh]
        simp [parse_checksums, ht, hh, ih, List.filterMap_cons, hc]
      | some hash =>
        have hc : copy_checksum c = some { type := type, hash := hash } := by
          simp [copy_checksum, ht, hh]
        simp [parse_checksums, ht, hh, ih, List.filterMap_cons, hc]

/-- The part of C19 that holds: a manifest file with a name, a resources array and a checksums
array (and no chunked-checksum descriptor that lacks its array) is ingested with exactly its
resources that have a URL and exactly its checksums that have a type and a hash, each list in
reverse order. -/
theorem parse_file_spec (f : metalink_file_t) (name : CString)
    (rs : List metalink_resource_t) (cs : List metalink_checksum_t)
    (hname : f.name = some name) (hrs : f.resources = some rs) (hcs : f.checksums = some cs)
    (hchunk : parse_chunk_checksum f.chunk_checksum = .ok none) :
    parse_file f =
      .ok (some { name := name, size := f.size, maxconnections := f.maxconnections,
                  version := f.version, language := f.language, os := f.os,
                  resources := (rs.filterMap copy_resource).reverse,
                  checksums := (cs.filterMap copy_checksum).reverse,
                  chunk_checksum := none,
                  num_of_res := ((rs.filterMap copy_resource).length : Int),
                  num_of_checksums := 0 }) := by
  unfold parse_file
  simp [hname, hrs, hcs, hchunk, parse_resources_spec, parse_checksums_spec]

/-- C16 (the claim fails on the code): the test `strcmp (type, "ftp") || strcmp (type, "http")`
holds for every type, and the loop does not move `res` on after `free (res)`. A file whose only
location has the type http is left with no location, and for a file with two locations, one of
the type bittorrent and one of the type http, in either order, the loop reads the record it
has freed. -/
theorem elect_resources_removes_supported :
    elect_resources 10 [in_memory [resource_of_type "http"]] =
      some (.ok [{ cells := [none], head := none }]) ∧
    Cells.to_list 10 ([none] : Cells mlink_resource) none = some (.ok []) ∧
    elect_resources 10 [in_memory [resource_of_type "bittorrent", resource_of_type "http"]] =
      some (.fault .dangling) ∧
    elect_resources 10 [in_memory [resource_of_type "http", resource_of_type "bittorrent"]] =
      some (.fault .dangling) := by
  decide

/-- C17 (the claim as stated fails): a file whose only location has the unsupported type
bittorrent is left with no location; nothing is retained. -/
theorem elect_resources_retains_nothing :
    elect_resources 10 [in_memory [resource_of_type "bittorrent"]] =
      some (.ok [{ cells := [none], head := none }]) ∧
    Cells.to_list 10 ([none] : Cells mlink_resource) none = some (.ok []) := by
  decide

/-- C17 as amended: for a file whose only location has an unsupported transport type (a type
other than ftp and http), `elect_resources` frees that location and sets `file->resources` to
NULL, so the file is left with no location, for every bound on the iterations. -/
theorem elect_resources_sole_unsupported (fuel : Nat) (r : mlink_resource) (t : CString)
    (ht : r.type = some t) (hftp : t ≠ cstr "ftp") (hhttp : t ≠ cstr "http") :
    elect_resources fuel [in_memory [r]] = some (.ok [{ cells := [none], head := none }]) ∧
      Cells.to_list fuel ([none] : Cells mlink_resource) none = some (.ok []) := by
  have htest : resource_test r.type = .ok true := by
    simp [resource_test, ht, strcmp_eq_zero_iff, hftp, hhttp]
  constructor
  · cases fuel <;>
      simp [elect_resources, elect_resources_file, elect_resources_loop, in_memory, load_list,
        head_ptr, Cells.read, Cells.free, htest]
  · cases fuel <;> simp [Cells.to_list]

/-- Witness of C17 as amended: the only location has the type bittorrent. -/
theorem elect_resources_sole_unsupported_witness :
    elect_resources 3 [in_memory [resource_of_type "bittorrent"]] =
        some (.ok [{ cells := [none], head := none }]) ∧
      Cells.to_list 3 ([none] : Cells mlink_resource) none = some (.ok []) :=
  elect_resources_sole_unsupported 3 (resource_of_type "bittorrent") (cstr "bittorrent") rfl
    (by decide) (by decide)

/-- C18 (the claim fails on the code): the test `i < HASH_TYPES` selects the records of the
supported types for removal. A file whose only record has the unsupported type crc32 keeps it;
for a file whose only record has the type md5 the record is freed while `file->checksums`
still points to it; and for the list of a crc32 and an md5 record the loop reads the record it
has freed. -/
theorem elect_checksums_keeps_unsupported :
    elect_checksums 10 [in_memory [⟨cstr "crc32", cstr "ab"⟩]] =
      some (.ok [in_memory [⟨cstr "crc32", cstr "ab"⟩]]) ∧
    Cells.to_list 10 (in_memory [(⟨cstr "crc32", cstr "ab"⟩ : mlink_checksum)]).cells
      (in_memory [(⟨cstr "crc32", cstr "ab"⟩ : mlink_checksum)]).head =
      some (.ok [⟨cstr "crc32", cstr "ab"⟩]) ∧
    elect_checksums 10 [in_memory [⟨cstr "md5", cstr "ab"⟩]] =
      some (.ok [{ cells := [none], head := some 0 }]) ∧
    Cells.to_list 10 ([none] : Cells mlink_checksum) (some 0) = some (.fault .dangling) ∧
    elect_checksums 10 [in_memory [⟨cstr "crc32", cstr "ab"⟩, ⟨cstr "md5", cstr "cd"⟩]] =
      some (.fault .dangling) := by
  decide

/-- C19 (the claim fails on the code): a manifest file with a name and a resource with a URL,
but without checksums, has NULL for its `checksums` array, and `parse_metalink` reads
`*checksums` without the test for NULL that it makes for `resources`; the file is not
ingested with an empty list of checksum records. With an empty array in place of NULL the file
is ingested as the claim says. Both are stated for a block of the size of the structure
behind `mlink`; with the block of `malloc (sizeof(mlink))`, the size of a pointer, the call
leaves the block before it looks at a file. -/
theorem parse_metalink_null_checksums :
    parse_metalink_block SIZEOF_MLINK 0 (some (manifest_of [manifest_file
        (some [{ url := some (cstr "u"), type := none, location := none, preference := 0,
                 maxconnections := 0 }]) none])) = .fault .null_pointer ∧
    parse_metalink 0 (some manifest_null_checksums) = .fault .out_of_bounds ∧
    parse_metalink_block SIZEOF_MLINK 0 (some (manifest_of [manifest_file
        (some [{ url := some (cstr "u"), type := none, location := none, preference := 0,
                 maxconnections := 0 },
               { url := none, type := none, location := none, preference := 0,
                 maxconnections := 0 }])
        (some [{ type := none, hash := some (cstr "ab") }])])) =
      .ok (some { identity := none, tags := none,
                  files := [{ name := cstr "a", size := 1, maxconnections := 1, version := none,
                              language := none, os := none,
                              resources := [{ url := cstr "u", type := none, location := none,
                                              preference := 0, maxconnections := 0 }],
                              checksums := [], chunk_checksum := none, num_of_res := 1,
                              num_of_checksums := 0 }],
                  num_of_files := 1 }) := by
  decide

/-- C20 (the claim fails on the code): a manifest file whose only resource has no URL is put
into the files list before its resources are looked at and is never taken out again: the
result holds the file with no location, and `num_of_files` is 1. This is stated for a block
of the size of the structure behind `mlink`; with the block of `malloc (sizeof(mlink))`, the
size of a pointer, the call leaves the block and returns no result. -/
theorem parse_metalink_keeps_file_without_url :
    parse_metalink_block SIZEOF_MLINK 0 (some (manifest_of [manifest_file
        (some [{ url := none, type := some (cstr "http"), location := none, preference := 0,
                 maxconnections := 0 }]) (some [])])) =
      .ok (some { identity := none, tags := none,
                  files := [{ name := cstr "a", size := 1, maxconnections := 1, version := none,
                              language := none, os := none, resources := [], checksums := [],
                              chunk_checksum := none, num_of_res := 0, num_of_checksums := 0 }],
                  num_of_files := 1 }) ∧
    parse_metalink 0 (some manifest_without_url) = .fault .out_of_bounds := by
  decide



/-! ## Theorems of the third part: the results of `parse_metalink`, list positions, search,
resolution failures, and utils.c -/

/-- C21 (the claim fails on the code): for a manifest without a files array `parse_metalink`
returns NULL, but for a manifest whose only file has no name, or whose only file has no
resources array, every file is skipped and the result is a manifest whose files list is empty,
with `num_of_files` 0, instead of NULL. The latter is stated for a block of the size of the
structure behind `mlink`; with the block of `malloc (sizeof(mlink))`, the size of a pointer,
the call leaves the block, and it does not return NULL either. -/
theorem parse_metalink_returns_empty_manifest :
    parse_metalink 0 (some { identity := none, tags := none, files := none }) = .ok none ∧
    parse_metalink_block SIZEOF_MLINK 0
        (some { identity := none, tags := none, files := none }) = .ok none ∧
    parse_metalink_block SIZEOF_MLINK 0 (some (manifest_of [manifest_file_nameless])) =
      .ok (some { identity := none, tags := none, files := [], num_of_files := 0 }) ∧
    parse_metalink_block SIZEOF_MLINK 0 (some (manifest_of [manifest_file none (some [])])) =
      .ok (some { identity := none, tags := none, files := [], num_of_files := 0 }) ∧
    parse_metalink 0 (some (manifest_of [manifest_file_nameless])) = .fault .out_of_bounds ∧
    parse_metalink 0 (some (manifest_of [manifest_file none (some [])])) =
      .fault .out_of_bounds := by
  decide

/-- The chunked-checksum part of `parse_metalink` never gives a descriptor. -/
theorem parse_chunk_checksum_none (cc : Option metalink_chunk_checksum_t) :
    parse_chunk_checksum cc = .ok none ∨ parse_chunk_checksum cc = .fault .null_pointer := by
  unfold parse_chunk_checksum
  cases cc with
  | none => exact Or.inl rfl
  | some c =>
    cases ht : c.type with
    | none => simp [ht]
    | some t =>
      cases hp : c.piece_hashes with
      | none => simp [ht, hp]
      | some ps => simp [ht, hp]

/-- C22 (the claim fails on the code): for a manifest file whose chunked-checksum descriptor
has the type sha1, the chunk length 1024 and one piece, the descriptor built by
`parse_metalink` has NULL for `chunk_checksum`: the record `chunk_sum` is allocated and filled
with the length and the type, but it is never stored in the file, and the digests of the
pieces are not copied. This is stated for a block of the size of the structure behind `mlink`;
with the block of `malloc (sizeof(mlink))`, the size of a pointer, the call leaves the block
and returns no descriptor. -/
theorem parse_metalink_drops_chunk_checksum :
    (manifest_file_chunked.chunk_checksum.bind fun cc => cc.type) = some (cstr "sha1") ∧
    parse_metalink 0 (some (manifest_of [manifest_file_chunked])) = .fault .out_of_bounds ∧
    parse_metalink_block SIZEOF_MLINK 0 (some (manifest_of [manifest_file_chunked])) =
      .ok (some { identity := none, tags := none,
                  files := [{ name := cstr "a", size := 1, maxconnections := 1, version := none,
                              language := none, os := none,
                              resources := [{ url := cstr "u", type := none, location := none,
                                              preference := 0, maxconnections := 0 }],
                              checksums := [], chunk_checksum := none, num_of_res := 1,
                              num_of_checksums := 0 }],
                  num_of_files := 1 }) := by
  decide

/-- C24: `address_list_get_bounds` gives (faulty, count); for a list of `count` addresses with
`0 <= faulty < count`, the range is not empty, every position of it passes the assertion of
`address_list_address_at`, which gives the address at that position, and a position below
`faulty` or at or above `count` fails the assertion. -/
theorem address_list_address_at_range (al : address_list)
    (hwf : al.count = al.addresses.length) (h0 : 0 ≤ al.faulty) (h1 : al.faulty < al.count) :
    address_list_get_bounds al = (al.faulty, al.count) ∧
    (address_list_get_bounds al).1 < (address_list_get_bounds al).2 ∧
    (∀ pos, (address_list_get_bounds al).1 ≤ pos → pos < (address_list_get_bounds al).2 →
      ∃ ip, address_list_address_at al pos = .ok ip ∧ al.addresses[pos.toNat]? = some ip) ∧
    (∀ pos, pos < al.faulty ∨ al.count ≤ pos →
      address_list_address_at al pos = .fault .assert_failed) := by
  refine ⟨rfl, h1, ?_, ?_⟩
  · intro pos hs he
    simp only [address_list_get_bounds] at hs he
    have hlt : pos.toNat < al.addresses.length := by omega
    refine ⟨al.addresses[pos.toNat], ?_, List.getElem?_eq_getElem hlt⟩
    unfold address_list_address_at
    simp [hs, he, List.getElem?_eq_getElem hlt]
  · intro pos hpos
    unfold address_list_address_at
    have : ¬ (pos ≥ al.faulty ∧ pos < al.count) := by omega
    simp [this]

/-- Witness of C24: a list of three addresses whose first address is faulty. -/
theorem address_list_address_at_range_witness :
    address_list_address_at
        { count := 3, addresses := [.ipv4 1, .ipv4 2, .ipv4 3], faulty := 1, connected := 0,
          refcount := 1 } 2 = .ok (.ipv4 3) ∧
    address_list_address_at
        { count := 3, addresses := [.ipv4 1, .ipv4 2, .ipv4 3], faulty := 1, connected := 0,
          refcount := 1 } 0 = .fault .assert_failed :=
  have h := address_list_address_at_range
    { count := 3, addresses := [.ipv4 1, .ipv4 2, .ipv4 3], faulty := 1, connected := 0,
      refcount := 1 } (by decide) (by decide) (by decide)
  ⟨by
    obtain ⟨ip, hip, hget⟩ := h.2.2.1 2 (by decide) (by decide)
    rw [hip]
    have : ip = .ipv4 3 := by
      have h3 : ([ip_address.ipv4 1, .ipv4 2, .ipv4 3] : List ip_address)[(2 : Int).toNat]? =
          some (.ipv4 3) := by decide
      exact Option.some.inj (hget.symm.trans h3)
    rw [this],
   h.2.2.2 0 (Or.inl (by decide))⟩

theorem address_list_find_loop_spec (same : ip_address → Bool) (addresses : List ip_address)
    (n : Nat) :
    ∀ i, i + n = addresses.length →
      address_list_find_loop same addresses n i =
        .ok (if ∃ cur ∈ addresses.drop i, same cur = true then 1 else 0) := by
  induction n with
  | zero =>
    intro i hi
    have : addresses.drop i = [] := List.drop_of_length_le (by omega)
    simp [address_list_find_loop, this]
  | succ n ih =>
    intro i hi
    have hlt : i < addresses.length := by omega
    have hdrop : addresses.drop i = addresses[i] :: addresses.drop (i + 1) :=
      List.drop_eq_getElem_cons hlt
    have hex : (∃ cur ∈ addresses.drop i, same cur = true) ↔
        (same addresses[i] = true ∨ ∃ cur ∈ addresses.drop (i + 1), same cur = true) := by
      rw [hdrop]
      constructor
      · rintro ⟨cur, hc, hsame⟩
        rcases List.mem_cons.mp hc with rfl | hc1
        · exact Or.inl hsame
        · exact Or.inr ⟨cur, hc1, hsame⟩
      · rintro (h | ⟨cur, hc, hsame⟩)
        · exact ⟨_, List.mem_cons_self _ _, h⟩
        · exact ⟨cur, List.mem_cons_of_mem _ hc, hsame⟩
    simp only [address_list_find_loop, List.getElem?_eq_getElem hlt, hex]
    by_cases hs : same addresses[i] = true
    · simp only [hs, if_true, true_or]
    · simp only [hs, Bool.false_eq_true, if_false, false_or, ih (i + 1) (by omega)]

theorem same_ipv4_iff (s_addr : Nat) (cur : ip_address) :
    same_ipv4 s_addr cur = true ↔ cur = .ipv4 s_addr := by
  cases cur <;> simp [same_ipv4]

theorem same_ipv6_iff (addr scope : Nat) (cur : ip_address) :
    same_ipv6 true addr scope cur = true ↔ cur = .ipv6 addr scope := by
  cases cur with
  | ipv4 a => simp [same_ipv6]
  | ipv6 a sc =>
    simp only [same_ipv6, Bool.not_true, Bool.false_or, Bool.and_eq_true, beq_iff_eq,
      ip_address.ipv6.injEq]
    exact And.comm

/-- C25: for a list of `count` addresses, `address_list_find` returns 1 when some entry, at
any position, has the type tag and the address of `ip` (and, for IPv6 in a build with
`ENABLE_IPV6` and scope ids, its scope id), and 0 otherwise; an IPv4 address is searched in the
same way in every build, and no test holds between an IPv4 and an IPv6 address. -/
theorem address_list_find_iff_member (al : address_list) (ip : ip_address)
    (hwf : al.count = al.addresses.length) :
    address_list_find true true al ip = .ok (if ip ∈ al.addresses then 1 else 0) ∧
    (∀ (b1 b2 : Bool) (s_addr : Nat),
      address_list_find b1 b2 al (.ipv4 s_addr) =
        .ok (if ip_address.ipv4 s_addr ∈ al.addresses then 1 else 0)) ∧
    (∀ (b : Bool) (s_addr addr scope : Nat),
      same_ipv4 s_addr (.ipv6 addr scope) = false ∧
        same_ipv6 b addr scope (.ipv4 s_addr) = false) := by
  have hn : 0 + al.count.toNat = al.addresses.length := by omega
  have h4 : ∀ (b1 b2 : Bool) (s_addr : Nat),
      address_list_find b1 b2 al (.ipv4 s_addr) =
        .ok (if ip_address.ipv4 s_addr ∈ al.addresses then 1 else 0) := by
    intro b1 b2 s_addr
    unfold address_list_find
    simp only [address_list_find_loop_spec _ _ _ 0 hn, List.drop_zero, same_ipv4_iff]
    simp
  refine ⟨?_, h4, fun b s_addr addr scope => ⟨rfl, rfl⟩⟩
  cases ip with
  | ipv4 s_addr => exact h4 true true s_addr
  | ipv6 addr scope =>
    unfold address_list_find
    simp only [if_true, address_list_find_loop_spec _ _ _ 0 hn, List.drop_zero, same_ipv6_iff]
    simp

/-- Witness of C25: an IPv6 address with the scope id 7 is found behind an IPv4 entry, and not
with another scope id. -/
theorem address_list_find_iff_member_witness :
    address_list_find true true
        { count := 2, addresses := [.ipv4 5, .ipv6 5 7], faulty := 1, connected := 0,
          refcount := 1 } (.ipv6 5 7) = .ok 1 ∧
    address_list_find true true
        { count := 2, addresses := [.ipv4 5, .ipv6 5 7], faulty := 1, connected := 0,
          refcount := 1 } (.ipv6 5 8) = .ok 0 :=
  ⟨(address_list_find_iff_member
      { count := 2, addresses := [.ipv4 5, .ipv6 5 7], faulty := 1, connected := 0,
        refcount := 1 } (.ipv6 5 7) (by decide)).1,
   (address_list_find_iff_member
      { count := 2, addresses := [.ipv4 5, .ipv6 5 7], faulty := 1, connected := 0,
        refcount := 1 } (.ipv6 5 8) (by decide)).1⟩


theorem gethostbyname_with_timeout_timeout (env : HostEnv) (host : CString) (s : HostState)
    (h : env.resolve s.resolver_calls host = .timeout) :
    gethostbyname_with_timeout env host s =
      (none, { s with resolver_calls := s.resolver_calls + 1, h_errno := env.HOST_NOT_FOUND,
                      errno := env.ETIMEDOUT }) := by
  simp [gethostbyname_with_timeout, h]

theorem gethostbyname_with_timeout_failure (env : HostEnv) (host : CString) (s : HostState)
    (e : Int) (h : env.resolve s.resolver_calls host = .failure e) :
    gethostbyname_with_timeout env host s =
      (none, { s with resolver_calls := s.resolver_calls + 1, h_errno := e, errno := 0 }) := by
  simp [gethostbyname_with_timeout, h]

theorem gethostbyname_with_timeout_hostent (env : HostEnv) (host : CString) (s : HostState)
    (l : List Nat) (h : env.resolve s.resolver_calls host = .hostent l) :
    gethostbyname_with_timeout env host s =
      (some l, { s with resolver_calls := s.resolver_calls + 1 }) := by
  simp [gethostbyname_with_timeout, h]

/-- A lookup that misses the cache and whose resolver call hits the time limit. -/
theorem lookup_host_timeout (env : HostEnv) (host : CString) (silent : Int) (s : HostState)
    (hnum : env.inet_addr host % 4294967296 = 4294967295)
    (hmiss : (s.host_name_addresses_map.bind fun ht => hash_table_get ht host) = none)
    (hres : env.resolve s.resolver_calls host = .timeout) :
    lookup_host env host silent s =
      .ok (none, { s with resolver_calls := s.resolver_calls + 1,
                          h_errno := env.HOST_NOT_FOUND, errno := env.ETIMEDOUT,
                          log := if silent = 0 then s.log ++ [.resolving host, .failed_timed_out]
                                 else s.log }) := by
  unfold lookup_host
  by_cases hs : silent = 0 <;>
    simp [hnum, hmiss, hs, gethostbyname_with_timeout, hres]

/-- A lookup that misses the cache and whose resolver call fails with the error `e`. -/
theorem lookup_host_failure (env : HostEnv) (host : CString) (silent : Int) (s : HostState)
    (e : Int) (hE : env.ETIMEDOUT ≠ 0)
    (hnum : env.inet_addr host % 4294967296 = 4294967295)
    (hmiss : (s.host_name_addresses_map.bind fun ht => hash_table_get ht host) = none)
    (hres : env.resolve s.resolver_calls host = .failure e) :
    lookup_host env host silent s =
      .ok (none, { s with resolver_calls := s.resolver_calls + 1, h_errno := e, errno := 0,
                          log := if silent = 0 then
                                   s.log ++ [.resolving host, .failed (host_errstr env e)]
                                 else s.log }) := by
  unfold lookup_host
  have hE1 : ¬ (0 : Int) = env.ETIMEDOUT := fun h => hE h.symm
  by_cases hs : silent = 0 <;>
    simp [hnum, hmiss, hs, gethostbyname_with_timeout, hres, hE1]

/-- C26: with an `ETIMEDOUT` that is not 0, `gethostbyname_with_timeout` returns NULL with
`errno = ETIMEDOUT` exactly when `run_with_timeout` reports the time limit, and a NULL of the
resolver itself leaves `errno = 0` and the error in `h_errno`. `lookup_host` (for a name that
is not in the cache) then returns NULL with these values and, unless it is silent, logs the
time-out in the first case and the text of `host_errstr` in the second, which is the
not-found text for `HOST_NOT_FOUND`, `NO_RECOVERY`, `NO_DATA` and `NO_ADDRESS` and the
temporary-failure text for a `TRY_AGAIN` that differs from them. -/
theorem resolution_failure_classes (env : HostEnv) (host : CString) (silent : Int)
    (s : HostState) (hE : env.ETIMEDOUT ≠ 0)
    (hnum : env.inet_addr host % 4294967296 = 4294967295)
    (hmiss : (s.host_name_addresses_map.bind fun ht => hash_table_get ht host) = none) :
    (((gethostbyname_with_timeout env host s).1 = none ∧
        (gethostbyname_with_timeout env host s).2.errno = env.ETIMEDOUT) ↔
      env.resolve s.resolver_calls host = .timeout) ∧
    (∀ e, env.resolve s.resolver_calls host = .failure e →
      (gethostbyname_with_timeout env host s).1 = none ∧
        (gethostbyname_with_timeout env host s).2.errno = 0 ∧
        (gethostbyname_with_timeout env host s).2.h_errno = e) ∧
    (env.resolve s.resolver_calls host = .timeout →
      ∃ s1, lookup_host env host silent s = .ok (none, s1) ∧ s1.errno = env.ETIMEDOUT ∧
        (silent = 0 → s1.log = s.log ++ [.resolving host, .failed_timed_out]) ∧
        s1.heap = s.heap ∧ s1.host_name_addresses_map = s.host_name_addresses_map) ∧
    (∀ e, env.resolve s.resolver_calls host = .failure e →
      ∃ s1, lookup_host env host silent s = .ok (none, s1) ∧ s1.errno = 0 ∧ s1.h_errno = e ∧
        (silent = 0 → s1.log = s.log ++ [.resolving host, .failed (host_errstr env e)]) ∧
        s1.heap = s.heap ∧ s1.host_name_addresses_map = s.host_name_addresses_map) ∧
    (∀ e, e = env.HOST_NOT_FOUND ∨ e = env.NO_RECOVERY ∨ e = env.NO_DATA ∨ e = env.NO_ADDRESS →
      host_errstr env e = cstr "Unknown host") ∧
    (env.TRY_AGAIN ≠ env.HOST_NOT_FOUND → env.TRY_AGAIN ≠ env.NO_RECOVERY →
      env.TRY_AGAIN ≠ env.NO_DATA → env.TRY_AGAIN ≠ env.NO_ADDRESS →
      host_errstr env env.TRY_AGAIN = cstr "Temporary failure in name resolution") := by
  refine ⟨?_, ?_, ?_, ?_, ?_, ?_⟩
  · cases hres : env.resolve s.resolver_calls host with
    | timeout => simp [gethostbyname_with_timeout_timeout env host s hres]
    | failure e =>
      simp only [gethostbyname_with_timeout_failure env host s e hres]
      simp only [true_and, reduceCtorEq, iff_false]
      exact fun h => hE h.symm
    | hostent l => simp [gethostbyname_with_timeout_hostent env host s l hres]
  · intro e hres
    simp [gethostbyname_with_timeout_failure env host s e hres]
  · intro hres
    refine ⟨_, lookup_host_timeout env host silent s hnum hmiss hres, rfl, ?_, rfl, rfl⟩
    intro hs
    simp [hs]
  · intro e hres
    refine ⟨_, lookup_host_failure env host silent s e hE hnum hmiss hres, rfl, rfl, ?_,
      rfl, rfl⟩
    intro hs
    simp [hs]
  · intro e he
    unfold host_errstr
    simp [he]
  · intro h1 h2 h3 h4
    unfold host_errstr
    simp [h1, h2, h3, h4]

/-- Witness of C26: the first lookup of "example.org" in `env_failing` hits the time limit. -/
theorem resolution_failure_classes_witness :
    ∃ s1, lookup_host env_failing (cstr "example.org") 0 initial_state = .ok (none, s1) ∧
      s1.errno = env_failing.ETIMEDOUT ∧
      ((0 : Int) = 0 → s1.log = initial_state.log ++
        [.resolving (cstr "example.org"), .failed_timed_out]) ∧
      s1.heap = initial_state.heap ∧
      s1.host_name_addresses_map = initial_state.host_name_addresses_map :=
  (resolution_failure_classes env_failing (cstr "example.org") 0 initial_state (by decide)
    (by decide) (by decide)).2.2.1 rfl

/-- The loop of `match_tail` from the positions `i` and `j` on: the value -1 of `j` at the end
means that the first `j` bytes of `tail` end the first `i` bytes of `string`. -/
theorem match_tail_loop_spec (fold : Nat → Nat) (string tail : CString) (i : Nat) :
    ∀ j, i ≤ string.length → j ≤ tail.length →
      (match_tail_loop fold string tail i j = -1 ↔
        (tail.take j).map fold <:+ (string.take i).map fold) := by
  induction i with
  | zero =>
    intro j _ hj
    simp only [match_tail_loop, List.take_zero, List.map_nil, List.suffix_nil, List.map_eq_nil_iff,
      List.take_eq_nil_iff]
    constructor
    · intro h
      left
      omega
    · rintro (h | h)
      · omega
      · subst h
        have : j = 0 := by simpa using hj
        omega
  | succ i ih =>
    intro j hi hj
    cases j with
    | zero => simp [match_tail_loop]
    | succ j =>
      have hi1 : i < string.length := by omega
      have hj1 : j < tail.length := by omega
      have hs : string.take (i + 1) = string.take i ++ [string.getD i 0] := by
        rw [List.take_succ, List.getD_eq_getElem?_getD, List.getElem?_eq_getElem hi1]
        simp
      have ht : tail.take (j + 1) = tail.take j ++ [tail.getD j 0] := by
        rw [List.take_succ, List.getD_eq_getElem?_getD, List.getElem?_eq_getElem hj1]
        simp
      rw [hs, ht, List.map_append, List.map_append, ← List.reverse_prefix]
      simp only [List.map_cons, List.map_nil, List.reverse_append, List.reverse_cons,
        List.reverse_nil, List.nil_append, List.singleton_append, List.cons_prefix_cons]
      rw [List.reverse_prefix]
      by_cases hne : fold (string.getD i 0) ≠ fold (tail.getD j 0)
      · simp only [match_tail_loop, hne, ne_eq, not_false_eq_true, if_true]
        constructor
        · intro h
          omega
        · rintro ⟨h, -⟩
          exact absurd h.symm hne
      · have heq : fold (string.getD i 0) = fold (tail.getD j 0) := by simpa using hne
        simp only [match_tail_loop, heq, ne_eq, not_true_eq_false, if_false, true_and]
        exact ih j (by omega) (by omega)

theorem match_tail_loop_start (fold : Nat → Nat) (string tail : CString) :
    (match_tail_loop fold string tail (string.length + 1) (tail.length + 1) = -1 ↔
      tail.map fold <:+ string.map fold) := by
  have h0 : match_tail_loop fold string tail (string.length + 1) (tail.length + 1) =
      match_tail_loop fold string tail string.length tail.length := by
    simp [match_tail_loop, List.getD_eq_getElem?_getD]
  rw [h0, match_tail_loop_spec fold string tail string.length tail.length (le_refl _) (le_refl _),
    List.take_length, List.take_length]

/-- C30: `match_tail` returns 1 when `tail` is a suffix of `string`, compared as it is when
`fold_case_p` is 0 and after `TOLOWER` of every byte otherwise, and 0 when it is not; so
("abc", "bc") gives 1, ("abc", "ab") gives 0, ("abc", "abc") gives 1, a tail longer than the
string gives 0 and the empty tail gives 1. -/
theorem match_tail_iff_suffix (string tail : CString) (fold_case_p : Int) :
    match_tail string tail fold_case_p =
      (if (if fold_case_p = 0 then tail <:+ string
           else tail.map TOLOWER <:+ string.map TOLOWER) then 1 else 0) ∧
    match_tail (cstr "abc") (cstr "bc") fold_case_p = 1 ∧
    match_tail (cstr "abc") (cstr "ab") fold_case_p = 0 ∧
    match_tail (cstr "abc") (cstr "abc") fold_case_p = 1 ∧
    (string.length < tail.length → match_tail string tail fold_case_p = 0) ∧
    match_tail string [] fold_case_p = 1 := by
  have main : ∀ a b : CString, match_tail a b fold_case_p =
      (if (if fold_case_p = 0 then b <:+ a
           else b.map TOLOWER <:+ a.map TOLOWER) then 1 else 0) := by
    intro a b
    unfold match_tail
    by_cases hf : fold_case_p = 0
    · have := match_tail_loop_start id a b
      simp only [List.map_id] at this
      simp only [hf, if_true, this]
    · have := match_tail_loop_start TOLOWER a b
      simp only [hf, if_false, this]
  refine ⟨main string tail, ?_, ?_, ?_, ?_, ?_⟩
  · rw [main]
    by_cases hf : fold_case_p = 0 <;> simp only [hf, if_true, if_false] <;> decide
  · rw [main]
    by_cases hf : fold_case_p = 0 <;> simp only [hf, if_true, if_false] <;> decide
  · rw [main]
    by_cases hf : fold_case_p = 0 <;> simp only [hf, if_true, if_false] <;> decide
  · intro hlen
    rw [main]
    have h1 : ¬ tail <:+ string := fun h => by
      have := h.length_le
      omega
    have h2 : ¬ tail.map TOLOWER <:+ string.map TOLOWER := fun h => by
      have := h.length_le
      simp at this
      omega
    by_cases hf : fold_case_p = 0 <;> simp [hf, h1, h2]
  · rw [main]
    by_cases hf : fold_case_p = 0 <;> simp [hf]

theorem match_tail_iff_suffix_witness :
    match_tail (cstr "ab") (cstr "xab") 1 = 0 ∧
    match_tail (cstr "Index.HTML") (cstr ".html") 1 = 1 ∧
    match_tail (cstr "Index.HTML") (cstr ".html") 0 = 0 :=
  ⟨(match_tail_iff_suffix (cstr "ab") (cstr "xab") 1).2.2.2.2.1 (by decide), by decide,
   by decide⟩

/-! ## Theorems about the segment plan -/

theorem contiguous_sum (l : List range) : ∀ (first size : Nat), contiguous l first size →
    first ≤ size ∧ (l.map range.bytes).sum = size - first := by
  induction l with
  | nil => intro first size h; simp only [contiguous] at h; subst h; simp
  | cons r rest ih =>
    intro first size h
    obtain ⟨h1, h2, h3⟩ := h
    obtain ⟨h4, h5⟩ := ih _ _ h3
    simp only [List.map_cons, List.sum_cons, h5, range.bytes]
    omega

theorem plan_from_length (share size : Nat) : ∀ (n first : Nat),
    (plan_from share size n first).length = n
  | 0, _ => rfl
  | 1, _ => rfl
  | n + 2, first => by simp [plan_from, plan_from_length share size (n + 1)]

theorem plan_from_contiguous (share size : Nat) (hshare : 1 ≤ share) : ∀ (n first : Nat),
    first + n * share < size → contiguous (plan_from share size (n + 1) first) first size
  | 0, first => by
    intro h
    simp only [Nat.zero_mul, Nat.add_zero] at h
    simp only [plan_from, contiguous]
    exact ⟨trivial, by omega, by omega⟩
  | n + 1, first => by
    intro h
    have ih := plan_from_contiguous share size hshare n (first + share)
      (by rw [Nat.succ_mul] at h; omega)
    simp only [plan_from, contiguous]
    refine ⟨trivial, by omega, ?_⟩
    have : first + share - 1 + 1 = first + share := by omega
    rw [this]
    exact ih

/-- C27, the claim as it stands fails: a file of 1000 bytes is shorter than one chunk of
    `MIN_CHUNK_SIZE` bytes, so at most `floor (1000 / 2048) = 0` segments are planned, and
    the lengths of no segments sum to 0, not to 1000. -/
theorem fill_ranges_data_small_file :
    segment_count 4 4 1000 MIN_CHUNK_SIZE = 0 ∧
    fill_ranges_data 4 4 1000 MIN_CHUNK_SIZE = [] ∧
    ((fill_ranges_data 4 4 1000 MIN_CHUNK_SIZE).map range.bytes).sum ≠ 1000 := by
  decide

/-- C27, amended: for a total size `S` of at least one chunk `C >= 1`, a requested
    concurrency `N >= 1` and max-connections `M >= 1`, the plan has at least one segment,
    at most `floor (S / C)`, at most `N` and at most `M` segments, exactly
    `min (N, M, floor (S / C))` of them; the segments are contiguous from byte 0 to byte
    `S - 1`, none is empty, and their lengths sum exactly to `S`. A file of 10 MB with
    `C = 2048`, `N = 4` and max-connections 4 gives exactly 4 segments of 2.5 MB each. -/
theorem fill_ranges_data_partition (requested max_connections size chunk : Nat)
    (hchunk : 1 ≤ chunk) (hsize : chunk ≤ size) (hreq : 1 ≤ requested)
    (hmax : 1 ≤ max_connections) :
    (fill_ranges_data requested max_connections size chunk).length =
      segment_count requested max_connections size chunk ∧
    1 ≤ (fill_ranges_data requested max_connections size chunk).length ∧
    (fill_ranges_data requested max_connections size chunk).length ≤ size / chunk ∧
    (fill_ranges_data requested max_connections size chunk).length ≤ requested ∧
    (fill_ranges_data requested max_connections size chunk).length ≤ max_connections ∧
    contiguous (fill_ranges_data requested max_connections size chunk) 0 size ∧
    ((fill_ranges_data requested max_connections size chunk).map range.bytes).sum = size ∧
    fill_ranges_data 4 4 10485760 MIN_CHUNK_SIZE =
      [⟨0, 2621439⟩, ⟨2621440, 5242879⟩, ⟨5242880, 7864319⟩, ⟨7864320, 10485759⟩] ∧
    (fill_ranges_data 4 4 10485760 MIN_CHUNK_SIZE).map range.bytes =
      [2621440, 2621440, 2621440, 2621440] := by
  have hq : 1 ≤ size / chunk := (Nat.one_le_div_iff (by omega)).mpr hsize
  have hlen : (fill_ranges_data requested max_connections size chunk).length =
      segment_count requested max_connections size chunk := by
    simp only [fill_ranges_data, plan_from_length]
  have hn1 : 1 ≤ segment_count requested max_connections size chunk := by
    simp only [segment_count]; omega
  have hn2 : segment_count requested max_connections size chunk ≤ size / chunk := by
    simp only [segment_count]; omega
  have hn3 : segment_count requested max_connections size chunk ≤ requested := by
    simp only [segment_count]; omega
  have hn4 : segment_count requested max_connections size chunk ≤ max_connections := by
    simp only [segment_count]; omega
  have hcont : contiguous (fill_ranges_data requested max_connections size chunk) 0 size := by
    simp only [fill_ranges_data]
    generalize segment_count requested max_connections size chunk = n at hn1 hn2
    obtain ⟨k, rfl⟩ : ∃ k, n = k + 1 := ⟨n - 1, by omega⟩
    have hle : k + 1 ≤ size := le_trans hn2 (Nat.div_le_self _ _)
    have hshare : 1 ≤ size / (k + 1) := (Nat.one_le_div_iff (by omega)).mpr hle
    have hmul : (k + 1) * (size / (k + 1)) ≤ size := Nat.mul_div_le _ _
    apply plan_from_contiguous _ _ hshare
    rw [Nat.succ_mul] at hmul
    omega
  refine ⟨hlen, ?_, ?_, ?_, ?_, hcont, ?_, by decide, by decide⟩
  · omega
  · omega
  · omega
  · omega
  · have := (contiguous_sum _ _ _ hcont).2
    simpa using this

theorem fill_ranges_data_partition_witness :
    (fill_ranges_data 3 8 10000 MIN_CHUNK_SIZE).length = 3 ∧
    contiguous (fill_ranges_data 3 8 10000 MIN_CHUNK_SIZE) 0 10000 ∧
    ((fill_ranges_data 3 8 10000 MIN_CHUNK_SIZE).map range.bytes).sum = 10000 :=
  have h := fill_ranges_data_partition 3 8 10000 MIN_CHUNK_SIZE (by decide) (by decide)
    (by decide) (by decide)
  ⟨h.1.trans (by decide), h.2.2.2.2.2.1, h.2.2.2.2.2.2.1⟩

/-! ## Theorems about `number_to_string` -/

theorem DIGITS_value : ∀ (k n : Nat), n < 10 ^ (k + 1) →
    ∃ L : List Nat, DIGITS (k + 1) (10 ^ k) n = L.reverse.map (· + 48) ∧ L.length = k + 1 ∧
      (∀ d ∈ L, d < 10) ∧ Nat.ofDigits 10 L = n ∧ L.getLast? = some (n / 10 ^ k)
  | 0, n => by
    intro h
    refine ⟨[n], ?_, rfl, ?_, ?_, ?_⟩
    · simp only [DIGITS, ONE_DIGIT, pow_zero, Nat.div_one, List.reverse_singleton,
        List.map_cons, List.map_nil]
      have : (n + 48) % 256 = n + 48 := by omega
      rw [this]
    · intro d hd
      simp only [List.mem_singleton] at hd
      omega
    · simp [Nat.ofDigits]
    · simp
  | k + 1, n => by
    intro h
    have hpos : 0 < 10 ^ (k + 1) := pow_pos (by decide) _
    obtain ⟨L, h1, h2, h3, h4, -⟩ := DIGITS_value k (n % 10 ^ (k + 1)) (Nat.mod_lt _ hpos)
    have hd : n / 10 ^ (k + 1) < 10 := by
      rw [Nat.div_lt_iff_lt_mul hpos]
      calc n < 10 ^ (k + 1 + 1) := h
        _ = 10 * 10 ^ (k + 1) := by rw [pow_succ, Nat.mul_comm]
    have hfig : 10 ^ (k + 1) / 10 = 10 ^ k := by
      rw [pow_succ, Nat.mul_div_cancel _ (by decide : 0 < 10)]
    refine ⟨L ++ [n / 10 ^ (k + 1)], ?_, ?_, ?_, ?_, ?_⟩
    · simp only [DIGITS, hfig, h1, ONE_DIGIT, List.reverse_append, List.reverse_singleton,
        List.singleton_append, List.map_cons]
      have : (n / 10 ^ (k + 1) + 48) % 256 = n / 10 ^ (k + 1) + 48 :=
        Nat.mod_eq_of_lt (by omega)
      rw [this]
    · simp [h2]
    · intro d hmem
      rcases List.mem_append.mp hmem with hm | hm
      · exact h3 d hm
      · simp only [List.mem_singleton] at hm
        omega
    · rw [Nat.ofDigits_append, h4, h2]
      simp only [Nat.ofDigits_singleton]
      exact Nat.mod_add_div n (10 ^ (k + 1))
    · simp

theorem DIGITS_decimal (k figure n : Nat) (hf : figure = 10 ^ k) (hlo : k = 0 ∨ figure ≤ n)
    (hhi : n < 10 * figure) : DIGITS (k + 1) figure n = decimal_digits n := by
  subst hf
  have hlt : n < 10 ^ (k + 1) := by rw [pow_succ, Nat.mul_comm]; exact hhi
  obtain ⟨L, h1, h2, h3, h4, h5⟩ := DIGITS_value k n hlt
  by_cases hn : n = 0
  · subst hn
    have hk : k = 0 := by
      rcases hlo with h | h
      · exact h
      · exact absurd h (Nat.not_le.mpr (pow_pos (by decide) _))
    subst hk
    rfl
  · have hlast : n / 10 ^ k ≠ 0 := by
      rcases hlo with h | h
      · subst h; simpa using hn
      · exact Nat.ne_of_gt (Nat.div_pos h (pow_pos (by decide) _))
    have hdig : Nat.digits 10 n = L := by
      rw [← h4]
      apply Nat.digits_ofDigits 10 (by decide) L h3
      intro hne
      have := List.getLast?_eq_getLast L hne
      rw [h5] at this
      intro h0
      rw [h0] at this
      exact hlast (Option.some.inj this)
    simp only [decimal_digits, hn, if_false, hdig, h1]

theorem number_to_string_digits_eq (n : Nat) (h : n < 10000000000000000000) :
    number_to_string_digits n = decimal_digits n := by
  unfold number_to_string_digits
  by_cases h0 : n < 10
  · rw [if_pos h0]
    exact DIGITS_decimal 0 _ n (by norm_num) (Or.inl rfl) (by omega)
  rw [if_neg h0]
  by_cases h1 : n < 100
  · rw [if_pos h1]
    exact DIGITS_decimal 1 _ n (by norm_num) (Or.inr (by omega)) (by omega)
  rw [if_neg h1]
  by_cases h2 : n < 1000
  · rw [if_pos h2]
    exact DIGITS_decimal 2 _ n (by norm_num) (Or.inr (by omega)) (by omega)
  rw [if_neg h2]
  by_cases h3 : n < 10000
  · rw [if_pos h3]
    exact DIGITS_decimal 3 _ n (by norm_num) (Or.inr (by omega)) (by omega)
  rw [if_neg h3]
  by_cases h4 : n < 100000
  · rw [if_pos h4]
    exact DIGITS_decimal 4 _ n (by norm_num) (Or.inr (by omega)) (by omega)
  rw [if_neg h4]
  by_cases h5 : n < 1000000
  · rw [if_pos h5]
    exact DIGITS_decimal 5 _ n (by norm_num) (Or.inr (by omega)) (by omega)
  rw [if_neg h5]
  by_cases h6 : n < 10000000
  · rw [if_pos h6]
    exact DIGITS_decimal 6 _ n (by norm_num) (Or.inr (by omega)) (by omega)
  rw [if_neg h6]
  by_cases h7 : n < 100000000
  · rw [if_pos h7]
    exact DIGITS_decimal 7 _ n (by norm_num) (Or.inr (by omega)) (by omega)
  rw [if_neg h7]
  by_cases h8 : n < 1000000000
  · rw [if_pos h8]
    exact DIGITS_decimal 8 _ n (by norm_num) (Or.inr (by omega)) (by omega)
  rw [if_neg h8]
  by_cases h9 : n < 10000000000
  · rw [if_pos h9]
    exact DIGITS_decimal 9 _ n (by norm_num) (Or.inr (by omega)) (by omega)
  rw [if_neg h9]
  by_cases h10 : n < 100000000000
  · rw [if_pos h10]
    exact DIGITS_decimal 10 _ n (by norm_num) (Or.inr (by omega)) (by omega)
  rw [if_neg h10]
  by_cases h11 : n < 1000000000000
  · rw [if_pos h11]
    exact DIGITS_decimal 11 _ n (by norm_num) (Or.inr (by omega)) (by omega)
  rw [if_neg h11]
  by_cases h12 : n < 10000000000000
  · rw [if_pos h12]
    exact DIGITS_decimal 12 _ n (by norm_num) (Or.inr (by omega)) (by omega)
  rw [if_neg h12]
  by_cases h13 : n < 100000000000000
  · rw [if_pos h13]
    exact DIGITS_decimal 13 _ n (by norm_num) (Or.inr (by omega)) (by omega)
  rw [if_neg h13]
  by_cases h14 : n < 1000000000000000
  · rw [if_pos h14]
    exact DIGITS_decimal 14 _ n (by norm_num) (Or.inr (by omega)) (by omega)
  rw [if_neg h14]
  by_cases h15 : n < 10000000000000000
  · rw [if_pos h15]
    exact DIGITS_decimal 15 _ n (by norm_num) (Or.inr (by omega)) (by omega)
  rw [if_neg h15]
  by_cases h16 : n < 100000000000000000
  · rw [if_pos h16]
    exact DIGITS_decimal 16 _ n (by norm_num) (Or.inr (by omega)) (by omega)
  rw [if_neg h16]
  by_cases h17 : n < 1000000000000000000
  · rw [if_pos h17]
    exact DIGITS_decimal 17 _ n (by norm_num) (Or.inr (by omega)) (by omega)
  rw [if_neg h17]
  exact DIGITS_decimal 18 _ n (by norm_num) (Or.inr (by omega)) (by omega)

theorem number_to_string_eq (number : Int) (hlo : -WGINT_MAX - 1 ≤ number)
    (hhi : number ≤ WGINT_MAX) :
    number_to_string number = (decimal_string number, (decimal_string number).length) := by
  simp only [WGINT_MAX] at hlo hhi
  unfold number_to_string
  by_cases hneg : number < 0
  · by_cases hmin : number < -WGINT_MAX
    · simp only [hneg, hmin, if_true, SPRINTF_WGINT]
    · simp only [WGINT_MAX] at hmin
      have hnat : (-number).toNat = number.natAbs := by omega
      have hb : number.natAbs < 10000000000000000000 := by omega
      simp only [hneg, WGINT_MAX, hmin, if_true, if_false, hnat,
        number_to_string_digits_eq _ hb, decimal_string, List.length_cons]
      rw [Nat.add_comm]
  · have hnat : number.toNat = number.natAbs := by omega
    have hb : number.natAbs < 10000000000000000000 := by omega
    simp only [hneg, if_false, hnat, number_to_string_digits_eq _ hb, decimal_string]

theorem decimal_digits_no_leading_zero (n : Nat) (hn : n ≠ 0) :
    ∃ d rest, decimal_digits n = d :: rest ∧ 49 ≤ d ∧ d ≤ 57 ∧ ∀ c ∈ rest, 48 ≤ c ∧ c ≤ 57 := by
  have hne : Nat.digits 10 n ≠ [] := Nat.digits_ne_nil_iff_ne_zero.mpr hn
  have hlast := Nat.getLast_digit_ne_zero 10 hn
  have hlt : ∀ d ∈ Nat.digits 10 n, d < 10 := fun d hd => Nat.digits_lt_base (by decide) hd
  obtain ⟨init, last, hsplit⟩ : ∃ init last, Nat.digits 10 n = init ++ [last] :=
    ⟨_, _, (List.dropLast_append_getLast hne).symm⟩
  have hl : (Nat.digits 10 n).getLast hne = last := by
    simp only [hsplit, List.getLast_append_singleton]
  rw [hl] at hlast
  refine ⟨last + 48, init.reverse.map (· + 48), ?_, ?_, ?_, ?_⟩
  · simp [decimal_digits, hn, hsplit]
  · omega
  · have := hlt last (by simp [hsplit])
    omega
  · intro c hc
    simp only [List.mem_map, List.mem_reverse] at hc
    obtain ⟨d, hd, rfl⟩ := hc
    have := hlt d (by simp [hsplit, hd])
    omega

/-- C28: for every `wgint` `number` (64 bits), `number_to_string` writes the base-10
    representation of `number`, the string `sprintf` with `%lld` produces, and returns the
    pointer to the terminating zero, the buffer plus the length of the written string; the
    string is "0" for zero, starts with '-' exactly for a negative number, and its digits
    start with a digit other than '0' for a number other than zero. -/
theorem number_to_string_decimal (number : Int) (hlo : -WGINT_MAX - 1 ≤ number)
    (hhi : number ≤ WGINT_MAX) :
    number_to_string number = (decimal_string number, (decimal_string number).length) ∧
    (number_to_string number).2 = (number_to_string number).1.length ∧
    (number = 0 → (number_to_string number).1 = cstr "0") ∧
    (0 < number → ∃ d rest, (number_to_string number).1 = d :: rest ∧ 49 ≤ d ∧ d ≤ 57 ∧
      (∀ c ∈ rest, 48 ≤ c ∧ c ≤ 57) ∧ Nat.ofDigits 10 ((d :: rest).reverse.map (· - 48)) =
        number.natAbs) ∧
    (number < 0 → ∃ d rest, (number_to_string number).1 = 45 :: d :: rest ∧ 49 ≤ d ∧ d ≤ 57 ∧
      (∀ c ∈ rest, 48 ≤ c ∧ c ≤ 57) ∧ Nat.ofDigits 10 ((d :: rest).reverse.map (· - 48)) =
        number.natAbs) := by
  have heq := number_to_string_eq number hlo hhi
  have hval : ∀ n : Nat, n ≠ 0 →
      Nat.ofDigits 10 ((decimal_digits n).reverse.map (· - 48)) = n := by
    intro n hn
    simp only [decimal_digits, hn, if_false, List.map_reverse, List.reverse_reverse,
      List.map_map]
    have : ((fun x => x - 48) ∘ fun x => x + 48) = (id : Nat → Nat) := by
      funext x; simp
    rw [this, List.map_id, Nat.ofDigits_digits]
  refine ⟨heq, by rw [heq], ?_, ?_, ?_⟩
  · intro h0
    subst h0
    rw [heq]
    decide
  · intro hpos
    have hn : number.natAbs ≠ 0 := by omega
    obtain ⟨d, rest, h1, h2, h3, h4⟩ := decimal_digits_no_leading_zero _ hn
    refine ⟨d, rest, ?_, h2, h3, h4, ?_⟩
    · rw [heq]
      simp only [decimal_string, h1]
      rw [if_neg (by omega)]
    · rw [← h1]
      exact hval _ hn
  · intro hneg
    have hn : number.natAbs ≠ 0 := by omega
    obtain ⟨d, rest, h1, h2, h3, h4⟩ := decimal_digits_no_leading_zero _ hn
    refine ⟨d, rest, ?_, h2, h3, h4, ?_⟩
    · rw [heq]
      simp only [decimal_string, h1]
      rw [if_pos hneg]
    · rw [← h1]
      exact hval _ hn

theorem number_to_string_decimal_witness :
    number_to_string (-1203) = (cstr "-1203", 5) ∧
    number_to_string (-1203) = (decimal_string (-1203), (decimal_string (-1203)).length) ∧
    number_to_string 9223372036854775807 = (cstr "9223372036854775807", 19) ∧
    number_to_string 0 = (cstr "0", 1) :=
  ⟨by decide, (number_to_string_decimal (-1203) (by decide) (by decide)).1, by decide,
   by decide⟩

/-! ## Theorems about `unique_name` -/

theorem decimal_digits_value (n : Nat) :
    Nat.ofDigits 10 ((decimal_digits n).reverse.map (· - 48)) = n := by
  by_cases hn : n = 0
  · subst hn
    simp [decimal_digits, Nat.ofDigits]
  · simp only [decimal_digits, hn, if_false, List.map_reverse, List.reverse_reverse,
      List.map_map]
    have : ((fun x => x - 48) ∘ fun x => x + 48) = (id : Nat → Nat) := by
      funext x; simp
    rw [this, List.map_id, Nat.ofDigits_digits]

theorem decimal_digits_injective (a b : Nat) (h : decimal_digits a = decimal_digits b) :
    a = b := by
  rw [← decimal_digits_value a, ← decimal_digits_value b, h]

theorem unique_name_template_eq (pfx : CString) (count : Nat)
    (h : count < 9223372036854775808) :
    unique_name_template pfx count = pfx ++ [46] ++ decimal_digits count := by
  have hlo : -WGINT_MAX - 1 ≤ (count : Int) := by simp only [WGINT_MAX]; omega
  have hhi : (count : Int) ≤ WGINT_MAX := by simp only [WGINT_MAX]; omega
  have hneg : ¬ ((count : Int) < 0) := by omega
  simp only [unique_name_template, number_to_string_eq _ hlo hhi, decimal_string, hneg,
    if_false, Int.natAbs_ofNat]

theorem unique_name_1_loop_spec (fs : List CString) (pfx : CString) : ∀ (fuel count : Nat),
    (∃ j, j < fuel ∧ unique_name_template pfx (count + j) ∉ fs) →
    ∃ j, j < fuel ∧ unique_name_1_loop fs pfx fuel count =
        some (unique_name_template pfx (count + j)) ∧
      unique_name_template pfx (count + j) ∉ fs ∧
      ∀ i, i < j → unique_name_template pfx (count + i) ∈ fs
  | 0, _ => by
    rintro ⟨j, hj, -⟩
    exact absurd hj (Nat.not_lt_zero _)
  | fuel + 1, count => by
    rintro ⟨j, hj, hfree⟩
    by_cases hex : unique_name_template pfx count ∈ fs
    · have hj0 : j ≠ 0 := by
        intro h0
        subst h0
        exact hfree hex
      obtain ⟨j1, hj1, hres, hfree1, hbusy⟩ :=
        unique_name_1_loop_spec fs pfx fuel (count + 1)
          ⟨j - 1, by omega, by
            have : count + 1 + (j - 1) = count + j := by omega
            rw [this]; exact hfree⟩
      refine ⟨j1 + 1, by omega, ?_, ?_, ?_⟩
      · have : count + (j1 + 1) = count + 1 + j1 := by omega
        rw [this, ← hres]
        simp [unique_name_1_loop, file_exists_p, hex]
      · have : count + (j1 + 1) = count + 1 + j1 := by omega
        rw [this]; exact hfree1
      · intro i hi
        rcases Nat.eq_zero_or_pos i with h0 | hpos
        · subst h0; exact hex
        · have : count + i = count + 1 + (i - 1) := by omega
          rw [this]
          exact hbusy (i - 1) (by omega)
    · refine ⟨0, by omega, ?_, hex, ?_⟩
      · simp [unique_name_1_loop, file_exists_p, hex, xstrdup]
      · intro i hi
        exact absurd hi (Nat.not_lt_zero _)

theorem unique_name_free_slot (fs : List CString) (pfx : CString)
    (hint : fs.length + 2 < 2147483648) :
    ∃ j, j < fs.length + 1 ∧ unique_name_template pfx (1 + j) ∉ fs := by
  by_contra hcon
  have hall : ∀ j, j < fs.length + 1 → unique_name_template pfx (1 + j) ∈ fs := by
    intro j hj
    by_contra hn
    exact hcon ⟨j, hj, hn⟩
  have hnodup : ((List.range (fs.length + 1)).map
      (fun j => unique_name_template pfx (1 + j))).Nodup := by
    refine (List.nodup_map_iff_inj_on (List.nodup_range _)).mpr ?_
    intro i hi j hj heq
    rw [List.mem_range] at hi hj
    rw [unique_name_template_eq pfx (1 + i) (by omega),
      unique_name_template_eq pfx (1 + j) (by omega)] at heq
    have := decimal_digits_injective _ _ (List.append_cancel_left heq)
    omega
  have hsub : (List.range (fs.length + 1)).map
      (fun j => unique_name_template pfx (1 + j)) ⊆ fs := by
    intro x hx
    obtain ⟨j, hj, rfl⟩ := List.mem_map.mp hx
    exact hall j (List.mem_range.mp hj)
  have hlen := (List.subperm_of_subset hnodup hsub).length_le
  simp only [List.length_map, List.length_range] at hlen
  omega

/-- C29: over a file system given by the finite list `fs` of the existing names (few enough
    for the `int` counter: fewer than `2^31 - 2`), `unique_name (file, allow_passthrough)`
    returns `file` itself when `file` does not exist, and otherwise `file.N` with `N >= 1`
    the least positive integer such that `file.N` does not exist (`file.1` to `file.(N-1)`
    all exist); the search ends within `|fs| + 1` rounds, and the returned name never names
    an existing file. -/
theorem unique_name_least_free (fuel : Nat) (fs : List CString) (file : CString)
    (allow_passthrough : Int) (hfuel : fs.length < fuel) (hint : fs.length + 2 < 2147483648) :
    (file ∉ fs → unique_name fuel fs file allow_passthrough = some file) ∧
    (file ∈ fs → ∃ N : Nat, 1 ≤ N ∧ N ≤ fs.length + 1 ∧
      unique_name fuel fs file allow_passthrough = some (file ++ [46] ++ decimal_digits N) ∧
      file ++ [46] ++ decimal_digits N ∉ fs ∧
      ∀ k, 1 ≤ k → k < N → file ++ [46] ++ decimal_digits k ∈ fs) ∧
    (∃ name, unique_name fuel fs file allow_passthrough = some name ∧ name ∉ fs) := by
  have hpass : file ∉ fs → unique_name fuel fs file allow_passthrough = some file := by
    intro h
    by_cases hp : allow_passthrough = 0 <;> simp [unique_name, file_exists_p, h, hp, xstrdup]
  have hsearch : file ∈ fs → ∃ N : Nat, 1 ≤ N ∧ N ≤ fs.length + 1 ∧
      unique_name fuel fs file allow_passthrough = some (file ++ [46] ++ decimal_digits N) ∧
      file ++ [46] ++ decimal_digits N ∉ fs ∧
      ∀ k, 1 ≤ k → k < N → file ++ [46] ++ decimal_digits k ∈ fs := by
    intro h
    obtain ⟨j0, hj0, hfree0⟩ := unique_name_free_slot fs file hint
    obtain ⟨j, hj, hres, hfree, hbusy⟩ :=
      unique_name_1_loop_spec fs file (fs.length + 1) 1 ⟨j0, hj0, hfree0⟩
    obtain ⟨j1, hj1, hres1, hfree1, hbusy1⟩ :=
      unique_name_1_loop_spec fs file fuel 1 ⟨j, by omega, hfree⟩
    have hjj : j1 = j := by
      rcases Nat.lt_trichotomy j1 j with hlt | heq | hgt
      · exact absurd (hbusy j1 hlt) hfree1
      · exact heq
      · exact absurd (hbusy1 j hgt) hfree
    subst hjj
    refine ⟨1 + j1, by omega, by omega, ?_, ?_, ?_⟩
    · rw [← unique_name_template_eq file (1 + j1) (by omega), ← hres1]
      simp [unique_name, unique_name_1, file_exists_p, h]
    · rw [← unique_name_template_eq file (1 + j1) (by omega)]
      exact hfree1
    · intro k hk1 hk2
      rw [← unique_name_template_eq file k (by omega)]
      have : k = 1 + (k - 1) := by omega
      rw [this]
      exact hbusy1 (k - 1) (by omega)
  refine ⟨hpass, hsearch, ?_⟩
  by_cases h : file ∈ fs
  · obtain ⟨N, -, -, hres, hfree, -⟩ := hsearch h
    exact ⟨_, hres, hfree⟩
  · exact ⟨file, hpass h, h⟩

theorem unique_name_least_free_witness :
    unique_name 5 fs_example (cstr "f") 1 = some (cstr "f.3") ∧
    unique_name 5 fs_example (cstr "h") 0 = some (cstr "h") ∧
    ∃ name, unique_name 5 fs_example (cstr "f") 1 = some name ∧ name ∉ fs_example :=
  ⟨by decide, by decide,
   (unique_name_least_free 5 fs_example (cstr "f") 1 (by decide) (by decide)).2.2⟩

/-! ## Theorems about the connected flag -/

theorem deref_heap_eq (s s1 : HostState) (p : Nat) (h : s1.heap = s.heap) :
    s1.deref p = s.deref p := by
  unfold HostState.deref
  rw [h]

theorem deref_heap_append (s s1 : HostState) (p : Nat) (v : address_list)
    (hp : p < s.heap.length) (h : s1.heap = s.heap ++ [some v]) : s1.deref p = s.deref p := by
  unfold HostState.deref
  rw [h, List.getElem?_append_left hp]

theorem deref_heap_set (s s1 : HostState) (p q : Nat) (v : address_list)
    (hq : q < s.heap.length) (h : s1.heap = s.heap.set q (some v)) :
    s1.deref p = if p = q then some v else s.deref p := by
  have : s1.deref p = (s.store q v).deref p := by
    unfold HostState.deref HostState.store
    rw [h]
  rw [this, deref_store s q p v hq]

/-- What `lookup_host` does to the lists in memory: nothing, or it allocates one new list
    whose connected flag is clear, or it counts one more reference to a cached list. -/
theorem lookup_host_heap (env : HostEnv) (host : CString) (silent : Int) (s s1 : HostState)
    (r : Option Nat) (h : lookup_host env host silent s = .ok (r, s1)) :
    s1.heap = s.heap ∨ (∃ v, s1.heap = s.heap ++ [some v]) ∨
    (∃ q v, s.deref q = some v ∧
      s1.heap = s.heap.set q (some { v with refcount := v.refcount + 1 })) := by
  by_cases hnum : env.inet_addr host % 4294967296 = 4294967295
  · cases hm : (s.host_name_addresses_map.bind fun ht => hash_table_get ht host) with
    | some q =>
      cases hq : s.deref q with
      | none =>
        unfold lookup_host at h
        simp [hnum, hm, hq] at h
      | some v =>
        unfold lookup_host at h
        simp only [hnum, ne_eq, not_true_eq_false, if_false, hm, hq, Run.ok.injEq,
          Prod.mk.injEq] at h
        right; right
        refine ⟨q, v, hq, ?_⟩
        rw [← h.2]
        rfl
    | none =>
      cases hres : env.resolve s.resolver_calls host with
      | timeout =>
        rw [lookup_host_timeout env host silent s hnum hm hres] at h
        simp only [Run.ok.injEq, Prod.mk.injEq] at h
        left
        rw [← h.2]
      | failure e =>
        left
        by_cases hE : env.ETIMEDOUT = 0
        · unfold lookup_host at h
          by_cases hs : silent = 0 <;>
            simp [hnum, hm, hs, hE, gethostbyname_with_timeout, hres] at h <;>
            rw [← h.2]
        · rw [lookup_host_failure env host silent s e hE hnum hm hres] at h
          simp only [Run.ok.injEq, Prod.mk.injEq] at h
          rw [← h.2]
      | hostent vec =>
        by_cases hvec : vec = []
        · subst hvec
          unfold lookup_host at h
          by_cases hs : silent = 0 <;>
            simp [hnum, hm, hs, gethostbyname_with_timeout, hres,
              address_list_from_ipv4_addresses] at h
        · rw [lookup_host_miss env host silent s vec hnum hm hres hvec] at h
          simp only [Run.ok.injEq, Prod.mk.injEq] at h
          right; left
          rw [← h.2]
          exact ⟨_, rfl⟩
  · rw [lookup_host_numeric env host silent s hnum] at h
    simp only [Run.ok.injEq, Prod.mk.injEq] at h
    right; left
    rw [← h.2]
    exact ⟨_, rfl⟩

theorem address_list_set_faulty_connected (v v1 : address_list) (index : Int)
    (h : address_list_set_faulty v index = .ok v1) : v1.connected = v.connected := by
  unfold address_list_set_faulty at h
  by_cases hi : index = v.faulty
  · by_cases hw : v.faulty + 1 ≥ v.count
    · simp [hi, hw] at h
      rw [← h]
    · simp [hi, hw] at h
      rw [← h]
  · simp [hi] at h

/-- One operation keeps an allocated pointer allocated, and a list that is still there
    afterwards has its connected flag set when it was set before. -/
theorem run_op_connected (env : HostEnv) (p : Nat) (op : ListOp) (s s1 : HostState)
    (hp : p < s.heap.length) (hc : ∀ v, s.deref p = some v → v.connected ≠ 0)
    (h : run_op env p op s = .ok s1) :
    p < s1.heap.length ∧ ∀ v, s1.deref p = some v → v.connected ≠ 0 := by
  cases op with
  | set_faulty index =>
    simp only [run_op] at h
    cases hd : s.deref p with
    | none => simp [hd] at h
    | some v =>
      cases hf : address_list_set_faulty v index with
      | fault f => simp [hd, hf] at h
      | ok v1 =>
        simp only [hd, hf, Run.ok.injEq] at h
        subst h
        refine ⟨by simpa [HostState.store] using hp, ?_⟩
        intro w hw
        rw [deref_store s p p v1 hp, if_pos rfl] at hw
        rw [← Option.some.inj hw, address_list_set_faulty_connected v v1 index hf]
        exact hc v hd
  | set_connected =>
    simp only [run_op] at h
    cases hd : s.deref p with
    | none => simp [hd] at h
    | some v =>
      simp only [hd, Run.ok.injEq] at h
      subst h
      refine ⟨by simpa [HostState.store] using hp, ?_⟩
      intro w hw
      rw [deref_store s p p _ hp, if_pos rfl] at hw
      rw [← Option.some.inj hw]
      simp [address_list_set_connected]
  | release =>
    simp only [run_op, address_list_release] at h
    cases hd : s.deref p with
    | none => simp [hd] at h
    | some v =>
      by_cases hr : v.refcount - 1 ≤ 0
      · simp only [hd, hr, if_true, Run.ok.injEq] at h
        subst h
        refine ⟨by simpa [HostState.store, address_list_delete] using hp, ?_⟩
        intro w hw
        rw [deref_delete, if_pos rfl] at hw
        exact absurd hw (by simp)
      · simp only [hd, hr, if_false, Run.ok.injEq] at h
        subst h
        refine ⟨by simpa [HostState.store] using hp, ?_⟩
        intro w hw
        rw [deref_store s p p _ hp, if_pos rfl] at hw
        rw [← Option.some.inj hw]
        exact hc v hd
  | lookup host silent =>
    simp only [run_op] at h
    cases hl : lookup_host env host silent s with
    | fault f => simp [hl] at h
    | ok r =>
      obtain ⟨r1, s2⟩ := r
      simp only [hl, Run.ok.injEq] at h
      subst h
      rcases lookup_host_heap env host silent s s2 r1 hl with hh | ⟨v, hh⟩ | ⟨q, v, hq, hh⟩
      · refine ⟨by rw [hh]; exact hp, ?_⟩
        intro w hw
        rw [deref_heap_eq s s2 p hh] at hw
        exact hc w hw
      · refine ⟨by rw [hh, List.length_append]; omega, ?_⟩
        intro w hw
        rw [deref_heap_append s s2 p v hp hh] at hw
        exact hc w hw
      · refine ⟨by rw [hh, List.length_set]; exact hp, ?_⟩
        intro w hw
        rw [deref_heap_set s s2 p q _ (deref_lt s q v hq) hh] at hw
        by_cases hpq : p = q
        · subst hpq
          rw [if_pos rfl] at hw
          rw [← Option.some.inj hw]
          exact hc v hq
        · rw [if_neg hpq] at hw
          exact hc w hw

theorem run_ops_connected (env : HostEnv) (p : Nat) : ∀ (ops : List ListOp) (s s1 : HostState),
    p < s.heap.length → (∀ v, s.deref p = some v → v.connected ≠ 0) →
    run_ops env p ops s = .ok s1 →
    p < s1.heap.length ∧ ∀ v, s1.deref p = some v → v.connected ≠ 0
  | [], s, s1 => by
    intro hp hc h
    simp only [run_ops, Run.ok.injEq] at h
    subst h
    exact ⟨hp, hc⟩
  | op :: rest, s, s1 => by
    intro hp hc h
    simp only [run_ops] at h
    cases ho : run_op env p op s with
    | fault f => simp [ho] at h
    | ok s2 =>
      simp only [ho] at h
      obtain ⟨hp2, hc2⟩ := run_op_connected env p op s s2 hp hc ho
      exact run_ops_connected env p rest s2 s1 hp2 hc2 h

/-- C23: `address_list_connected_p` returns false on a freshly built list and true after
    `address_list_set_connected`; once the flag of a list is set, no later operation clears
    it: not `address_list_set_faulty` (its wrap-around of `faulty` to 0 included), not a
    cache hit in `lookup_host`, not an `address_list_release` that does not free the list,
    and so after any sequence of calls of `address_list_set_faulty`,
    `address_list_set_connected`, `address_list_release` on the list and of `lookup_host`
    on any host, the list, as long as it is there, still has the flag set. -/
theorem connected_flag_is_sticky (env : HostEnv) (s : HostState) (p : Nat) (v : address_list)
    (hlive : s.deref p = some v) (hconn : address_list_connected_p v ≠ 0) :
    (∀ vec w, address_list_from_ipv4_addresses vec = .ok w → address_list_connected_p w = 0) ∧
    (∀ w, address_list_connected_p (address_list_set_connected w) = 1) ∧
    (∀ index w, address_list_set_faulty v index = .ok w →
      address_list_connected_p w = address_list_connected_p v) ∧
    (∀ host silent r s1, lookup_host env host silent s = .ok (r, s1) →
      ∃ w, s1.deref p = some w ∧ address_list_connected_p w = address_list_connected_p v) ∧
    (1 < v.refcount → ∃ s1 w, address_list_release p s = .ok s1 ∧ s1.deref p = some w ∧
      address_list_connected_p w = address_list_connected_p v) ∧
    (∀ ops s1, run_ops env p ops s = .ok s1 →
      ∀ w, s1.deref p = some w → address_list_connected_p w ≠ 0) := by
  have hp : p < s.heap.length := deref_lt s p v hlive
  refine ⟨?_, ?_, ?_, ?_, ?_, ?_⟩
  · intro vec w h
    unfold address_list_from_ipv4_addresses at h
    by_cases hv : (vec.length : Int) > 0
    · simp only [hv, if_true, Run.ok.injEq] at h
      rw [← h]
      rfl
    · simp [hv] at h
  · intro w
    rfl
  · intro index w h
    exact address_list_set_faulty_connected v w index h
  · intro host silent r s1 h
    rcases lookup_host_heap env host silent s s1 r h with hh | ⟨w, hh⟩ | ⟨q, w, hq, hh⟩
    · refine ⟨v, ?_, rfl⟩
      rw [deref_heap_eq s s1 p hh]
      exact hlive
    · refine ⟨v, ?_, rfl⟩
      rw [deref_heap_append s s1 p w hp hh]
      exact hlive
    · by_cases hpq : p = q
      · subst hpq
        rw [hlive] at hq
        have hvw : v = w := Option.some.inj hq
        subst hvw
        refine ⟨{ v with refcount := v.refcount + 1 }, ?_, rfl⟩
        rw [deref_heap_set s s1 p p _ hp hh, if_pos rfl]
      · refine ⟨v, ?_, rfl⟩
        rw [deref_heap_set s s1 p q _ (deref_lt s q w hq) hh, if_neg hpq]
        exact hlive
  · intro href
    have hr : ¬ (v.refcount - 1 ≤ 0) := by omega
    refine ⟨s.store p { v with refcount := v.refcount - 1 },
      { v with refcount := v.refcount - 1 }, ?_, ?_, rfl⟩
    · simp [address_list_release, hlive, hr]
    · rw [deref_store s p p _ hp, if_pos rfl]
  · intro ops s1 h w hw
    have hc : ∀ u, s.deref p = some u → u.connected ≠ 0 := by
      intro u hu
      rw [hlive] at hu
      rw [← Option.some.inj hu]
      exact hconn
    exact (run_ops_connected env p ops s s1 hp hc h).2 w hw

theorem connected_flag_is_sticky_witness :
    run_ops env_dns 0
        [.set_faulty 1, .set_faulty 2, .lookup (cstr "example.org") 0, .release]
        cached_state =
      .ok { cached_state with heap := [some { cached_list with faulty := 0 }] } ∧
    ∀ ops s1, run_ops env_dns 0 ops cached_state = .ok s1 →
      ∀ w, s1.deref 0 = some w → address_list_connected_p w ≠ 0 :=
  ⟨by decide,
   (connected_flag_is_sticky env_dns cached_state 0 cached_list (by decide)
      (by decide)).2.2.2.2.2⟩

/-! ## Theorems about `sufmatch` -/

theorem sufmatch_loop_eq_match_tail_loop (elem what : CString) : ∀ (j k : Nat),
    sufmatch_loop elem what j k = match_tail_loop TOLOWER what elem k j
  | 0, 0 => by simp [sufmatch_loop, match_tail_loop]
  | 0, k + 1 => by simp [sufmatch_loop, match_tail_loop]
  | j + 1, 0 => by simp [sufmatch_loop, match_tail_loop]
  | j + 1, k + 1 => by
    have ih := sufmatch_loop_eq_match_tail_loop elem what j k
    simp only [sufmatch_loop, match_tail_loop, ih, ne_eq]
    by_cases h : TOLOWER (elem.getD j 0) = TOLOWER (what.getD k 0)
    · rw [if_neg (not_not.mpr h), if_neg (not_not.mpr h.symm)]
    · rw [if_pos h, if_pos (fun e => h e.symm)]

theorem sufmatch_elem_iff (elem what : CString) :
    sufmatch_loop elem what (elem.length + 1) (what.length + 1) = -1 ↔
      elem.map TOLOWER <:+ what.map TOLOWER := by
  rw [sufmatch_loop_eq_match_tail_loop]
  exact match_tail_loop_start TOLOWER what elem

theorem match_tail_fold_iff (what elem : CString) :
    match_tail what elem 1 = 1 ↔ elem.map TOLOWER <:+ what.map TOLOWER := by
  unfold match_tail
  have h := match_tail_loop_start TOLOWER what elem
  by_cases hs : elem.map TOLOWER <:+ what.map TOLOWER
  · simp [h.mpr hs, hs]
  · have hne : ¬ match_tail_loop TOLOWER what elem (what.length + 1) (elem.length + 1) = -1 :=
      fun e => hs (h.mp e)
    simp [hne, hs]

theorem sufmatch_iff (list : List CString) (what : CString) :
    sufmatch list what = 1 ↔ ∃ e ∈ list, e.map TOLOWER <:+ what.map TOLOWER := by
  induction list with
  | nil => simp [sufmatch]
  | cons elem rest ih =>
    by_cases h : sufmatch_loop elem what (elem.length + 1) (what.length + 1) = -1
    · simp only [sufmatch, h, if_true, true_iff]
      exact ⟨elem, List.mem_cons_self _ _, (sufmatch_elem_iff elem what).mp h⟩
    · have hs : ¬ elem.map TOLOWER <:+ what.map TOLOWER :=
        fun e => h ((sufmatch_elem_iff elem what).mpr e)
      simp only [sufmatch, h, if_false, ih, List.mem_cons, exists_eq_or_imp, hs, false_or]

theorem sufmatch_zero_or_one (list : List CString) (what : CString) :
    sufmatch list what = 0 ∨ sufmatch list what = 1 := by
  induction list with
  | nil => exact Or.inl rfl
  | cons elem rest ih =>
    by_cases h : sufmatch_loop elem what (elem.length + 1) (what.length + 1) = -1
    · right; simp [sufmatch, h]
    · simpa [sufmatch, h] using ih

/-- C31: `sufmatch (list, what)` is its specification: it returns 1 when some element of the
    list is a suffix of `what`, letters compared without regard to case, and 0 otherwise;
    it returns 1 exactly when `match_tail (what, e, 1)` is 1 for some element `e` of the
    list; and a list whose elements are all longer than `what` gives 0. -/
theorem sufmatch_refines_spec (list : List CString) (what : CString) :
    sufmatch list what = sufmatch_spec list what ∧
    (sufmatch list what = 1 ↔ ∃ e ∈ list, e.map TOLOWER <:+ what.map TOLOWER) ∧
    (sufmatch list what = 1 ↔ ∃ e ∈ list, match_tail what e 1 = 1) ∧
    (sufmatch list what = 0 ↔ ∀ e ∈ list, match_tail what e 1 = 0) ∧
    ((∀ e ∈ list, what.length < e.length) → sufmatch list what = 0) := by
  have h1 := sufmatch_iff list what
  have h01 := sufmatch_zero_or_one list what
  have hspec : sufmatch list what = sufmatch_spec list what := by
    unfold sufmatch_spec
    by_cases hex : ∃ e ∈ list, e.map TOLOWER <:+ what.map TOLOWER
    · have hany : (list.any fun e => (e.map TOLOWER).isSuffixOf (what.map TOLOWER)) = true := by
        rw [List.any_eq_true]
        obtain ⟨e, he, hs⟩ := hex
        exact ⟨e, he, by simpa using hs⟩
      rw [hany, h1.mpr hex]
      rfl
    · have hany : ¬ (list.any fun e => (e.map TOLOWER).isSuffixOf (what.map TOLOWER)) = true := by
        rw [List.any_eq_true]
        rintro ⟨e, he, hs⟩
        exact hex ⟨e, he, by simpa using hs⟩
      have h0 : sufmatch list what = 0 := by
        rcases h01 with h | h
        · exact h
        · exact absurd (h1.mp h) hex
      rw [h0, if_neg hany]
  have hmt : ∀ e : CString, match_tail what e 1 = 0 ↔ ¬ e.map TOLOWER <:+ what.map TOLOWER := by
    intro e
    have := match_tail_fold_iff what e
    unfold match_tail at this ⊢
    by_cases hj : match_tail_loop TOLOWER what e (what.length + 1) (e.length + 1) = -1
    · simp [hj] at this ⊢
      exact this
    · simp [hj] at this ⊢
      exact this
  refine ⟨hspec, h1, ?_, ?_, ?_⟩
  · rw [h1]
    constructor
    · rintro ⟨e, he, hs⟩
      exact ⟨e, he, (match_tail_fold_iff what e).mpr hs⟩
    · rintro ⟨e, he, hs⟩
      exact ⟨e, he, (match_tail_fold_iff what e).mp hs⟩
  · constructor
    · intro h0 e he
      rw [hmt]
      intro hs
      have := h1.mpr ⟨e, he, hs⟩
      omega
    · intro hall
      rcases h01 with h | h
      · exact h
      · obtain ⟨e, he, hs⟩ := h1.mp h
        exact absurd hs ((hmt e).mp (hall e he))
  · intro hlong
    rcases h01 with h | h
    · exact h
    · obtain ⟨e, he, hs⟩ := h1.mp h
      have hlen := hs.length_le
      simp only [List.length_map] at hlen
      have := hlong e he
      omega

theorem sufmatch_refines_spec_witness :
    sufmatch [cstr "example.org", cstr ".GNU.org"] (cstr "www.gnu.org") = 1 ∧
    sufmatch [cstr "nu.org"] (cstr "GNU.ORG") = 1 ∧
    sufmatch [] (cstr "gnu.org") = 0 ∧
    sufmatch [cstr "www.gnu.org"] (cstr "gnu.org") = 0 :=
  ⟨by decide, by decide, by decide,
   (sufmatch_refines_spec [cstr "www.gnu.org"] (cstr "gnu.org")).2.2.2.2
     (fun e he => by
       rw [List.mem_singleton.mp he]
       decide)⟩

/-! ## Theorems about `sepstring` -/

theorem skip_blanks_length (s : CString) : (skip_blanks s).length ≤ s.length := by
  induction s with
  | nil => simp [skip_blanks]
  | cons c rest ih =>
    by_cases h : ISSPACE c = true
    · simp only [skip_blanks, h, if_true, List.length_cons]
      omega
    · simp [skip_blanks, h]

theorem skip_blanks_count (s : CString) : (skip_blanks s).count 44 = s.count 44 := by
  induction s with
  | nil => simp [skip_blanks]
  | cons c rest ih =>
    by_cases h : ISSPACE c = true
    · have hc : c ≠ 44 := by
        intro e
        subst e
        exact absurd h (by decide)
      simp only [skip_blanks, h, if_true, ih]
      rw [List.count_cons_of_ne hc.symm]
    · simp [skip_blanks, h]

theorem strip_skip_blanks (s : CString) :
    strip_after_commas true s = strip_after_commas false (skip_blanks s) := by
  induction s with
  | nil => simp [skip_blanks, strip_after_commas]
  | cons c rest ih =>
    by_cases h : ISSPACE c = true
    · simp only [skip_blanks, h, if_true, strip_after_commas, Bool.and_self, ih]
    · simp [skip_blanks, h, strip_after_commas]

theorem join_commas_append (res : List CString) (e f : CString) :
    join_commas (res ++ [e, f]) = join_commas (res ++ [e]) ++ 44 :: f := by
  induction res with
  | nil => simp [join_commas]
  | cons a rest ih =>
    cases rest with
    | nil => simp [join_commas]
    | cons b rest1 =>
      change a ++ 44 :: join_commas ((b :: rest1) ++ [e, f]) =
        (a ++ 44 :: join_commas ((b :: rest1) ++ [e])) ++ 44 :: f
      rw [ih]
      simp

theorem join_commas_snoc_append (res : List CString) (e t : CString) :
    join_commas (res ++ [e ++ t]) = join_commas (res ++ [e]) ++ t := by
  induction res with
  | nil => simp [join_commas]
  | cons a rest ih =>
    cases rest with
    | nil => simp [join_commas]
    | cons b rest1 =>
      change a ++ 44 :: join_commas ((b :: rest1) ++ [e ++ t]) =
        (a ++ 44 :: join_commas ((b :: rest1) ++ [e])) ++ t
      rw [ih]
      simp

/-- The loop of `sepstring` ends within `rest.length + 1` iterations; it adds one element
    for every comma of the rest and one more, no element it adds has a comma, and the
    elements joined with commas are the text so far followed by the stripped rest. -/
theorem sepstring_loop_spec : ∀ (fuel : Nat) (pending rest : CString) (res : List CString),
    rest.length < fuel → 44 ∉ pending → (∀ e ∈ res, 44 ∉ e) →
    ∃ v, sepstring_loop fuel pending rest res = some v ∧
      v.length = res.length + rest.count 44 + 1 ∧ (∀ e ∈ v, 44 ∉ e) ∧
      join_commas v = join_commas (res ++ [pending]) ++ strip_after_commas false rest
  | 0, _, _, _ => by
    intro h
    exact absurd h (Nat.not_lt_zero _)
  | fuel + 1, pending, [], res => by
    intro _ hp hres
    refine ⟨res ++ [pending], rfl, by simp, ?_, by simp [strip_after_commas]⟩
    intro e he
    rcases List.mem_append.mp he with h | h
    · exact hres e h
    · rw [List.mem_singleton.mp h]
      exact hp
  | fuel + 1, pending, c :: rest, res => by
    intro hfuel hp hres
    by_cases hc : c = 44
    · subst hc
      have hlen := skip_blanks_length rest
      have hres1 : ∀ e ∈ res ++ [pending], 44 ∉ e := by
        intro e he
        rcases List.mem_append.mp he with h | h
        · exact hres e h
        · rw [List.mem_singleton.mp h]
          exact hp
      obtain ⟨v, hv, hl, hno, hj⟩ := sepstring_loop_spec fuel [] (skip_blanks rest)
        (res ++ [pending]) (by simp only [List.length_cons] at hfuel; omega) (by simp) hres1
      refine ⟨v, ?_, ?_, hno, ?_⟩
      · simp only [sepstring_loop, if_true, hv]
      · rw [hl, skip_blanks_count]
        simp only [List.length_append, List.length_singleton, List.count_cons_self]
        omega
      · rw [hj]
        have h2 : res ++ [pending] ++ [[]] = res ++ [pending, []] := by simp
        rw [h2, join_commas_append]
        simp only [strip_after_commas, Bool.false_and, if_true, List.append_assoc,
          List.cons_append, List.nil_append, strip_skip_blanks, Bool.false_eq_true, if_false]
    · have hp1 : 44 ∉ pending ++ [c] := by
        intro h
        rcases List.mem_append.mp h with h | h
        · exact hp h
        · exact hc (List.mem_singleton.mp h).symm
      obtain ⟨v, hv, hl, hno, hj⟩ := sepstring_loop_spec fuel (pending ++ [c]) rest res
        (by simp only [List.length_cons] at hfuel; omega) hp1 hres
      refine ⟨v, ?_, ?_, hno, ?_⟩
      · simp only [sepstring_loop, hc, if_false, hv]
      · rw [hl, List.count_cons_of_ne (fun e => hc e.symm)]
      · rw [hj, join_commas_snoc_append]
        simp [strip_after_commas, hc]

/-- C32: `sepstring (s)` returns NULL for a NULL and for an empty `s`; for every other `s`
    the loop ends (within `strlen (s) + 1` iterations) and the result is a vector of
    exactly (number of ',' in `s`) + 1 elements, none of which has a ',', and joining the
    elements with ',' gives `s` without the white space that follows a comma at once. -/
theorem sepstring_splits_at_commas (fuel : Nat) (s : CString) (hfuel : s.length < fuel) :
    sepstring fuel none = some none ∧
    sepstring fuel (some []) = some none ∧
    (s ≠ [] → ∃ v, sepstring fuel (some s) = some (some v) ∧
      v.length = s.count 44 + 1 ∧ (∀ e ∈ v, 44 ∉ e) ∧
      join_commas v = strip_after_commas false s) := by
  refine ⟨rfl, rfl, ?_⟩
  intro hne
  cases s with
  | nil => exact absurd rfl hne
  | cons c rest =>
    obtain ⟨v, hv, hl, hno, hj⟩ := sepstring_loop_spec fuel [] (c :: rest) [] hfuel (by simp)
      (by simp)
    refine ⟨v, ?_, ?_, hno, ?_⟩
    · simp [sepstring, hv]
    · rw [hl]
      simp
    · rw [hj]
      simp [join_commas]

theorem sepstring_splits_at_commas_witness :
    sepstring 20 (some (cstr "a, b c,,  d ,")) =
      some (some [cstr "a", cstr "b c", cstr "", cstr "d ", cstr ""]) ∧
    strip_after_commas false (cstr "a, b c,,  d ,") = cstr "a,b c,,d ," ∧
    ∃ v, sepstring 20 (some (cstr "a, b c,,  d ,")) = some (some v) ∧
      v.length = (cstr "a, b c,,  d ,").count 44 + 1 ∧ (∀ e ∈ v, 44 ∉ e) ∧
      join_commas v = strip_after_commas false (cstr "a, b c,,  d ,") :=
  ⟨by decide, by decide,
   (sepstring_splits_at_commas 20 (cstr "a, b c,,  d ,") (by decide)).2.2 (by decide)⟩

/-! ## Theorems about failed resolutions and the letter case of host names -/

/-- A call of `lookup_host` that returns NULL is a cache miss of a host name that is not
    numeric whose resolver call failed; it leaves the lists and the cache map as they were. -/
theorem lookup_host_null (env : HostEnv) (host : CString) (silent : Int) (s s1 : HostState)
    (h : lookup_host env host silent s = .ok (none, s1)) :
    env.inet_addr host % 4294967296 = 4294967295 ∧
    (s.host_name_addresses_map.bind fun ht => hash_table_get ht host) = none ∧
    (∀ vec, env.resolve s.resolver_calls host ≠ .hostent vec) ∧
    s1.heap = s.heap ∧ s1.host_name_addresses_map = s.host_name_addresses_map ∧
    s1.resolver_calls = s.resolver_calls + 1 := by
  by_cases hnum : env.inet_addr host % 4294967296 = 4294967295
  · cases hm : (s.host_name_addresses_map.bind fun ht => hash_table_get ht host) with
    | some q =>
      cases hq : s.deref q with
      | none =>
        unfold lookup_host at h
        simp [hnum, hm, hq] at h
      | some v =>
        unfold lookup_host at h
        simp [hnum, hm, hq] at h
    | none =>
      cases hres : env.resolve s.resolver_calls host with
      | timeout =>
        rw [lookup_host_timeout env host silent s hnum hm hres] at h
        simp only [Run.ok.injEq, Prod.mk.injEq, true_and] at h
        subst h
        exact ⟨hnum, rfl, by simp, rfl, rfl, rfl⟩
      | failure e =>
        refine ⟨hnum, rfl, by simp, ?_⟩
        by_cases hE : env.ETIMEDOUT = 0
        · unfold lookup_host at h
          by_cases hs : silent = 0 <;>
            simp [hnum, hm, hs, hE, gethostbyname_with_timeout, hres] at h <;>
            subst h <;> exact ⟨rfl, rfl, rfl⟩
        · rw [lookup_host_failure env host silent s e hE hnum hm hres] at h
          simp only [Run.ok.injEq, Prod.mk.injEq, true_and] at h
          subst h
          exact ⟨rfl, rfl, rfl⟩
      | hostent vec =>
        by_cases hvec : vec = []
        · subst hvec
          unfold lookup_host at h
          by_cases hs : silent = 0 <;>
            simp [hnum, hm, hs, gethostbyname_with_timeout, hres,
              address_list_from_ipv4_addresses] at h
        · rw [lookup_host_miss env host silent s vec hnum hm hres hvec] at h
          simp at h
  · rw [lookup_host_numeric env host silent s hnum] at h
    simp at h

/-- A cache miss of a host name that is not numeric whose resolver call fails makes
    `lookup_host` return NULL. -/
theorem lookup_host_fails (env : HostEnv) (host : CString) (silent : Int) (s : HostState)
    (hnum : env.inet_addr host % 4294967296 = 4294967295)
    (hmiss : (s.host_name_addresses_map.bind fun ht => hash_table_get ht host) = none)
    (hres : ∀ vec, env.resolve s.resolver_calls host ≠ .hostent vec) :
    ∃ s1, lookup_host env host silent s = .ok (none, s1) := by
  cases hr : env.resolve s.resolver_calls host with
  | timeout => exact ⟨_, lookup_host_timeout env host silent s hnum hmiss hr⟩
  | failure e =>
    by_cases hE : env.ETIMEDOUT = 0
    · unfold lookup_host
      by_cases hs : silent = 0 <;>
        simp [hnum, hmiss, hs, hE, gethostbyname_with_timeout, hr]
    · exact ⟨_, lookup_host_failure env host silent s e hE hnum hmiss hr⟩
  | hostent vec => exact absurd hr (hres vec)

/-- C34: a failed resolution leaves the cache as it was: whenever `lookup_host` returns NULL
    (which it does when the host name is not numeric, is not in the cache, and the resolver
    call times out or fails), the cache map is the one before the call and every list in
    memory, with its `refcount`, `faulty` and `connected` fields, is what it was. -/
theorem lookup_host_failure_atomic (env : HostEnv) (host : CString) (silent : Int)
    (s : HostState) :
    (∀ s1, lookup_host env host silent s = .ok (none, s1) →
      s1.host_name_addresses_map = s.host_name_addresses_map ∧ s1.heap = s.heap ∧
      ∀ p, s1.deref p = s.deref p) ∧
    (env.inet_addr host % 4294967296 = 4294967295 →
      (s.host_name_addresses_map.bind fun ht => hash_table_get ht host) = none →
      (∀ vec, env.resolve s.resolver_calls host ≠ .hostent vec) →
      ∃ s1, lookup_host env host silent s = .ok (none, s1) ∧
        s1.host_name_addresses_map = s.host_name_addresses_map ∧ s1.heap = s.heap) := by
  constructor
  · intro s1 h
    obtain ⟨-, -, -, hheap, hmap, -⟩ := lookup_host_null env host silent s s1 h
    exact ⟨hmap, hheap, fun p => deref_heap_eq s s1 p hheap⟩
  · intro hnum hmiss hres
    obtain ⟨s1, h⟩ := lookup_host_fails env host silent s hnum hmiss hres
    obtain ⟨-, -, -, hheap, hmap, -⟩ := lookup_host_null env host silent s s1 h
    exact ⟨s1, h, hmap, hheap⟩

theorem lookup_host_failure_atomic_witness :
    ∃ s1, lookup_host env_failing (cstr "nowhere.invalid") 0 cached_state = .ok (none, s1) ∧
      s1.host_name_addresses_map = cached_state.host_name_addresses_map ∧
      s1.heap = cached_state.heap :=
  (lookup_host_failure_atomic env_failing (cstr "nowhere.invalid") 0 cached_state).2
    (by decide) (by decide) (by
      intro vec
      simp [env_failing, cached_state])

theorem xstrdup_lower_idem (host : CString) :
    xstrdup_lower (xstrdup_lower host) = xstrdup_lower host := by
  simp [xstrdup_lower, List.map_map, Function.comp_def, TOLOWER_idem]

theorem cache_host_lookup_key (host : CString) (al : Nat) (s s1 : HostState)
    (h : cache_host_lookup host al s = .ok s1) :
    s1.host_name_addresses_map =
      some (hash_table_put (s.host_name_addresses_map.getD []) (xstrdup_lower host) al) := by
  unfold cache_host_lookup at h
  cases hd : s.deref al with
  | none => simp [hd] at h
  | some v =>
    simp only [hd, Run.ok.injEq] at h
    subst h
    cases hm : s.host_name_addresses_map <;> simp [hm, HostState.store]

/-- C35: the key that `cache_host_lookup` stores is `xstrdup_lower (host)`, the host name
    with every A-Z replaced by a-z, every other byte and the length unchanged, and
    `xstrdup_lower` is idempotent; after `lookup_host (h)` has resolved and cached `h`,
    `lookup_host (h1)` for a name `h1` that differs from `h` only in letter case returns the
    same list, makes no resolver call and leaves the cache map as it is. -/
theorem lookup_host_ignores_case (env : HostEnv) (host host1 : CString) (silent silent1 : Int)
    (s : HostState) (vec : List Nat) (hcache : env.dns_cache = true)
    (hnum : env.inet_addr host % 4294967296 = 4294967295)
    (hnum1 : env.inet_addr host1 % 4294967296 = 4294967295)
    (hmiss : (s.host_name_addresses_map.bind fun ht => hash_table_get ht host) = none)
    (hres : env.resolve s.resolver_calls host = .hostent vec) (hvec : vec ≠ [])
    (hcase : xstrdup_lower host1 = xstrdup_lower host) :
    (xstrdup_lower host).length = host.length ∧
    (∀ i : Nat, (xstrdup_lower host)[i]? =
      host[i]?.map fun c => if 65 ≤ c ∧ c ≤ 90 then c + 32 else c) ∧
    xstrdup_lower (xstrdup_lower host) = xstrdup_lower host ∧
    (∀ al s1 s2, cache_host_lookup host al s1 = .ok s2 → s2.host_name_addresses_map =
      some (hash_table_put (s1.host_name_addresses_map.getD []) (xstrdup_lower host) al)) ∧
    ∃ p s1 s2 al1 al2,
      lookup_host env host silent s = .ok (some p, s1) ∧
      lookup_host env host1 silent1 s1 = .ok (some p, s2) ∧
      hash_table_get (s1.host_name_addresses_map.getD []) host1 = some p ∧
      s1.deref p = some al1 ∧ s2.deref p = some al2 ∧
      al2.count = al1.count ∧ al2.addresses = al1.addresses ∧
      al1.addresses = vec.map ip_address.ipv4 ∧
      s2.resolver_calls = s1.resolver_calls ∧
      s2.host_name_addresses_map = s1.host_name_addresses_map := by
  refine ⟨by simp [xstrdup_lower], ?_, xstrdup_lower_idem host,
    fun al s1 s2 h => cache_host_lookup_key host al s1 s2 h, ?_⟩
  · intro i
    simp only [xstrdup_lower, List.getElem?_map]
    rfl
  · have h1 := lookup_host_miss env host silent s vec hnum hmiss hres hvec
    have hkey : same_key (xstrdup_lower host) host1 = true := by
      have : (xstrdup_lower host).map TOLOWER = host1.map TOLOWER := by
        have h2 := xstrdup_lower_idem host
        unfold xstrdup_lower at h2 hcase ⊢
        rw [h2, hcase]
      simp [same_key, this]
    have hmap : (miss_state env host silent s vec).host_name_addresses_map =
        some (hash_table_put (s.host_name_addresses_map.getD []) (xstrdup_lower host)
          s.heap.length) := by
      simp [miss_state, hcache]
    have hget := hash_table_get_put (s.host_name_addresses_map.getD []) (xstrdup_lower host)
      host1 s.heap.length hkey
    have hderef : (miss_state env host silent s vec).deref s.heap.length =
        some { count := vec.length, addresses := vec.map ip_address.ipv4, faulty := 0,
               connected := 0, refcount := 2 } := by
      simp [miss_state, HostState.deref, hcache]
    have h2 := lookup_host_hit env host1 silent1 (miss_state env host silent s vec) _
      s.heap.length _ hnum1 hmap hget hderef
    have hlt : s.heap.length < (miss_state env host silent s vec).heap.length := by
      simp [miss_state]
    obtain ⟨w, hw, hwc, hwa⟩ : ∃ w : address_list,
        lookup_host env host1 silent1 (miss_state env host silent s vec) =
          .ok (some s.heap.length, (miss_state env host silent s vec).store s.heap.length w) ∧
        w.count = (vec.length : Int) ∧ w.addresses = vec.map ip_address.ipv4 :=
      ⟨_, h2, rfl, rfl⟩
    have hget1 : hash_table_get
        ((miss_state env host silent s vec).host_name_addresses_map.getD []) host1 =
          some s.heap.length := by
      rw [hmap]
      exact hget
    have hd2 : ((miss_state env host silent s vec).store s.heap.length w).deref s.heap.length =
        some w := by
      rw [deref_store _ _ _ _ hlt, if_pos rfl]
    exact ⟨s.heap.length, _, _, _, w, h1, hw, hget1, hderef, hd2, hwc, hwa, rfl, rfl, rfl⟩

theorem lookup_host_ignores_case_witness :
    ∃ p s1 s2,
      lookup_host env_dns (cstr "Example.ORG") 1 initial_state = .ok (some p, s1) ∧
      lookup_host env_dns (cstr "eXAMPLE.org") 1 s1 = .ok (some p, s2) ∧
      s2.resolver_calls = s1.resolver_calls ∧
      s2.host_name_addresses_map = s1.host_name_addresses_map :=
  have h := (lookup_host_ignores_case env_dns (cstr "Example.ORG") (cstr "eXAMPLE.org") 1 1
    initial_state [1, 2] rfl (by decide) (by decide) (by decide) (by decide) (by decide)
    (by decide)).2.2.2.2
  match h with
  | ⟨p, s1, s2, _, _, h1, h2, _, _, _, _, _, _, h3, h4⟩ => ⟨p, s1, s2, h1, h2, h3, h4⟩

/-! ## Theorems about the lists and the counters that `parse_metalink` builds -/

theorem parse_file_readable (f : metalink_file_t) (h : readable f) :
    parse_file f = .ok (descriptor_of f) := by
  unfold parse_file descriptor_of
  cases hn : f.name with
  | none => rfl
  | some name =>
    cases hr : f.resources with
    | none => rfl
    | some rs =>
      have h1 := h (by simp [hn]) (by simp [hr])
      cases hc : f.checksums with
      | none => simp [hc] at h1
      | some cs =>
        have hchunk : parse_chunk_checksum f.chunk_checksum = .ok none := by
          unfold parse_chunk_checksum
          cases hcc : f.chunk_checksum with
          | none => rfl
          | some cc =>
            cases ht : cc.type with
            | none => simp [ht]
            | some t =>
              have h2 := h1.2 cc hcc (by simp [ht])
              cases hp : cc.piece_hashes with
              | none => simp [hp] at h2
              | some ps => simp [ht, hp]
        simp [hchunk, parse_resources_spec, parse_checksums_spec]

theorem parse_files_spec (fs : List metalink_file_t) :
    ∀ m : mlink, (∀ f ∈ fs, readable f) →
      parse_files fs m =
        .ok { m with files := (fs.filterMap descriptor_of).reverse ++ m.files,
                     num_of_files := m.num_of_files + ((fs.filterMap descriptor_of).length : Int) }
    := by
  induction fs with
  | nil => intro m _; simp [parse_files]
  | cons f rest ih =>
    intro m h
    have hf := parse_file_readable f (h f (List.mem_cons_self _ _))
    have hrest : ∀ g ∈ rest, readable g := fun g hg => h g (List.mem_cons_of_mem _ hg)
    cases hd : descriptor_of f with
    | none =>
      rw [hd] at hf
      simp only [parse_files, hf, ih m hrest, List.filterMap_cons, hd]
    | some d =>
      rw [hd] at hf
      simp only [parse_files, hf, ih _ hrest, List.filterMap_cons, hd, List.reverse_cons,
        List.append_assoc, List.singleton_append, List.length_cons, Run.ok.injEq,
        mlink.mk.injEq, true_and]
      push_cast
      ring

/-- With the block that `malloc (sizeof(mlink))` asks for, `parse_metalink` leaves the block
    for every manifest that has a files array. -/
theorem parse_metalink_leaves_block (ml : metalink_t) (fs : List metalink_file_t)
    (hfiles : ml.files = some fs) : parse_metalink 0 (some ml) = .fault .out_of_bounds := by
  unfold parse_metalink parse_metalink_block
  simp [hfiles, SIZEOF_POINTER, SIZEOF_MLINK]

/-- With a block of the size of the structure, `parse_metalink` reads a readable manifest to
    the end. -/
theorem parse_metalink_spec (block : Nat) (hblock : SIZEOF_MLINK ≤ block) (ml : metalink_t)
    (fs : List metalink_file_t) (hfiles : ml.files = some fs)
    (hread : ∀ f ∈ fs, readable f) :
    parse_metalink_block block 0 (some ml) =
      .ok (some { identity := ml.identity, tags := ml.tags,
                  files := (fs.filterMap descriptor_of).reverse,
                  num_of_files := ((fs.filterMap descriptor_of).length : Int) }) := by
  unfold parse_metalink_block
  have hb : ¬ block < SIZEOF_MLINK := Nat.not_lt.mpr hblock
  simp [hfiles, hb, parse_files_spec fs _ hread]

/-- The counters of the result of `parse_metalink` on a manifest it can read, with a block
    of the size of the structure: `num_of_files` and `num_of_res` are the lengths of their
    lists, `num_of_checksums` is 0. -/
theorem parse_metalink_counters (block : Nat) (hblock : SIZEOF_MLINK ≤ block)
    (ml : metalink_t) (fs : List metalink_file_t) (m : mlink)
    (hfiles : ml.files = some fs) (hread : ∀ f ∈ fs, readable f)
    (h : parse_metalink_block block 0 (some ml) = .ok (some m)) :
    m.num_of_files = (m.files.length : Int) ∧
    ∀ d ∈ m.files, d.num_of_res = (d.resources.length : Int) ∧ d.num_of_checksums = 0 := by
  rw [parse_metalink_spec block hblock ml fs hfiles hread] at h
  simp only [Run.ok.injEq, Option.some.injEq] at h
  subst h
  refine ⟨by simp, ?_⟩
  intro d hd
  simp only [List.mem_reverse, List.mem_filterMap] at hd
  obtain ⟨f, -, hfd⟩ := hd
  unfold descriptor_of at hfd
  cases hn : f.name with
  | none => simp [hn] at hfd
  | some name =>
    cases hr : f.resources with
    | none => simp [hn, hr] at hfd
    | some rs =>
      cases hc : f.checksums with
      | none => simp [hn, hr, hc] at hfd
      | some cs =>
        simp only [hn, hr, hc, Option.some.injEq] at hfd
        subst hfd
        simp

/-- C38 (the claim fails on the code): for a manifest file with two resources that have a
    URL and two checksums that have a type and a hash, the descriptor has two locations
    with `num_of_res` 2 and `num_of_files` is 1, but `num_of_checksums` is 0 although the
    checksums list has two records: the loop over the checksums never counts. This is
    stated for a block of the size of the structure behind `mlink`; with the block of
    `malloc (sizeof(mlink))`, the size of a pointer, the call leaves the block and no
    counter has a defined value. -/
theorem parse_metalink_checksum_counter_stays_zero :
    parse_metalink_block SIZEOF_MLINK 0 (some (manifest_of [manifest_file_ordered])) =
      .ok (some { identity := none, tags := none, files := [descriptor_ordered],
                  num_of_files := 1 }) ∧
    parse_metalink 0 (some (manifest_of [manifest_file_ordered])) = .fault .out_of_bounds ∧
    descriptor_ordered.resources.length = 2 ∧ descriptor_ordered.num_of_res = 2 ∧
    descriptor_ordered.checksums.length = 2 ∧ descriptor_ordered.num_of_checksums = 0 := by
  decide

/-- With a block of the size of the structure, the files of the result are the descriptors of
    the files that are not skipped, in reverse order; in every descriptor the locations are
    the resources with a URL in reverse order and the checksum records are the checksums
    with a type and a hash in reverse order, so the first location is the last resource
    with a URL of the manifest file. -/
theorem parse_metalink_block_reverses_order (block : Nat) (hblock : SIZEOF_MLINK ≤ block)
    (ml : metalink_t) (fs : List metalink_file_t)
    (hfiles : ml.files = some fs) (hread : ∀ f ∈ fs, readable f) :
    (∃ m, parse_metalink_block block 0 (some ml) = .ok (some m) ∧
      m.files = (fs.filterMap descriptor_of).reverse) ∧
    (∀ f ∈ fs, ∀ name rs cs, f.name = some name → f.resources = some rs →
      f.checksums = some cs →
      ∃ d, parse_file f = .ok (some d) ∧ descriptor_of f = some d ∧
        d.resources = (rs.filterMap copy_resource).reverse ∧
        d.checksums = (cs.filterMap copy_checksum).reverse ∧
        d.resources.head? = (rs.filterMap copy_resource).getLast?) ∧
    (∀ f ∈ fs, f.name = none ∨ f.resources = none → descriptor_of f = none) := by
  refine ⟨⟨_, parse_metalink_spec block hblock ml fs hfiles hread, rfl⟩, ?_, ?_⟩
  · intro f hf name rs cs hn hr hc
    have hp := parse_file_readable f (hread f hf)
    have hd : descriptor_of f = some
        { name := name, size := f.size, maxconnections := f.maxconnections,
          version := f.version, language := f.language, os := f.os,
          resources := (rs.filterMap copy_resource).reverse,
          checksums := (cs.filterMap copy_checksum).reverse,
          chunk_checksum := none,
          num_of_res := ((rs.filterMap copy_resource).length : Int),
          num_of_checksums := 0 } := by
      simp [descriptor_of, hn, hr, hc]
    rw [hd] at hp
    exact ⟨_, hp, hd, rfl, rfl, by simp [List.head?_reverse]⟩
  · intro f _ h
    rcases h with h | h
    · simp [descriptor_of, h]
    · cases hn : f.name <;> simp [descriptor_of, h, hn]

/-- C39 (the claim fails on the code): `parse_metalink` asks for the block of its result with
    `malloc (sizeof(mlink))`, where `mlink` is the variable, a pointer of 8 bytes, and not
    the structure of 32 bytes, so the stores to `mlink->tags`, `mlink->files` and
    `mlink->num_of_files` go behind the block: for the manifest of the file
    `manifest_file_ordered` the call leaves the block and stores no list in a result. With
    a block of the size of the structure the result holds the locations "u2", "u1" and the
    checksums sha1, md5, the reverse of the order "u1", "u2" and md5, sha1 of the
    manifest. -/
theorem parse_metalink_result_block_too_small :
    SIZEOF_POINTER < SIZEOF_MLINK ∧
    parse_metalink 0 (some (manifest_of [manifest_file_ordered])) = .fault .out_of_bounds ∧
    parse_metalink_block SIZEOF_POINTER 0 (some (manifest_of [manifest_file_ordered])) =
      .fault .out_of_bounds ∧
    parse_metalink_block SIZEOF_MLINK 0 (some (manifest_of [manifest_file_ordered])) =
      .ok (some mlink_ordered) ∧
    (mlink_ordered.files.map fun f => f.resources.map fun r => r.url) =
      [[cstr "u2", cstr "u1"]] ∧
    (mlink_ordered.files.map fun f => f.checksums.map fun c => c.type) =
      [[cstr "sha1", cstr "md5"]] := by
  decide

/-! ## Theorems about `elect_resources` and `elect_checksums` on the results of
`parse_metalink` -/

/-- C36 (the claim fails on the code): on results of `parse_metalink` (those that it builds
    in a block of the size of the structure), `elect_resources` and `elect_checksums` leave
    the defined behaviour. For a file with two locations of the
    type http and the checksums sha1 and md5, each function frees the second record and
    reads it again, because the loop does not move on after `free`. For a file whose
    resources array and checksums array are empty, both lists are NULL and `prev->next` is
    read through NULL. For a file whose only location has no type, `strcmp` is called with
    NULL. -/
theorem elect_functions_not_total :
    parse_metalink_block SIZEOF_MLINK 0 (some (manifest_of [manifest_file_ordered])) =
      .ok (some mlink_ordered) ∧
    elect_resources 10 (resource_lists mlink_ordered) = some (.fault .dangling) ∧
    elect_checksums 10 (checksum_lists mlink_ordered) = some (.fault .dangling) ∧
    parse_metalink_block SIZEOF_MLINK 0
        (some (manifest_of [manifest_file (some []) (some [])])) =
      .ok (some (mlink_untyped [])) ∧
    elect_resources 10 (resource_lists (mlink_untyped [])) = some (.fault .null_pointer) ∧
    elect_checksums 10 (checksum_lists (mlink_untyped [])) = some (.fault .null_pointer) ∧
    parse_metalink_block SIZEOF_MLINK 0 (some (manifest_of [manifest_file
      (some [{ manifest_resource "u" with type := none }]) (some [])])) =
      .ok (some (mlink_untyped ["u"])) ∧
    elect_resources 10 (resource_lists (mlink_untyped ["u"])) = some (.fault .null_pointer) := by
  decide

/-! ## Theorems about what `verify_file_hash` leaves in the checksum list -/

theorem lower_byte_idem (c : Nat) : lower_byte (lower_byte c) = lower_byte c := by
  unfold lower_byte
  split_ifs <;> omega

/-- Lowering the first `n` bytes a second time changes nothing. -/
theorem lower_first_bytes_idem (hash : CString) (n : Nat) :
    ((((hash.take n).map lower_byte ++ hash.drop n).take n).map lower_byte ++
      ((hash.take n).map lower_byte ++ hash.drop n).drop n) =
      (hash.take n).map lower_byte ++ hash.drop n := by
  by_cases h : n ≤ hash.length
  · have hl : ((hash.take n).map lower_byte).length = n := by simp [h]
    rw [List.take_left' hl, List.drop_left' hl, List.map_map]
    congr 1
    apply List.map_congr_left
    intro c _
    exact lower_byte_idem c
  · have h1 : hash.length ≤ n := by omega
    rw [List.take_of_length_le h1, List.drop_of_length_le h1, List.append_nil]
    have hl : (hash.map lower_byte).length ≤ n := by simpa using h1
    rw [List.take_of_length_le hl, List.drop_of_length_le hl, List.append_nil, List.map_map]
    apply List.map_congr_left
    intro c _
    exact lower_byte_idem c

/-- The function `lower_hex_case`, where it stays inside the buffer, lowers the letters A-Z
    among the first `length` bytes, changes no other byte, and is idempotent. -/
theorem lower_hex_case_idem (hash lowered : CString) (n : Nat)
    (h : lower_hex_case hash n = .ok lowered) :
    lowered = (hash.take n).map lower_byte ++ hash.drop n ∧
    lowered.length = hash.length ∧
    lower_hex_case lowered n = .ok lowered := by
  unfold lower_hex_case at h ⊢
  rw [lower_hex_case_loop_spec] at h
  by_cases hn : n ≤ hash.length + 1
  · simp only [hn, if_true, Run.ok.injEq] at h
    subst h
    have hlen : ((hash.take n).map lower_byte ++ hash.drop n).length = hash.length := by
      simp only [List.length_append, List.length_map, List.length_take, List.length_drop]
      omega
    refine ⟨rfl, hlen, ?_⟩
    rw [lower_hex_case_loop_spec, hlen, if_pos hn, lower_first_bytes_idem]
  · simp [hn] at h

/-- A comparison that returns gives the same result on the digest it leaves, and leaves it
    as it is. -/
theorem digest_compare_again (stream : List Nat → Option (Nat → Nat)) (size : Nat)
    (file : List Nat) (hash hash1 : CString) (res : Int)
    (h : digest_compare stream size file hash = .ok (res, hash1)) :
    digest_compare stream size file hash1 = .ok (res, hash1) ∧
    (hash1 = hash ∨ hash1 = (hash.take (2 * size)).map lower_byte ++ hash.drop (2 * size)) := by
  unfold digest_compare at h ⊢
  cases hs : stream file with
  | none =>
    simp only [hs, Run.ok.injEq, Prod.mk.injEq] at h
    obtain ⟨rfl, rfl⟩ := h
    exact ⟨rfl, Or.inl rfl⟩
  | some hash_raw =>
    simp only [hs] at h ⊢
    cases hl : lower_hex_case hash (2 * size) with
    | fault f => simp [hl] at h
    | ok lowered =>
      obtain ⟨hform, -, hidem⟩ := lower_hex_case_idem hash lowered (2 * size) hl
      rw [hl] at h
      dsimp only at h
      by_cases hcmp : strcmp lowered (hex_encode hash_raw size) ≠ 0
      · rw [if_pos hcmp] at h
        simp only [Run.ok.injEq, Prod.mk.injEq] at h
        obtain ⟨rfl, rfl⟩ := h
        refine ⟨?_, Or.inr hform⟩
        rw [hidem]
        dsimp only
        rw [if_pos hcmp]
      · rw [if_neg hcmp] at h
        simp only [Run.ok.injEq, Prod.mk.injEq] at h
        obtain ⟨rfl, rfl⟩ := h
        refine ⟨?_, Or.inr hform⟩
        rw [hidem]
        dsimp only
        rw [if_neg hcmp]

theorem compare_hash_again (env : HashEnv) (filename : CString) (j : Nat)
    (hash hash1 : CString) (res : Int)
    (h : compare_hash env filename j hash = .ok (res, hash1)) :
    compare_hash env filename j hash1 = .ok (res, hash1) ∧
    (hash1 = hash ∨ ∃ size, digest_sizes[j]? = some size ∧
      hash1 = (hash.take (2 * size)).map lower_byte ++ hash.drop (2 * size)) := by
  unfold compare_hash at h ⊢
  cases hf : env.fopen filename with
  | none =>
    simp only [hf, Run.ok.injEq, Prod.mk.injEq] at h
    obtain ⟨rfl, rfl⟩ := h
    exact ⟨rfl, Or.inl rfl⟩
  | some file =>
    simp only [hf] at h ⊢
    cases hst : (hash_function env)[j]? with
    | none => simp [hst] at h
    | some stream =>
      cases hsz : digest_sizes[j]? with
      | none => simp [hst, hsz] at h
      | some size =>
        simp only [hst, hsz] at h ⊢
        obtain ⟨h1, h2⟩ := digest_compare_again stream size file hash hash1 res h
        refine ⟨h1, ?_⟩
        rcases h2 with h2 | h2
        · exact Or.inl h2
        · exact Or.inr ⟨size, rfl, h2⟩

theorem index_of_type_types (t : CString) : ∀ (cs cs1 : List mlink_checksum) (ptr : Nat),
    cs.map (fun c => c.type) = cs1.map (fun c => c.type) →
    index_of_type t cs ptr = index_of_type t cs1 ptr
  | [], [], _ => fun _ => rfl
  | [], _ :: _, _ => fun h => by simp at h
  | _ :: _, [], _ => fun h => by simp at h
  | c :: cs, c1 :: cs1, ptr => fun h => by
    simp only [List.map_cons, List.cons.injEq] at h
    simp only [index_of_type, h.1, index_of_type_types t cs cs1 (ptr + 1) h.2]

theorem count_type_types (t : CString) : ∀ (cs cs1 : List mlink_checksum),
    cs.map (fun c => c.type) = cs1.map (fun c => c.type) → count_type cs t = count_type cs1 t
  | [], [], _ => rfl
  | [], _ :: _, h => by simp at h
  | _ :: _, [], h => by simp at h
  | c :: cs, c1 :: cs1, h => by
    simp only [List.map_cons, List.cons.injEq] at h
    simp only [count_type_cons, h.1, count_type_types t cs cs1 h.2]

theorem set_hash_types (cs : List mlink_checksum) (p : Nat) (c : mlink_checksum)
    (hash1 : CString) (hc : cs[p]? = some c) :
    (cs.set p { c with hash := hash1 }).map (fun c => c.type) = cs.map (fun c => c.type) := by
  rw [List.map_set]
  apply list_set_self
  simp [List.getElem?_map, hc]

/-- What a call of `verify_file_hash` that returns leaves behind: the checksum list is
    unchanged but for the digest of the elected record, in which the first `2 * size` bytes
    are lowered, and a second call on the list it leaves returns the same value and leaves
    the list as it is. -/
theorem verify_file_hash_run_frame (env : HashEnv) (filename : CString)
    (cs cs1 : List mlink_checksum) (r : Int)
    (h : verify_file_hash_run env filename cs = .ok (r, cs1)) :
    (cs1 = cs ∨ ∃ j p c size, elected cs = some (j, p) ∧ cs[p]? = some c ∧
      digest_sizes[j]? = some size ∧
      cs1 = cs.set p { c with hash :=
        (c.hash.take (2 * size)).map lower_byte ++ c.hash.drop (2 * size) }) ∧
    verify_file_hash_run env filename cs1 = .ok (r, cs1) := by
  by_cases hne : cs = []
  · subst hne
    simp only [verify_file_hash_run, if_true, Run.ok.injEq, Prod.mk.injEq] at h
    obtain ⟨rfl, rfl⟩ := h
    exact ⟨Or.inl rfl, by simp [verify_file_hash_run]⟩
  by_cases hnd : no_duplicate_type cs
  · rw [verify_run_no_duplicate env filename cs hne hnd] at h
    cases he : elected cs with
    | none => simp [he] at h
    | some jp =>
      obtain ⟨j, p⟩ := jp
      simp only [he] at h
      cases hc : cs[p]? with
      | none => simp [hc] at h
      | some c =>
        simp only [hc] at h
        cases hcmp : compare_hash env filename j c.hash with
        | fault f => simp [hcmp] at h
        | ok rh =>
          obtain ⟨res, hash1⟩ := rh
          simp only [hcmp, Run.ok.injEq, Prod.mk.injEq] at h
          obtain ⟨rfl, rfl⟩ := h
          obtain ⟨hagain, hform⟩ := compare_hash_again env filename j c.hash hash1 res hcmp
          have htypes := set_hash_types cs p c hash1 hc
          have hp : p < cs.length := by
            by_contra hge
            rw [List.getElem?_eq_none (by omega)] at hc
            exact absurd hc (by simp)
          constructor
          · rcases hform with hf | ⟨size, hsz, hf⟩
            · left
              rw [hf]
              exact list_set_self cs p c hc
            · right
              exact ⟨j, p, c, size, rfl, hc, hsz, by rw [hf]⟩
          · have hne1 : cs.set p { c with hash := hash1 } ≠ [] := by
              intro e
              have := congrArg List.length e
              simp only [List.length_set, List.length_nil] at this
              omega
            have hnd1 : no_duplicate_type (cs.set p { c with hash := hash1 }) := by
              rw [no_duplicate_type_iff] at hnd ⊢
              rw [count_type_types _ _ _ htypes, count_type_types _ _ _ htypes,
                count_type_types _ _ _ htypes]
              exact hnd
            have he1 : elected (cs.set p { c with hash := hash1 }) = some (j, p) := by
              rw [← he]
              unfold elected
              rw [index_of_type_types _ _ _ 0 htypes, index_of_type_types _ _ _ 0 htypes,
                index_of_type_types _ _ _ 0 htypes]
            have hc1 : (cs.set p { c with hash := hash1 })[p]? =
                some { c with hash := hash1 } := by
              simp [List.getElem?_set, hp]
            rw [verify_run_no_duplicate env filename _ hne1 hnd1]
            simp only [he1, hc1, hagain, List.set_set]
  · rw [verify_run_duplicate env filename cs hnd] at h
    simp only [Run.ok.injEq, Prod.mk.injEq] at h
    obtain ⟨rfl, rfl⟩ := h
    exact ⟨Or.inl rfl, verify_run_duplicate env filename cs hnd⟩

/-- C37 (the claim fails on the code): for the md5 record with the digest "ABAB" the call
    `lower_hex_case (hash, 32)` goes through 32 bytes of a buffer of 5 bytes, so
    `verify_file_hash` reads, and lowers where it finds a letter A-Z, bytes that are not
    part of the digest string of the elected record. For a digest of 32 characters the
    call returns and leaves the list with the digest lowered, and a second call returns
    the same value. -/
theorem verify_file_hash_run_short_digest :
    lower_hex_case (cstr "ABAB") (2 * MD5_DIGEST_SIZE) = .fault .out_of_bounds ∧
    verify_file_hash_run env_ab (cstr "f") [⟨cstr "md5", cstr "ABAB"⟩] =
      .fault .out_of_bounds ∧
    verify_file_hash_run env_ab (cstr "f")
        [⟨cstr "md5", cstr "ABABABABABABABABABABABABABABABAB"⟩] =
      .ok (0, [⟨cstr "md5", cstr "abababababababababababababababab"⟩]) ∧
    verify_file_hash_run env_ab (cstr "f")
        [⟨cstr "md5", cstr "abababababababababababababababab"⟩] =
      .ok (0, [⟨cstr "md5", cstr "abababababababababababababababab"⟩]) := by
  decide

/-! ## Theorems about the reference counts of the cached lists -/

theorem same_key_iff (a b : CString) :
    same_key a b = true ↔ a.map TOLOWER = b.map TOLOWER := by
  simp [same_key]

theorem same_key_false_iff (a b : CString) :
    same_key a b = false ↔ a.map TOLOWER ≠ b.map TOLOWER := by
  simp [same_key]

theorem hash_table_get_none (ht : hash_table) (host : CString)
    (h : hash_table_get ht host = none) : ∀ e ∈ ht, same_key e.1 host = false := by
  unfold hash_table_get at h
  simp only [Option.map_eq_none', List.find?_eq_none] at h
  intro e he
  simpa using h e he

theorem hash_table_get_mem (ht : hash_table) (host : CString) (p : Nat)
    (h : hash_table_get ht host = some p) : p ∈ ht.map Prod.snd := by
  unfold hash_table_get at h
  simp only [Option.map_eq_some'] at h
  obtain ⟨e, he, rfl⟩ := h
  exact List.mem_map.mpr ⟨e, List.mem_of_find?_eq_some he, rfl⟩

/-- A key that is not in the table is added by `hash_table_put` as one more entry. -/
theorem hash_table_put_absent (ht : hash_table) (host : CString) (p : Nat)
    (h : hash_table_get ht host = none) :
    hash_table_put ht (xstrdup_lower host) p = (xstrdup_lower host, p) :: ht := by
  unfold hash_table_put
  congr 1
  rw [List.filter_eq_self]
  intro e he
  have h1 := (same_key_false_iff _ _).mp (hash_table_get_none ht host h e he)
  have h2 : (xstrdup_lower host).map TOLOWER = host.map TOLOWER := by
    have := xstrdup_lower_idem host
    unfold xstrdup_lower at this ⊢
    exact this
  have : same_key e.1 (xstrdup_lower host) = false := by
    rw [same_key_false_iff, h2]
    exact h1
  simp [this]

/-- With pairwise distinct keys, `hash_table_remove` takes out exactly the entry that
    `hash_table_get` finds. -/
theorem hash_table_remove_count (host : CString) (p : Nat) : ∀ (ht : hash_table),
    ht.Pairwise (fun a b => same_key a.1 b.1 = false) → hash_table_get ht host = some p →
    ∀ q, ((hash_table_remove ht host).map Prod.snd).count q + (if q = p then 1 else 0) =
      (ht.map Prod.snd).count q
  | [], _, h => by simp [hash_table_get] at h
  | e :: rest, hk, h => by
    intro q
    rw [List.pairwise_cons] at hk
    by_cases hs : same_key e.1 host = true
    · have hp : e.2 = p := by
        simpa [hash_table_get, List.find?, hs] using h
      have hrest : (rest.filter fun x => !same_key x.1 host) = rest := by
        rw [List.filter_eq_self]
        intro x hx
        have h1 := (same_key_false_iff _ _).mp (hk.1 x hx)
        have h2 := (same_key_iff _ _).mp hs
        have : same_key x.1 host = false := by
          rw [same_key_false_iff]
          intro h3
          exact h1 (h2.trans h3.symm)
        simp [this]
      simp only [hash_table_remove, List.filter_cons, hs, Bool.not_true, Bool.false_eq_true,
        if_false, hrest, List.map_cons, List.count_cons, hp, beq_iff_eq]
      by_cases hq : q = p
      · simp [hq]
      · have : ¬ p = q := fun e => hq e.symm
        simp [hq, this]
    · have hs1 : same_key e.1 host = false := by simpa using hs
      have hget : hash_table_get rest host = some p := by
        simpa [hash_table_get, List.find?, hs1] using h
      have ih := hash_table_remove_count host p rest hk.2 hget q
      simp only [hash_table_remove] at ih
      simp only [hash_table_remove, List.filter_cons, hs1, Bool.not_false, if_true,
        List.map_cons, List.count_cons]
      omega

theorem hash_table_remove_pairwise (ht : hash_table) (host : CString)
    (hk : ht.Pairwise (fun a b => same_key a.1 b.1 = false)) :
    (hash_table_remove ht host).Pairwise (fun a b => same_key a.1 b.1 = false) :=
  hk.sublist (List.filter_sublist _)

theorem hash_table_remove_nodup (ht : hash_table) (host : CString)
    (hv : (ht.map Prod.snd).Nodup) : ((hash_table_remove ht host).map Prod.snd).Nodup :=
  hv.sublist ((List.filter_sublist _).map _)

/-- The four ways in which `lookup_host` returns: a new list that is not cached (a numeric
    host name, or caching is off), one more reference to a cached list, a failure, or a
    new list that is cached. -/
theorem lookup_host_cases (env : HostEnv) (host : CString) (silent : Int) (s s1 : HostState)
    (r : Option Nat) (h : lookup_host env host silent s = .ok (r, s1)) :
    (r = some s.heap.length ∧ s1.host_name_addresses_map = s.host_name_addresses_map ∧
      ∃ v, s1.heap = s.heap ++ [some v] ∧ v.refcount = 1) ∨
    (∃ q v, r = some q ∧ q ∈ cached_pointers s ∧ s.deref q = some v ∧
      s1.host_name_addresses_map = s.host_name_addresses_map ∧
      s1.heap = s.heap.set q (some { v with refcount := v.refcount + 1 })) ∨
    (r = none ∧ s1.host_name_addresses_map = s.host_name_addresses_map ∧ s1.heap = s.heap) ∨
    (r = some s.heap.length ∧
      hash_table_get (s.host_name_addresses_map.getD []) host = none ∧
      s1.host_name_addresses_map =
        some (hash_table_put (s.host_name_addresses_map.getD []) (xstrdup_lower host)
          s.heap.length) ∧
      ∃ v, s1.heap = s.heap ++ [some v] ∧ v.refcount = 2) := by
  by_cases hnum : env.inet_addr host % 4294967296 = 4294967295
  · cases hm : (s.host_name_addresses_map.bind fun ht => hash_table_get ht host) with
    | some q =>
      cases hq : s.deref q with
      | none =>
        unfold lookup_host at h
        simp [hnum, hm, hq] at h
      | some v =>
        unfold lookup_host at h
        simp only [hnum, ne_eq, not_true_eq_false, if_false, hm, hq, Run.ok.injEq,
          Prod.mk.injEq] at h
        obtain ⟨rfl, rfl⟩ := h
        right; left
        refine ⟨q, v, rfl, ?_, hq, rfl, rfl⟩
        cases hmap : s.host_name_addresses_map with
        | none => simp [hmap] at hm
        | some ht =>
          simp only [hmap, Option.bind_some] at hm
          simpa [cached_pointers, hmap] using hash_table_get_mem ht host q hm
    | none =>
      have hget : hash_table_get (s.host_name_addresses_map.getD []) host = none := by
        cases hmap : s.host_name_addresses_map with
        | none => simp [hash_table_get]
        | some ht => simpa [hmap] using hm
      cases hres : env.resolve s.resolver_calls host with
      | hostent vec =>
        by_cases hvec : vec = []
        · subst hvec
          unfold lookup_host at h
          by_cases hs : silent = 0 <;>
            simp [hnum, hm, hs, gethostbyname_with_timeout, hres,
              address_list_from_ipv4_addresses] at h
        · rw [lookup_host_miss env host silent s vec hnum hm hres hvec] at h
          simp only [Run.ok.injEq, Prod.mk.injEq] at h
          obtain ⟨rfl, rfl⟩ := h
          obtain ⟨v, hv1, hv2⟩ : ∃ v, (miss_state env host silent s vec).heap =
              s.heap ++ [some v] ∧ v.refcount = (if env.dns_cache then 2 else 1) :=
            ⟨_, rfl, rfl⟩
          by_cases hc : env.dns_cache = true
          · right; right; right
            rw [if_pos hc] at hv2
            exact ⟨rfl, hget, by simp [miss_state, hc], v, hv1, hv2⟩
          · left
            rw [if_neg hc] at hv2
            exact ⟨rfl, by simp [miss_state, hc], v, hv1, hv2⟩
      | timeout =>
        cases r with
        | some q =>
          rw [lookup_host_timeout env host silent s hnum hm hres] at h
          simp at h
        | none =>
          obtain ⟨-, -, -, hheap, hmap, -⟩ := lookup_host_null env host silent s s1 h
          exact Or.inr (Or.inr (Or.inl ⟨rfl, hmap, hheap⟩))
      | failure e =>
        cases r with
        | some q =>
          obtain ⟨s2, h2⟩ := lookup_host_fails env host silent s hnum hm
            (by intro vec; rw [hres]; simp)
          rw [h2] at h
          simp at h
        | none =>
          obtain ⟨-, -, -, hheap, hmap, -⟩ := lookup_host_null env host silent s s1 h
          exact Or.inr (Or.inr (Or.inl ⟨rfl, hmap, hheap⟩))
  · rw [lookup_host_numeric env host silent s hnum] at h
    simp only [Run.ok.injEq, Prod.mk.injEq] at h
    obtain ⟨rfl, rfl⟩ := h
    left
    exact ⟨rfl, rfl, _, rfl, rfl⟩

theorem deref_heap_push (s s1 : HostState) (v : address_list)
    (h : s1.heap = s.heap ++ [some v]) (p : Nat) :
    s1.deref p = if p = s.heap.length then some v else s.deref p := by
  unfold HostState.deref
  rw [h]
  by_cases hp : p = s.heap.length
  · subst hp
    simp
  · rw [if_neg hp]
    by_cases hlt : p < s.heap.length
    · rw [List.getElem?_append_left hlt]
    · have h1 : (s.heap ++ [some v])[p]? = none :=
        List.getElem?_eq_none (by simp only [List.length_append, List.length_singleton]; omega)
      have h2 : s.heap[p]? = none := List.getElem?_eq_none (by omega)
      rw [h1, h2]

theorem deref_beyond (s : HostState) (p : Nat) (h : s.heap.length ≤ p) : s.deref p = none := by
  unfold HostState.deref
  rw [List.getElem?_eq_none h]
  rfl

theorem release_effect (al : Nat) (s s1 : HostState) (h : address_list_release al s = .ok s1) :
    ∃ v, s.deref al = some v ∧ s1.host_name_addresses_map = s.host_name_addresses_map ∧
      ∀ q, s1.deref q =
        if q = al then
          (if v.refcount - 1 ≤ 0 then none else some { v with refcount := v.refcount - 1 })
        else s.deref q := by
  unfold address_list_release at h
  cases hd : s.deref al with
  | none => simp [hd] at h
  | some v =>
    refine ⟨v, rfl, ?_⟩
    have hlt := deref_lt s al v hd
    by_cases hr : v.refcount - 1 ≤ 0
    · simp only [hd, hr, if_true, Run.ok.injEq] at h
      subst h
      refine ⟨rfl, ?_⟩
      intro q
      rw [deref_delete, deref_store s al q _ hlt]
      by_cases hq : q = al
      · rw [if_pos hq, if_pos hq, if_pos hr]
      · rw [if_neg hq, if_neg hq, if_neg hq]
    · simp only [hd, hr, if_false, Run.ok.injEq] at h
      subst h
      refine ⟨rfl, ?_⟩
      intro q
      rw [deref_store s al q _ hlt]
      by_cases hq : q = al
      · rw [if_pos hq, if_pos hq, if_neg hr]
      · rw [if_neg hq, if_neg hq]

/-- The invariant holds at program start. -/
theorem cache_invariant_start : cache_invariant client_start := by
  refine ⟨by simp [client_start, initial_state], by simp [client_start, initial_state,
    cached_pointers], ?_⟩
  intro p
  constructor
  · intro v hv
    simp [client_start, initial_state, HostState.deref] at hv
  · intro _
    simp [references, cached_pointers, client_start, initial_state]

/-- A call of `lookup_host` that returns keeps the invariant, the returned list being one
    more reference of the callers. -/
theorem cache_invariant_lookup (env : HostEnv) (host : CString) (silent : Int) (c : Client)
    (r : Option Nat) (s1 : HostState) (hinv : cache_invariant c)
    (h : lookup_host env host silent c.state = .ok (r, s1)) :
    cache_invariant { state := s1, held := match r with
                                           | none => c.held
                                           | some al => al :: c.held } := by
  obtain ⟨hK, hV, hR⟩ := hinv
  have hnew : references c c.state.heap.length = 0 :=
    (hR _).2 (deref_beyond c.state _ (le_refl _))
  rcases lookup_host_cases env host silent c.state s1 r h with
    ⟨rfl, hmap, v, hheap, hv⟩ | ⟨q, v, rfl, hq, hd, hmap, hheap⟩ | ⟨rfl, hmap, hheap⟩ |
    ⟨rfl, hget, hmap, v, hheap, hv⟩
  · refine ⟨by simpa [hmap] using hK, by simpa [cached_pointers, hmap] using hV, ?_⟩
    intro p
    have hrefs : references { state := s1, held := c.state.heap.length :: c.held } p =
        references c p + (if p = c.state.heap.length then 1 else 0) := by
      simp only [references, cached_pointers, hmap, List.count_cons, beq_iff_eq]
      by_cases hp : p = c.state.heap.length
      · subst hp; simp; omega
      · have : ¬ c.state.heap.length = p := fun e => hp e.symm
        simp [hp, this]
    simp only [hrefs, deref_heap_push c.state s1 v hheap p]
    by_cases hp : p = c.state.heap.length
    · subst hp
      simp only [eq_self_iff_true, if_true, Option.some.injEq, hnew]
      exact ⟨fun w hw => by subst hw; simp [hv], fun hn => by simp at hn⟩
    · simp only [hp, if_false, Nat.add_zero]
      exact hR p
  · have hlt := deref_lt c.state q v hd
    refine ⟨by simpa [hmap] using hK, by simpa [cached_pointers, hmap] using hV, ?_⟩
    intro p
    have hrefs : references { state := s1, held := q :: c.held } p =
        references c p + (if p = q then 1 else 0) := by
      simp only [references, cached_pointers, hmap, List.count_cons, beq_iff_eq]
      by_cases hp : p = q
      · subst hp; simp; omega
      · have : ¬ q = p := fun e => hp e.symm
        simp [hp, this]
    simp only [hrefs, deref_heap_set c.state s1 p q _ hlt hheap]
    by_cases hp : p = q
    · subst hp
      simp only [eq_self_iff_true, if_true, Option.some.injEq]
      obtain ⟨h1, h2⟩ := (hR p).1 v hd
      refine ⟨fun w hw => ?_, fun hn => by simp at hn⟩
      subst hw
      constructor
      · show v.refcount + 1 = ((references c p + 1 : Nat) : Int)
        push_cast
        omega
      · exact le_trans h2 (Nat.le_add_right _ _)
    · simp only [hp, if_false, Nat.add_zero]
      exact hR p
  · refine ⟨by simpa [hmap] using hK, by simpa [cached_pointers, hmap] using hV, ?_⟩
    intro p
    have hrefs : references { state := s1, held := c.held } p = references c p := by
      simp only [references, cached_pointers, hmap]
    rw [hrefs, deref_heap_eq c.state s1 p hheap]
    exact hR p
  · rw [hash_table_put_absent _ host _ hget] at hmap
    have hnot : c.state.heap.length ∉ cached_pointers c.state := by
      intro hmem
      have := List.count_pos_iff.mpr hmem
      unfold references at hnew
      omega
    refine ⟨?_, ?_, ?_⟩
    · simp only [hmap, Option.getD_some, List.pairwise_cons]
      refine ⟨?_, hK⟩
      intro e he
      have h1 := (same_key_false_iff _ _).mp (hash_table_get_none _ host hget e he)
      rw [same_key_false_iff]
      have h2 : (xstrdup_lower host).map TOLOWER = host.map TOLOWER := by
        have := xstrdup_lower_idem host
        unfold xstrdup_lower at this ⊢
        exact this
      rw [h2]
      exact fun e1 => h1 e1.symm
    · simp only [cached_pointers, hmap, Option.getD_some, List.map_cons, List.nodup_cons]
      exact ⟨hnot, hV⟩
    · intro p
      have hrefs : references { state := s1, held := c.state.heap.length :: c.held } p =
          references c p + (if p = c.state.heap.length then 2 else 0) := by
        simp only [references, cached_pointers, hmap, Option.getD_some, List.map_cons,
          List.count_cons, beq_iff_eq]
        by_cases hp : p = c.state.heap.length
        · subst hp; simp; omega
        · have : ¬ c.state.heap.length = p := fun e => hp e.symm
          simp [hp, this]
      simp only [hrefs, deref_heap_push c.state s1 v hheap p]
      by_cases hp : p = c.state.heap.length
      · subst hp
        simp only [eq_self_iff_true, if_true, Option.some.injEq, hnew]
        exact ⟨fun w hw => by subst hw; simp [hv], fun hn => by simp at hn⟩
      · simp only [hp, if_false, Nat.add_zero]
        exact hR p

/-- A release of a reference that a caller holds keeps the invariant. -/
theorem cache_invariant_release (c : Client) (al : Nat) (s1 : HostState)
    (hinv : cache_invariant c) (hheld : al ∈ c.held)
    (h : address_list_release al c.state = .ok s1) :
    cache_invariant { state := s1, held := c.held.erase al } := by
  obtain ⟨hK, hV, hR⟩ := hinv
  obtain ⟨v, hd, hmap, hderef⟩ := release_effect al c.state s1 h
  refine ⟨by simpa [hmap] using hK, by simpa [cached_pointers, hmap] using hV, ?_⟩
  have hpos : 1 ≤ c.held.count al := List.count_pos_iff.mpr hheld
  obtain ⟨h1, h2⟩ := (hR al).1 v hd
  intro p
  by_cases hp : p = al
  · subst hp
    have hrefs : references { state := s1, held := c.held.erase p } p + 1 = references c p := by
      simp only [references, cached_pointers, hmap, List.count_erase_self]
      omega
    rw [hderef p, if_pos rfl]
    by_cases hr : v.refcount - 1 ≤ 0
    · rw [if_pos hr]
      exact ⟨fun w hw => by simp at hw, fun _ => by omega⟩
    · rw [if_neg hr]
      refine ⟨fun w hw => ?_, fun hn => by simp at hn⟩
      simp only [Option.some.injEq] at hw
      subst hw
      constructor
      · show v.refcount - 1 = _
        omega
      · omega
  · have hrefs : references { state := s1, held := c.held.erase al } p = references c p := by
      simp only [references, cached_pointers, hmap, List.count_erase_of_ne hp]
    rw [hderef p, if_neg hp, hrefs]
    exact hR p

theorem run_op_set_effect (env : HostEnv) (al : Nat) (op : ListOp) (s s1 : HostState)
    (hop : (∃ index, op = .set_faulty index) ∨ op = .set_connected)
    (h : run_op env al op s = .ok s1) :
    s1.host_name_addresses_map = s.host_name_addresses_map ∧
    ∃ v v1, s.deref al = some v ∧ v1.refcount = v.refcount ∧
      ∀ q, s1.deref q = if q = al then some v1 else s.deref q := by
  rcases hop with ⟨index, rfl⟩ | rfl
  · simp only [run_op] at h
    cases hd : s.deref al with
    | none => simp [hd] at h
    | some v =>
      cases hf : address_list_set_faulty v index with
      | fault f => simp [hd, hf] at h
      | ok v1 =>
        simp only [hd, hf, Run.ok.injEq] at h
        subst h
        refine ⟨rfl, v, v1, rfl, ?_, fun q => deref_store s al q v1 (deref_lt s al v hd)⟩
        unfold address_list_set_faulty at hf
        by_cases hi : index = v.faulty
        · by_cases hw : v.faulty + 1 ≥ v.count
          · simp [hi, hw] at hf
            rw [← hf]
          · simp [hi, hw] at hf
            rw [← hf]
        · simp [hi] at hf
  · simp only [run_op] at h
    cases hd : s.deref al with
    | none => simp [hd] at h
    | some v =>
      simp only [hd, Run.ok.injEq] at h
      subst h
      exact ⟨rfl, v, address_list_set_connected v, rfl, rfl,
        fun q => deref_store s al q _ (deref_lt s al v hd)⟩

/-- The calls `address_list_set_faulty` and `address_list_set_connected` keep the
    invariant. -/
theorem cache_invariant_set (env : HostEnv) (c : Client) (al : Nat) (op : ListOp)
    (s1 : HostState) (hinv : cache_invariant c)
    (hop : (∃ index, op = .set_faulty index) ∨ op = .set_connected)
    (h : run_op env al op c.state = .ok s1) :
    cache_invariant { state := s1, held := c.held } := by
  obtain ⟨hK, hV, hR⟩ := hinv
  obtain ⟨hmap, v, v1, hd, hv, hderef⟩ := run_op_set_effect env al op c.state s1 hop h
  refine ⟨by simpa [hmap] using hK, by simpa [cached_pointers, hmap] using hV, ?_⟩
  intro p
  have hrefs : references { state := s1, held := c.held } p = references c p := by
    simp only [references, cached_pointers, hmap]
  rw [hrefs, hderef p]
  by_cases hp : p = al
  · subst hp
    rw [if_pos rfl]
    obtain ⟨h1, h2⟩ := (hR p).1 v hd
    refine ⟨fun w hw => ?_, fun hn => by simp at hn⟩
    simp only [Option.some.injEq] at hw
    subst hw
    exact ⟨by rw [hv]; exact h1, h2⟩
  · rw [if_neg hp]
    exact hR p

/-- The call `forget_host_lookup` keeps the invariant. -/
theorem cache_invariant_forget (c : Client) (host : CString) (s1 : HostState)
    (hinv : cache_invariant c) (h : forget_host_lookup host c.state = .ok s1) :
    cache_invariant { state := s1, held := c.held } := by
  obtain ⟨hK, hV, hR⟩ := hinv
  cases hm : c.state.host_name_addresses_map with
  | none =>
    unfold forget_host_lookup at h
    simp [hm] at h
  | some ht =>
    simp only [hm, Option.getD_some] at hK
    have hV1 : (ht.map Prod.snd).Nodup := by simpa [cached_pointers, hm] using hV
    cases hg : hash_table_get ht host with
    | none =>
      rw [forget_host_lookup_absent host c.state ht hm hg] at h
      simp only [Run.ok.injEq] at h
      subst h
      exact ⟨by simpa [hm] using hK, hV, hR⟩
    | some al =>
      rw [forget_host_lookup_cached host c.state ht al hm hg] at h
      cases hrel : address_list_release al c.state with
      | fault f => simp [hrel] at h
      | ok s2 =>
        simp only [hrel, Run.ok.injEq] at h
        subst h
        obtain ⟨v, hd, -, hderef⟩ := release_effect al c.state s2 hrel
        have hcount := hash_table_remove_count host al ht hK hg
        obtain ⟨h1, h2⟩ := (hR al).1 v hd
        refine ⟨?_, ?_, ?_⟩
        · simpa using hash_table_remove_pairwise ht host hK
        · simpa [cached_pointers] using hash_table_remove_nodup ht host hV1
        · intro p
          have hrefs : references
              { state := { s2 with host_name_addresses_map := some (hash_table_remove ht host) },
                held := c.held } p + (if p = al then 1 else 0) = references c p := by
            have := hcount p
            simp only [references, cached_pointers, hm, Option.getD_some]
            omega
          have hdp : HostState.deref
              { s2 with host_name_addresses_map := some (hash_table_remove ht host) } p =
              s2.deref p := rfl
          show (∀ w, HostState.deref
              { s2 with host_name_addresses_map := some (hash_table_remove ht host) } p =
                some w → _) ∧ _
          rw [hdp, hderef p]
          by_cases hp : p = al
          · subst hp
            rw [if_pos rfl] at hrefs
            rw [if_pos rfl]
            by_cases hr : v.refcount - 1 ≤ 0
            · rw [if_pos hr]
              exact ⟨fun w hw => by simp at hw, fun _ => by omega⟩
            · rw [if_neg hr]
              refine ⟨fun w hw => ?_, fun hn => by simp at hn⟩
              simp only [Option.some.injEq] at hw
              subst hw
              constructor
              · show v.refcount - 1 = _
                omega
              · omega
          · rw [if_neg hp] at hrefs
            rw [if_neg hp]
            have hR1 := hR p
            rw [← hrefs] at hR1
            exact hR1

/-- Every call keeps the invariant. -/
theorem cache_invariant_step (env : HostEnv) (op : CacheOp) (c c1 : Client)
    (hinv : cache_invariant c) (h : client_step env op c = some (.ok c1)) :
    cache_invariant c1 := by
  cases op with
  | lookup host silent =>
    simp only [client_step] at h
    cases hl : lookup_host env host silent c.state with
    | fault f => simp [hl] at h
    | ok rs =>
      obtain ⟨r, s1⟩ := rs
      have hi := cache_invariant_lookup env host silent c r s1 hinv hl
      cases r with
      | none =>
        simp only [hl, Option.some.injEq, Run.ok.injEq] at h
        subst h
        exact hi
      | some al =>
        simp only [hl, Option.some.injEq, Run.ok.injEq] at h
        subst h
        exact hi
  | release al =>
    simp only [client_step] at h
    by_cases hheld : al ∈ c.held
    · cases hr : address_list_release al c.state with
      | fault f => simp [hheld, hr] at h
      | ok s1 =>
        simp only [hheld, if_true, hr, Option.some.injEq, Run.ok.injEq] at h
        subst h
        exact cache_invariant_release c al s1 hinv hheld hr
    · simp [hheld] at h
  | set_faulty al index =>
    simp only [client_step] at h
    cases hr : run_op env al (.set_faulty index) c.state with
    | fault f => simp [hr] at h
    | ok s1 =>
      simp only [hr, Option.some.injEq, Run.ok.injEq] at h
      subst h
      exact cache_invariant_set env c al _ s1 hinv (Or.inl ⟨index, rfl⟩) hr
  | set_connected al =>
    simp only [client_step] at h
    cases hr : run_op env al .set_connected c.state with
    | fault f => simp [hr] at h
    | ok s1 =>
      simp only [hr, Option.some.injEq, Run.ok.injEq] at h
      subst h
      exact cache_invariant_set env c al _ s1 hinv (Or.inr rfl) hr
  | forget host =>
    simp only [client_step] at h
    cases hr : forget_host_lookup host c.state with
    | fault f => simp [hr] at h
    | ok s1 =>
      simp only [hr, Option.some.injEq, Run.ok.injEq] at h
      subst h
      exact cache_invariant_forget c host s1 hinv hr

theorem cache_invariant_run (env : HostEnv) : ∀ (ops : List CacheOp) (c c1 : Client),
    cache_invariant c → client_run env ops c = some (.ok c1) → cache_invariant c1
  | [], c, c1 => by
    intro hinv h
    simp only [client_run, Option.some.injEq, Run.ok.injEq] at h
    subst h
    exact hinv
  | op :: rest, c, c1 => by
    intro hinv h
    simp only [client_run] at h
    cases hs : client_step env op c with
    | none => simp [hs] at h
    | some r =>
      cases r with
      | fault f => simp [hs] at h
      | ok c2 =>
        simp only [hs] at h
        exact cache_invariant_run env rest c2 c1 (cache_invariant_step env op c c2 hinv hs) h

/-- What the invariant says of a list that the cache maps a host to: it is in memory, and
    its `refcount` is one more than the number of references that the callers hold. -/
theorem cache_invariant_cached (c : Client) (hinv : cache_invariant c) (host : CString)
    (p : Nat)
    (hget : hash_table_get (c.state.host_name_addresses_map.getD []) host = some p) :
    ∃ v, c.state.deref p = some v ∧ v.refcount = 1 + (c.held.count p : Int) ∧
      1 ≤ v.refcount := by
  obtain ⟨-, hV, hR⟩ := hinv
  have hmem : p ∈ cached_pointers c.state := hash_table_get_mem _ host p hget
  have hone : (cached_pointers c.state).count p = 1 := List.count_eq_one_of_mem hV hmem
  cases hd : c.state.deref p with
  | none =>
    have := (hR p).2 hd
    unfold references at this
    omega
  | some v =>
    obtain ⟨h1, h2⟩ := (hR p).1 v hd
    refine ⟨v, rfl, ?_, ?_⟩
    · rw [h1]
      unfold references
      rw [hone]
      push_cast
      ring
    · rw [h1]
      exact_mod_cast h2

/-- C33: in every state reached from the empty cache through calls of `lookup_host`,
    `address_list_release` (at most one for every reference obtained),
    `address_list_set_faulty`, `address_list_set_connected` and `forget_host_lookup`, every
    list that the cache maps a host to is in memory and has `refcount` = 1 + the number of
    references of the callers that are not yet released, so `refcount >= 1`: a list is not
    freed while the cache maps a host to it. -/
theorem cache_refcount_invariant (env : HostEnv) (ops : List CacheOp) (c : Client)
    (h : client_run env ops client_start = some (.ok c)) :
    ∀ host p, hash_table_get (c.state.host_name_addresses_map.getD []) host = some p →
      ∃ v, c.state.deref p = some v ∧ v.refcount = 1 + (c.held.count p : Int) ∧
        1 ≤ v.refcount :=
  fun host p hget =>
    cache_invariant_cached c (cache_invariant_run env ops client_start c cache_invariant_start h)
      host p hget

theorem cache_refcount_invariant_witness :
    client_run env_dns client_calls client_start = some (.ok client_after_calls) ∧
    ∃ v, client_after_calls.state.deref 0 = some v ∧
      v.refcount = 1 + (client_after_calls.held.count 0 : Int) ∧ 1 ≤ v.refcount :=
  ⟨by decide,
   cache_refcount_invariant env_dns client_calls client_after_calls (by decide)
     (cstr "A.org") 0 (by decide)⟩

end Wget
